import Mathlib

/-!
# sx: parser and binder, a shallow embedding

The Go package `sx` parses a byte buffer into a tree of scalar and list nodes
(`parser.go`) and binds such a tree into a typed destination (`unmarshal.go`).

Conventions of the embedding.

* A Go `[]byte` / `string` is a `List UInt8`; a Go `int` holding a byte or `eof`
  is an `Int`.
* The parser is a state `parser` (buffer, read pointer, error) threaded through
  every method; a method returns the new state next to its Go result.
* A result of `none` means the Go call does not return normally: an index is out
  of range (run-time panic), or a loop ran out of the fuel the model gives it.
  Every statement of the form "the call returns r" is therefore `= some r`.
* Loops take their fuel from the unread length (`parser.fuel`); the mutually
  recursive `parseList` / `parseSingleNode` and the loop of `parse` take it from
  `parseFuel`, three steps per byte.
* The binder works on a value `Val` of a type `Ty` and returns the value after
  the call next to the error: Go mutates the destination in place, also when it
  then fails.  Bytes are written as numbers: 40 `(`, 41 `)`, 59 `;`, 34 the
  double quote, 96 the backtick, 92 the backslash, 124 `|`, 10 line feed,
  13 carriage return, 32 space, 9 tab.
-/

namespace sx

/-! ## ast node -/

/-- Go `type Node struct { List []Node; Value string }`.  The field `List` is
`none` for a nil slice and `some l` for a non-nil one (the parser builds lists
from `[]Node{}`, which is non-nil even when empty).  The accessor of the first
field is spelled `Node.list`, since `Node.List` would hide the type `List`. -/
inductive Node where
  | mk (list : Option (List Node)) (Value : List UInt8) : Node

/-- Field `List` of a node. -/
def Node.list : Node → Option (List Node)
  | .mk l _ => l

/-- Field `Value` of a node. -/
def Node.Value : Node → List UInt8
  | .mk _ v => v

mutual
/-- Structural equality of nodes is decidable. -/
def Node.decEq : (a b : Node) → Decidable (a = b)
  | .mk l1 v1, .mk l2 v2 =>
    match Node.decEqOpt l1 l2, (inferInstance : Decidable (v1 = v2)) with
    | isTrue h1, isTrue h2 => isTrue (by rw [h1, h2])
    | isFalse h1, _ => isFalse (by intro h; cases h; exact h1 rfl)
    | _, isFalse h2 => isFalse (by intro h; cases h; exact h2 rfl)
/-- Equality of optional child sequences. -/
def Node.decEqOpt : (a b : Option (List Node)) → Decidable (a = b)
  | none, none => isTrue rfl
  | some a, some b =>
    match Node.decEqList a b with
    | isTrue h => isTrue (by rw [h])
    | isFalse h => isFalse (by intro h2; cases h2; exact h rfl)
  | none, some _ => isFalse (by simp)
  | some _, none => isFalse (by simp)
/-- Equality of child sequences. -/
def Node.decEqList : (a b : List Node) → Decidable (a = b)
  | [], [] => isTrue rfl
  | a :: as, b :: bs =>
    match Node.decEq a b, Node.decEqList as bs with
    | isTrue h1, isTrue h2 => isTrue (by rw [h1, h2])
    | isFalse h1, _ => isFalse (by intro h; cases h; exact h1 rfl)
    | _, isFalse h2 => isFalse (by intro h; cases h; exact h2 rfl)
  | [], _ :: _ => isFalse (by simp)
  | _ :: _, [] => isFalse (by simp)
end

instance : DecidableEq Node := Node.decEq

/-- Go `Node{}`: the zero node. -/
def Node.zero : Node := Node.mk none []

/-- Go `Node{Value: string(buf)}`. -/
def Node.scalar (buf : List UInt8) : Node := Node.mk none buf

/-- Go `Node{List: out}` for a non-nil slice `out`. -/
def Node.ofList (out : List Node) : Node := Node.mk (some out) []

/-! ## parser -/

/-- Go `int(b)` for a byte `b`. -/
def int (b : UInt8) : Int := (b.toNat : Int)

/-- Go `byte(b)` for an `int`: truncation to the low eight bits. -/
def byte (b : Int) : UInt8 := UInt8.ofNat (b % 256).toNat

/-- Go `const eof int = -1`. -/
def eof : Int := -1

/-- Go `isSpace`: space, tab, line feed, carriage return. -/
def isSpace (b : Int) : Bool :=
  b == 32 || b == 9 || b == 10 || b == 13

/-- Go `isScalar`: every value except the four spaces and the five
delimiters (double quote 34, backtick 96, parentheses 40 and 41, semicolon 59). -/
def isScalar (b : Int) : Bool :=
  if b == 32 || b == 9 || b == 10 || b == 13 || b == 34 || b == 96 || b == 40
      || b == 41 || b == 59 then false
  else true

/-- Go `isHex`: the value of a hex digit, or `(eof, false)`. -/
def isHex (b : Int) : Int × Bool :=
  if 48 ≤ b ∧ b ≤ 57 then (b - 48, true)
  else if 97 ≤ b ∧ b ≤ 102 then (10 + b - 97, true)
  else if 65 ≤ b ∧ b ≤ 70 then (10 + b - 65, true)
  else (eof, false)

/-- Go `type parser struct { data []byte; ptr int; err error }`. -/
structure parser where
  data : List UInt8
  ptr : Nat
  err : Option String
  deriving DecidableEq

/-- Go `p.error(msg)`: jump to the end of the buffer, record the error, return `eof`. -/
def parser.error (p : parser) (msg : String) : parser × Int :=
  ({ p with ptr := p.data.length, err := some msg }, eof)

/-- Go `p.current()`: current byte or `eof`. -/
def parser.current (p : parser) : Option Int :=
  if p.ptr = p.data.length then some eof
  else (p.data[p.ptr]?).map int

/-- Go `p.next(n)`: `eof` when `ptr+n` is at or past the end, else `data[ptr]`
(the source indexes with `ptr`, not `ptr+n`). -/
def parser.next (p : parser) (n : Nat) : Option Int :=
  if p.ptr + n ≥ p.data.length then some eof
  else (p.data[p.ptr]?).map int

/-- Go `p.advance()`: increment the pointer unless at the end, return the current byte. -/
def parser.advance (p : parser) : Option (parser × Int) :=
  let q : parser := if p.ptr < p.data.length then { p with ptr := p.ptr + 1 } else p
  (q.current).map (fun b => (q, b))

/-- Go `p.advanceN(n)`: add `n` to the pointer, clamp to the length. -/
def parser.advanceN (p : parser) (n : Nat) : Option (parser × Int) :=
  let q : parser :=
    if p.ptr + n > p.data.length then { p with ptr := p.data.length }
    else { p with ptr := p.ptr + n }
  (q.current).map (fun b => (q, b))

/-- Go `p.unreadLen()`. -/
def parser.unreadLen (p : parser) : Int :=
  (p.data.length : Int) - (p.ptr : Int)

/-- Fuel for a loop that consumes at least one byte per iteration. -/
def parser.fuel (p : parser) : Nat :=
  p.data.length - p.ptr + 1

/-- Loop of `skipToNonSpace`; `b` is the loop variable. -/
def skipToNonSpaceLoop : Nat → parser → Int → Option parser
  | 0, _, _ => none
  | fuel + 1, p, b =>
    if b != eof && isSpace b then
      (p.advance).bind (fun r => skipToNonSpaceLoop fuel r.1 r.2)
    else some p

/-- Go `p.skipToNonSpace()`. -/
def parser.skipToNonSpace (p : parser) : Option parser :=
  (p.current).bind (fun b => skipToNonSpaceLoop p.fuel p b)

/-- Loop of `skipComment`. -/
def skipCommentLoop : Nat → parser → Int → Option parser
  | 0, _, _ => none
  | fuel + 1, p, b =>
    if b != eof && b != 10 then
      (p.advance).bind (fun r => skipCommentLoop fuel r.1 r.2)
    else some p

/-- Go `p.skipComment()`: advance to the next line feed or to the end. -/
def parser.skipComment (p : parser) : Option parser :=
  (p.current).bind (fun b => skipCommentLoop p.fuel p b)

/-- Loop of `matches`: compare `s` with the buffer from `ptr+i` on. -/
def matchesLoop (p : parser) : List UInt8 → Nat → Option Bool
  | [], _ => some true
  | c :: s, i =>
    (p.data[p.ptr + i]?).bind (fun d =>
      if d != c then some false else matchesLoop p s (i + 1))

/-- Go `p.matches(s)`. -/
def parser.matches (p : parser) (s : List UInt8) : Option Bool :=
  if p.unreadLen < (s.length : Int) then some false
  else matchesLoop p s 0

/-- Loop of `parseScalar`. -/
def parseScalarLoop : Nat → parser → Int → List UInt8 → Option (parser × List UInt8)
  | 0, _, _, _ => none
  | fuel + 1, p, b, buf =>
    if b != eof && isScalar b then
      (p.advance).bind (fun r => parseScalarLoop fuel r.1 r.2 (buf ++ [byte b]))
    else some (p, buf)

/-- Go `p.parseScalar()`. -/
def parser.parseScalar (p : parser) : Option (parser × Node) :=
  (p.current).bind (fun b =>
    (parseScalarLoop p.fuel p b []).map (fun r => (r.1, Node.scalar r.2)))

/-- Go `p.parseEscapeSequence()`: pointer at the backslash on entry, at the last
character of the escape on exit.  Returns the decoded byte, or sets an error and
returns `eof`.  Cases: double quote 34, backslash 92, `r` 114, `n` 110, `t` 116,
`x` 120. -/
def parser.parseEscapeSequence (p : parser) : Option (parser × Int) :=
  (p.advance).bind (fun r =>
    let p := r.1
    let b := r.2
    if b = 34 then some (p, 34)
    else if b = 92 then some (p, 92)
    else if b = 114 then some (p, 13)
    else if b = 110 then some (p, 10)
    else if b = 116 then some (p, 9)
    else if b = 120 then
      if p.unreadLen < 3 then
        some (p.error "unexpected eof when parsing a string escape sequence (hex literal)")
      else
        (p.data[p.ptr + 1]?).bind (fun d1 =>
          let a := (isHex (int d1)).1
          if !(isHex (int d1)).2 then
            some (p.error "invalid first hex digit in string escape sequence")
          else
            (p.data[p.ptr + 2]?).bind (fun d2 =>
              let b := (isHex (int d2)).1
              if !(isHex (int d2)).2 then
                some (p.error "invalid second hex digit in string escape sequence")
              else
                (p.advanceN 2).map (fun r => (r.1, a * 16 + b))))
    else if b = eof then
      some (p.error "unexpected eof when parsing a string escape sequence")
    else
      some (p.error "invalid escape sequence"))

/-- Loop of `parseStringLiteral`; `b` is the loop variable, `buf` the bytes so far. -/
def parseStringLiteralLoop : Nat → parser → Int → List UInt8 → Option (parser × Node × Bool)
  | 0, _, _, _ => none
  | fuel + 1, p, b, buf =>
    if b != eof then
      if b = 92 then
        (p.parseEscapeSequence).bind (fun r =>
          if r.2 = eof then some (r.1, Node.zero, false)
          else
            (r.1.advance).bind (fun q =>
              parseStringLiteralLoop fuel q.1 q.2 (buf ++ [byte r.2])))
      else if b = 34 then
        (p.advance).map (fun r => (r.1, Node.scalar buf, true))
      else if b = 10 then
        some ((p.error
          "unexpected '\\n' in a string literal, allowed in multi-line strings only").1,
          Node.zero, false)
      else
        (p.advance).bind (fun q =>
          parseStringLiteralLoop fuel q.1 q.2 (buf ++ [byte b]))
    else
      some ((p.error "unexpected eof, missing terminating '\"' in a string literal").1,
        Node.zero, false)

/-- Go `p.parseStringLiteral()`: pointer at the opening quote on entry. -/
def parser.parseStringLiteral (p : parser) : Option (parser × Node × Bool) :=
  (p.advance).bind (fun r => parseStringLiteralLoop p.fuel r.1 r.2 [])

/-- Loop of `parseRawStringLiteral`; 96 is the backtick. -/
def parseRawStringLiteralLoop : Nat → parser → Int → List UInt8 → Option (parser × Node × Bool)
  | 0, _, _, _ => none
  | fuel + 1, p, b, buf =>
    if b != eof then
      if b = 96 then
        (p.advance).map (fun r => (r.1, Node.scalar buf, true))
      else if b = 10 then
        some ((p.error
          "unexpected '\\n' in a raw string literal, allowed in multi-line strings only").1,
          Node.zero, false)
      else
        (p.advance).bind (fun q =>
          parseRawStringLiteralLoop fuel q.1 q.2 (buf ++ [byte b]))
    else
      some ((p.error "unexpected eof, missing terminating '`' in a raw string literal").1,
        Node.zero, false)

/-- Go `p.parseRawStringLiteral()`: pointer at the opening backtick on entry. -/
def parser.parseRawStringLiteral (p : parser) : Option (parser × Node × Bool) :=
  (p.advance).bind (fun r => parseRawStringLiteralLoop p.fuel r.1 r.2 [])

/-- Loop of `parseRawLine`: copy up to a line feed or the end, dropping carriage returns. -/
def parseRawLineLoop : Nat → parser → Int → List UInt8 → Option (parser × List UInt8)
  | 0, _, _, _ => none
  | fuel + 1, p, b, buf =>
    if b != eof && b != 10 then
      (p.advance).bind (fun q =>
        parseRawLineLoop fuel q.1 q.2 (if b = 13 then buf else buf ++ [byte b]))
    else some (p, buf)

/-- Go `p.parseRawLine(buf)`: pointer at the opening `|` on entry. -/
def parser.parseRawLine (p : parser) (buf : List UInt8) : Option (parser × List UInt8) :=
  (p.advance).bind (fun r =>
    (if r.2 = 32 then (r.1.advance).map (fun q => q.1) else some r.1).bind (fun q =>
      (q.current).bind (fun b => parseRawLineLoop p.fuel q b buf)))

/-- Loop of `parseMultiLineStringLiteral`; 96 is the backtick, 124 the bar. -/
def parseMultiLineStringLiteralLoop : Nat → parser → List UInt8 → Option (parser × Node × Bool)
  | 0, _, _ => none
  | fuel + 1, p, buf =>
    (p.skipToNonSpace).bind (fun p =>
      (p.current).bind (fun b =>
        if b = 96 then
          (p.advance).map (fun r => (r.1, Node.scalar buf, true))
        else if b = 124 then
          (p.parseRawLine (if buf.length != 0 then buf ++ [10] else buf)).bind (fun r =>
            (r.1.advance).bind (fun q =>
              parseMultiLineStringLiteralLoop fuel q.1 r.2))
        else if b = eof then
          some ((p.error "unexpected eof when parsing a multi-line string literal").1,
            Node.zero, false)
        else
          some ((p.error
            "invalid beginning of a string in a multi-line string literal, '`' or '|' expected").1,
            Node.zero, false)))

/-- Go `p.parseMultiLineStringLiteral()`: pointer at the opening backtick on entry. -/
def parser.parseMultiLineStringLiteral (p : parser) : Option (parser × Node × Bool) :=
  (p.next 1).bind (fun b =>
    (if b = 13 then p.advanceN 3 else p.advanceN 2).bind (fun r =>
      parseMultiLineStringLiteralLoop p.fuel r.1 []))

mutual
/-- Loop of `parseList`; `out` is the list of children so far. -/
def parseListLoop : Nat → parser → List Node → Option (parser × Node × Bool)
  | 0, _, _ => none
  | fuel + 1, p, out =>
    (p.skipToNonSpace).bind (fun p =>
      (p.current).bind (fun b =>
        if b = eof then
          some ((p.error "unexpected eof when parsing a list").1, Node.zero, false)
        else if b = 41 then
          (p.advance).map (fun r => (r.1, Node.ofList out, true))
        else
          (parseSingleNode fuel p).bind (fun r =>
            if !r.2.2 then some (r.1, Node.zero, false)
            else parseListLoop fuel r.1 (out ++ [r.2.1]))))
/-- Go `p.parseList()`: pointer at the opening parenthesis on entry. -/
def parseList : Nat → parser → Option (parser × Node × Bool)
  | 0, _ => none
  | fuel + 1, p => (p.advance).bind (fun r => parseListLoop fuel r.1 [])
/-- Go `p.parseSingleNode()`.  The `switch` on the current byte: `(` 40, `)` 41,
double quote 34, backtick 96, `;` 59, `eof`, and the default (a bare scalar). -/
def parseSingleNode : Nat → parser → Option (parser × Node × Bool)
  | 0, _ => none
  | fuel + 1, p =>
    (p.skipToNonSpace).bind (fun p =>
      (p.current).bind (fun b =>
        if b = 40 then parseList fuel p
        else if b = 41 then
          some ((p.error "unmatched closing parenthesis ')'").1, Node.zero, false)
        else if b = 34 then p.parseStringLiteral
        else if b = 96 then
          (p.matches [96, 10]).bind (fun m1 =>
            (if m1 then some true else p.matches [96, 13, 10]).bind (fun m =>
              if m then p.parseMultiLineStringLiteral
              else p.parseRawStringLiteral))
        else if b = 59 then
          (p.skipComment).bind (fun q => parseSingleNode fuel q)
        else if b = eof then some (p, Node.zero, false)
        else (p.parseScalar).map (fun r => (r.1, r.2, true))))
end

/-- Loop of `parse`; `out` is nil (the empty list) until the first node. -/
def parseLoop : Nat → parser → List Node → Option (parser × List Node)
  | 0, _, _ => none
  | fuel + 1, p, out =>
    (parseSingleNode fuel p).bind (fun r =>
      if !r.2.2 then some (r.1, out)
      else parseLoop fuel r.1 (out ++ [r.2.1]))

/-- Go `p.parse()`: the nodes when no error was recorded, else nil. -/
def parser.parse (fuel : Nat) (p : parser) : Option (parser × List Node) :=
  (parseLoop fuel p []).map (fun r =>
    if r.1.err = none then (r.1, r.2) else (r.1, []))

/-- Fuel for `Parse`: three steps per byte (node, list, list loop) and the
final end-of-input steps. -/
def parseFuel (data : List UInt8) : Nat := 3 * data.length + 3

/-- Go `Parse(data)`: the tree and the error. -/
def Parse (data : List UInt8) : Option (List Node × Option String) :=
  (parser.parse (parseFuel data) { data := data, ptr := 0, err := none }).map
    (fun r => (r.2, r.1.err))

/-! ## Reading position: the buffer split at the read pointer -/

/-- The parser state whose read pointer stands between `pre` and `rest`. -/
def mkp (pre rest : List UInt8) (e : Option String) : parser :=
  { data := pre ++ rest, ptr := pre.length, err := e }

/-- The `int` that `current` yields in front of `rest`. -/
def hd : List UInt8 → Int
  | [] => eof
  | b :: _ => int b

/-! ## Vocabulary of the statements: tokens, string items, raw lines -/

/-- The whitespace bytes: space, tab, line feed, carriage return. -/
def spaceBytes : List UInt8 := [32, 9, 10, 13]

/-- The delimiter bytes: double quote, backtick, both parentheses, semicolon. -/
def delimBytes : List UInt8 := [34, 96, 40, 41, 59]

/-- A bare token: non-empty, no whitespace, no delimiter. -/
def IsToken (t : List UInt8) : Prop :=
  t ≠ [] ∧ ∀ b ∈ t, b ∉ spaceBytes ∧ b ∉ delimBytes

/-- Text of a token sequence: every token followed by its own whitespace run. -/
def joinTokens : List (List UInt8 × List UInt8) → List UInt8
  | [] => []
  | p :: r => p.1 ++ p.2 ++ joinTokens r

/-- The node of `k + 1` list nodes nested inside each other; the innermost is a
list node with zero children. -/
def nestedList : Nat → Node
  | 0 => Node.ofList []
  | k + 1 => Node.ofList [nestedList k]

/-- Value of a hex digit, by the words of the spec: `0`-`9`, `a`-`f`, `A`-`F`,
case-insensitive; `none` for any other byte. -/
def hexDigitVal (b : UInt8) : Option Nat :=
  if 48 ≤ b.toNat ∧ b.toNat ≤ 57 then some (b.toNat - 48)
  else if 97 ≤ b.toNat ∧ b.toNat ≤ 102 then some (b.toNat - 97 + 10)
  else if 65 ≤ b.toNat ∧ b.toNat ≤ 70 then some (b.toNat - 65 + 10)
  else none

/-- One item of the body of a quoted string: a plain byte, one of the five
one-letter escapes, or a hex escape with its two digit bytes. -/
inductive Item where
  | plain (b : UInt8)
  | quote
  | backslash
  | cr
  | lf
  | tab
  | hex (h1 h2 : UInt8)
  deriving DecidableEq

/-- Well-formed items: a plain byte is none of double quote (34), backslash (92)
and line feed (10); the digits of a hex escape are hex digits. -/
def Item.ok : Item → Prop
  | .plain b => b ≠ 34 ∧ b ≠ 92 ∧ b ≠ 10
  | .hex h1 h2 => (hexDigitVal h1).isSome = true ∧ (hexDigitVal h2).isSome = true
  | _ => True

/-- Source text of an item; 92 is the backslash, 114 110 116 120 are `r n t x`. -/
def Item.src : Item → List UInt8
  | .plain b => [b]
  | .quote => [92, 34]
  | .backslash => [92, 92]
  | .cr => [92, 114]
  | .lf => [92, 110]
  | .tab => [92, 116]
  | .hex h1 h2 => [92, 120, h1, h2]

/-- The byte an item stands for (the reference unescape). -/
def Item.dec : Item → UInt8
  | .plain b => b
  | .quote => 34
  | .backslash => 92
  | .cr => 13
  | .lf => 10
  | .tab => 9
  | .hex h1 h2 => UInt8.ofNat (16 * (hexDigitVal h1).getD 0 + (hexDigitVal h2).getD 0)

/-- Source text of a sequence of items. -/
def srcOf (items : List Item) : List UInt8 := (items.map Item.src).flatten

/-- Decoded bytes of a sequence of items. -/
def decOf (items : List Item) : List UInt8 := items.map Item.dec

/-- Text of the content lines of a multi-line raw string: every line is written
as `|` (124), one space, the line, a line feed. -/
def rawLines (lines : List (List UInt8)) : List UInt8 :=
  (lines.map (fun l => [124, 32] ++ l ++ [10])).flatten

/-- The buffer of `parseMultiLineStringLiteral` after one more content line: a
line feed is written first when the buffer is not empty. -/
def appendLine (buf l : List UInt8) : List UInt8 :=
  (if buf.length != 0 then buf ++ [10] else buf) ++ l

/-! ## Destinations of the binder -/

/-- A Go value as the binder sees it through `reflect`.  `float` holds the bits of
a `float64`; `slice` and `map` are `none` when nil; `ptr` owns its target (`none`
when nil), so two pointers never share a target in this model; `other` stands
for a value of a kind the binder does not support (channel, function, ...). -/
inductive Val where
  | int (n : Int)
  | uint (n : Nat)
  | float (bits : Nat)
  | bool (b : Bool)
  | string (s : List UInt8)
  | array (elems : List Val)
  | slice (elems : Option (List Val))
  | map (entries : Option (List (Val × Val)))
  | struct (fields : List Val)
  | ptr (target : Option Val)
  | other

mutual
/-- Structural equality of values is decidable. -/
def Val.decEq : (a b : Val) → Decidable (a = b)
  | .int a, .int b =>
    if h : a = b then isTrue (by rw [h]) else isFalse (by intro h2; cases h2; exact h rfl)
  | .uint a, .uint b =>
    if h : a = b then isTrue (by rw [h]) else isFalse (by intro h2; cases h2; exact h rfl)
  | .float a, .float b =>
    if h : a = b then isTrue (by rw [h]) else isFalse (by intro h2; cases h2; exact h rfl)
  | .bool a, .bool b =>
    if h : a = b then isTrue (by rw [h]) else isFalse (by intro h2; cases h2; exact h rfl)
  | .string a, .string b =>
    if h : a = b then isTrue (by rw [h]) else isFalse (by intro h2; cases h2; exact h rfl)
  | .array a, .array b =>
    match Val.decEqList a b with
    | isTrue h => isTrue (by rw [h])
    | isFalse h => isFalse (by intro h2; cases h2; exact h rfl)
  | .slice a, .slice b =>
    match Val.decEqOptList a b with
    | isTrue h => isTrue (by rw [h])
    | isFalse h => isFalse (by intro h2; cases h2; exact h rfl)
  | .map a, .map b =>
    match Val.decEqOptPairs a b with
    | isTrue h => isTrue (by rw [h])
    | isFalse h => isFalse (by intro h2; cases h2; exact h rfl)
  | .struct a, .struct b =>
    match Val.decEqList a b with
    | isTrue h => isTrue (by rw [h])
    | isFalse h => isFalse (by intro h2; cases h2; exact h rfl)
  | .ptr a, .ptr b =>
    match Val.decEqOpt a b with
    | isTrue h => isTrue (by rw [h])
    | isFalse h => isFalse (by intro h2; cases h2; exact h rfl)
  | .other, .other => isTrue rfl
  | .int _, .uint _ | .int _, .float _ | .int _, .bool _ | .int _, .string _
  | .int _, .array _ | .int _, .slice _ | .int _, .map _ | .int _, .struct _
  | .int _, .ptr _ | .int _, .other => isFalse (by intro h; cases h)
  | .uint _, .int _ | .uint _, .float _ | .uint _, .bool _ | .uint _, .string _
  | .uint _, .array _ | .uint _, .slice _ | .uint _, .map _ | .uint _, .struct _
  | .uint _, .ptr _ | .uint _, .other => isFalse (by intro h; cases h)
  | .float _, .int _ | .float _, .uint _ | .float _, .bool _ | .float _, .string _
  | .float _, .array _ | .float _, .slice _ | .float _, .map _ | .float _, .struct _
  | .float _, .ptr _ | .float _, .other => isFalse (by intro h; cases h)
  | .bool _, .int _ | .bool _, .uint _ | .bool _, .float _ | .bool _, .string _
  | .bool _, .array _ | .bool _, .slice _ | .bool _, .map _ | .bool _, .struct _
  | .bool _, .ptr _ | .bool _, .other => isFalse (by intro h; cases h)
  | .string _, .int _ | .string _, .uint _ | .string _, .float _ | .string _, .bool _
  | .string _, .array _ | .string _, .slice _ | .string _, .map _ | .string _, .struct _
  | .string _, .ptr _ | .string _, .other => isFalse (by intro h; cases h)
  | .array _, .int _ | .array _, .uint _ | .array _, .float _ | .array _, .bool _
  | .array _, .string _ | .array _, .slice _ | .array _, .map _ | .array _, .struct _
  | .array _, .ptr _ | .array _, .other => isFalse (by intro h; cases h)
  | .slice _, .int _ | .slice _, .uint _ | .slice _, .float _ | .slice _, .bool _
  | .slice _, .string _ | .slice _, .array _ | .slice _, .map _ | .slice _, .struct _
  | .slice _, .ptr _ | .slice _, .other => isFalse (by intro h; cases h)
  | .map _, .int _ | .map _, .uint _ | .map _, .float _ | .map _, .bool _
  | .map _, .string _ | .map _, .array _ | .map _, .slice _ | .map _, .struct _
  | .map _, .ptr _ | .map _, .other => isFalse (by intro h; cases h)
  | .struct _, .int _ | .struct _, .uint _ | .struct _, .float _ | .struct _, .bool _
  | .struct _, .string _ | .struct _, .array _ | .struct _, .slice _ | .struct _, .map _
  | .struct _, .ptr _ | .struct _, .other => isFalse (by intro h; cases h)
  | .ptr _, .int _ | .ptr _, .uint _ | .ptr _, .float _ | .ptr _, .bool _
  | .ptr _, .string _ | .ptr _, .array _ | .ptr _, .slice _ | .ptr _, .map _
  | .ptr _, .struct _ | .ptr _, .other => isFalse (by intro h; cases h)
  | .other, .int _ | .other, .uint _ | .other, .float _ | .other, .bool _
  | .other, .string _ | .other, .array _ | .other, .slice _ | .other, .map _
  | .other, .struct _ | .other, .ptr _ => isFalse (by intro h; cases h)
termination_by structural a => a
/-- Equality of lists of values. -/
def Val.decEqList : (a b : List Val) → Decidable (a = b)
  | [], [] => isTrue rfl
  | a :: as, b :: bs =>
    match Val.decEq a b, Val.decEqList as bs with
    | isTrue h1, isTrue h2 => isTrue (by rw [h1, h2])
    | isFalse h1, _ => isFalse (by intro h; cases h; exact h1 rfl)
    | _, isFalse h2 => isFalse (by intro h; cases h; exact h2 rfl)
  | [], _ :: _ => isFalse (by simp)
  | _ :: _, [] => isFalse (by simp)
termination_by structural a => a
/-- Equality of optional lists of values. -/
def Val.decEqOptList : (a b : Option (List Val)) → Decidable (a = b)
  | none, none => isTrue rfl
  | some a, some b =>
    match Val.decEqList a b with
    | isTrue h => isTrue (by rw [h])
    | isFalse h => isFalse (by intro h2; cases h2; exact h rfl)
  | none, some _ => isFalse (by simp)
  | some _, none => isFalse (by simp)
termination_by structural a => a
/-- Equality of optional values. -/
def Val.decEqOpt : (a b : Option Val) → Decidable (a = b)
  | none, none => isTrue rfl
  | some a, some b =>
    match Val.decEq a b with
    | isTrue h => isTrue (by rw [h])
    | isFalse h => isFalse (by intro h2; cases h2; exact h rfl)
  | none, some _ => isFalse (by simp)
  | some _, none => isFalse (by simp)
termination_by structural a => a
/-- Equality of key/value pairs. -/
def Val.decEqPair : (a b : Val × Val) → Decidable (a = b)
  | (a1, a2), (b1, b2) =>
    match Val.decEq a1 b1, Val.decEq a2 b2 with
    | isTrue h1, isTrue h2 => isTrue (by rw [h1, h2])
    | isFalse h1, _ => isFalse (by intro h; cases h; exact h1 rfl)
    | _, isFalse h2 => isFalse (by intro h; cases h; exact h2 rfl)
termination_by structural a => a
/-- Equality of lists of key/value pairs. -/
def Val.decEqPairs : (a b : List (Val × Val)) → Decidable (a = b)
  | [], [] => isTrue rfl
  | a :: as, b :: bs =>
    match Val.decEqPair a b, Val.decEqPairs as bs with
    | isTrue h1, isTrue h2 => isTrue (by rw [h1, h2])
    | isFalse h1, _ => isFalse (by intro h; cases h; exact h1 rfl)
    | _, isFalse h2 => isFalse (by intro h; cases h; exact h2 rfl)
  | [], _ :: _ => isFalse (by simp)
  | _ :: _, [] => isFalse (by simp)
termination_by structural a => a
/-- Equality of optional lists of key/value pairs. -/
def Val.decEqOptPairs : (a b : Option (List (Val × Val))) → Decidable (a = b)
  | none, none => isTrue rfl
  | some a, some b =>
    match Val.decEqPairs a b with
    | isTrue h => isTrue (by rw [h])
    | isFalse h => isFalse (by intro h2; cases h2; exact h rfl)
  | none, some _ => isFalse (by simp)
  | some _, none => isFalse (by simp)
termination_by structural a => a
end

instance : DecidableEq Val := Val.decEq

/-- Go `reflect.StructField`, as far as the binder reads it: `Name`, the value
`Tag.Get("sx")` (empty when the field has no `sx` tag), `Anonymous`, and
`PkgPath` (empty for an exported field). -/
structure StructField where
  Name : List UInt8
  Tag : List UInt8
  Anonymous : Bool
  PkgPath : String
  deriving DecidableEq

/-- Go `reflect.Type`, as far as the binder distinguishes types.  `int`, `uint`
and `float` carry the size in bits; `named` is a type `T` for which `T` or `*T`
implements `Unmarshaler`: its method `UnmarshalSX` takes the tree and the target
of the receiver (`none` for a nil receiver) and returns the target afterwards and
the error; `other` is any kind outside the `switch` of `unmarshalValue`.  Types
are finite trees: recursive Go types are outside the model.  `struct` is a struct
type without a method `UnmarshalSX`, its own or promoted from an embedded field:
Go tries the method before the `switch`, so a struct type with the method is a
`named` type whose `under` is the struct.  A field list for which
`promotesUnmarshalSX` holds may stand for a struct with a promoted method, which
the constructor `struct` does not describe. -/
inductive Ty where
  | int (bits : Nat)
  | uint (bits : Nat)
  | float (bits : Nat)
  | bool
  | string
  | array (len : Nat) (elem : Ty)
  | slice (elem : Ty)
  | map (key elem : Ty)
  | struct (fields : List (StructField × Ty))
  | ptr (elem : Ty)
  | named (UnmarshalSX : List Node → Option Val → Option Val × Option String) (under : Ty)
  | other

mutual
/-- Go `reflect.Zero(t)`: the zero value of a type. -/
def zero : Ty → Val
  | .int _ => .int 0
  | .uint _ => .uint 0
  | .float _ => .float 0
  | .bool => .bool false
  | .string => .string []
  | .array n e => .array (List.replicate n (zero e))
  | .slice _ => .slice none
  | .map _ _ => .map none
  | .struct fs => .struct (zeroFields fs)
  | .ptr _ => .ptr none
  | .named _ u => zero u
  | .other => .other
termination_by structural t => t
/-- Zero values of the fields of a struct type. -/
def zeroFields : List (StructField × Ty) → List Val
  | [] => []
  | f :: fs => zero f.2 :: zeroFields fs
termination_by structural fs => fs
end

/-- The functions of the Go standard library on floating point that the binder
calls: `strconv.ParseFloat(s, 64)` (`none` when it returns an error) and the
conversion `float32(x)`, both on the bits of a `float64`. -/
structure FloatLib where
  ParseFloat : List UInt8 → Option Nat
  toFloat32 : Nat → Nat

/-- Digits of `strconv.ParseUint` in base 10: every byte must be `0`-`9`. -/
def parseDigits : List UInt8 → Nat → Option Nat
  | [], acc => some acc
  | c :: cs, acc =>
    if 48 ≤ c.toNat ∧ c.toNat ≤ 57 then parseDigits cs (acc * 10 + (c.toNat - 48))
    else none

/-- Go standard library `strconv.ParseUint(s, 10, 64)`; `none` when it returns an
error (empty text, a byte that is not a digit, or a value of `2^64` or more). -/
def ParseUint (s : List UInt8) : Option Nat :=
  if s = [] then none
  else
    match parseDigits s 0 with
    | none => none
    | some n => if n < 2 ^ 64 then some n else none

/-- Go standard library `strconv.ParseInt(s, 10, 64)`: an optional sign `+` (43)
or `-` (45), then digits; `none` when it returns an error (syntax, or a value
outside `-2^63 .. 2^63-1`). -/
def ParseInt (s : List UInt8) : Option Int :=
  match s with
  | [] => none
  | c :: r =>
    let neg : Bool := c = 45
    let digits : List UInt8 := if c = 43 ∨ c = 45 then r else s
    if digits = [] then none
    else
      match parseDigits digits 0 with
      | none => none
      | some un =>
        if !neg && un ≥ 2 ^ 63 then none
        else if neg && un > 2 ^ 63 then none
        else some (if neg then -(un : Int) else (un : Int))

/-- Go `v.OverflowInt(x)` for a signed kind of `bits` bits. -/
def OverflowInt (bits : Nat) (x : Int) : Bool :=
  x < -(2 ^ (bits - 1) : Int) || x ≥ (2 ^ (bits - 1) : Int)

/-- Go `v.OverflowUint(x)` for an unsigned kind of `bits` bits. -/
def OverflowUint (bits : Nat) (x : Nat) : Bool :=
  x ≥ 2 ^ bits

/-- Modelled from the spec: the method `Node.IsScalar` is called by the binder
and is not among the source files.  The spec says that a node is scalar if and
only if its child sequence is absent, not merely empty. -/
def Node.IsScalar (n : Node) : Bool := (n.list).isNone

/-- Go `isTreeScalar`: the tree has length 1 and its only node is a scalar. -/
def isTreeScalar (tree : List Node) : Bool :=
  match tree with
  | [n] => n.IsScalar
  | _ => false

/-- Go `isTreeList`: the tree has length 1 and its only node is a list. -/
def isTreeList (tree : List Node) : Bool :=
  match tree with
  | [n] => !n.IsScalar
  | _ => false

/-- Go `indirectMap`: descend into a single list node unless its first child is a scalar. -/
def indirectMap (tree : List Node) : List Node :=
  if isTreeList tree then
    match tree with
    | n :: _ =>
      match (n.list).getD [] with
      | [] => []
      | c :: t => if !c.IsScalar then c :: t else tree
    | [] => tree
  else tree

/-- Go `tree[0].Value` of a one-node tree. -/
def firstValue (tree : List Node) : List UInt8 :=
  match tree with
  | n :: _ => n.Value
  | [] => []

/-- A binder for one destination: the tree and the value before give the value
after and the error. -/
abbrev Binder := List Node → Val → Val × Option String

/-- Case of the signed integer kinds in `unmarshalValue`. -/
def bindInt (bits : Nat) : Binder := fun tree v =>
  if !isTreeScalar tree then (v, some "scalar node expected")
  else
    match ParseInt (firstValue tree) with
    | none => (v, some "node is not an integer")
    | some num =>
      if OverflowInt bits num then (v, some "integer overflow")
      else (.int num, none)

/-- Case of the unsigned integer kinds in `unmarshalValue`. -/
def bindUint (bits : Nat) : Binder := fun tree v =>
  if !isTreeScalar tree then (v, some "scalar node expected")
  else
    match ParseUint (firstValue tree) with
    | none => (v, some "node is not an unsigned integer")
    | some num =>
      if OverflowUint bits num then (v, some "unsigned integer overflow")
      else (.uint num, none)

/-- Case of the floating point kinds in `unmarshalValue`. -/
def bindFloat (lib : FloatLib) (bits : Nat) : Binder := fun tree v =>
  if !isTreeScalar tree then (v, some "scalar node expected")
  else
    match lib.ParseFloat (firstValue tree) with
    | none => (v, some "node is not a floating point number")
    | some num => (.float (if bits = 32 then lib.toFloat32 num else num), none)

/-- Case `reflect.Bool` in `unmarshalValue`; the texts are `true` and `false`. -/
def bindBool : Binder := fun tree v =>
  if !isTreeScalar tree then (v, some "scalar node expected")
  else if firstValue tree = [116, 114, 117, 101] then (.bool true, none)
  else if firstValue tree = [102, 97, 108, 115, 101] then (.bool false, none)
  else (v, some "invalid boolean value, use true|false")

/-- Case `reflect.String` in `unmarshalValue`. -/
def bindString : Binder := fun tree v =>
  if !isTreeScalar tree then (v, some "scalar node expected")
  else (.string (firstValue tree), none)

/-- The element loop of the array and slice case: node `i` is bound, as a tree of
one node, into element `i`; the first error stops the loop.  The second equation
is not reached: the loop runs over at most as many nodes as there are elements. -/
def bindElems (bind : Binder) : List Node → List Val → List Val × Option String
  | [], vs => (vs, none)
  | _ :: _, [] => ([], none)
  | n :: ns, x :: xs =>
    match bind [n] x with
    | (x2, some err) => (x2 :: xs, some err)
    | (x2, none) => ((x2 :: (bindElems bind ns xs).1), (bindElems bind ns xs).2)

/-- The tree of the array and slice case after its one-level descent. -/
def seqTree (tree : List Node) : List Node :=
  if isTreeList tree then
    match tree with
    | n :: _ => (n.list).getD []
    | [] => tree
  else tree

/-- Case `reflect.Slice` in `unmarshalValue`: a new slice of the length of the
tree, then the element loop. -/
def bindSlice (bind : Binder) (zeroElem : Val) : Binder := fun tree _ =>
  let r := bindElems bind (seqTree tree) (List.replicate (seqTree tree).length zeroElem)
  (.slice (some r.1), r.2)

/-- Case `reflect.Array` in `unmarshalValue`: the tree is cut to the length of the
array, the element loop runs, and on success the remaining slots are zeroed. -/
def bindArray (bind : Binder) (zeroElem : Val) (len : Nat) : Binder := fun tree v =>
  let elems : List Val :=
    match v with
    | .array es => es
    | _ => []
  let nodes := (seqTree tree).take len
  match bindElems bind nodes elems with
  | (es, some err) => (.array es, some err)
  | (es, none) => (.array (es.take nodes.length ++ List.replicate (len - nodes.length) zeroElem), none)

/-- Go `v.SetMapIndex(key, val)` on the entries of a map. -/
def setMapIndex : List (Val × Val) → Val → Val → List (Val × Val)
  | [], k, x => [(k, x)]
  | e :: r, k, x => if e.1 = k then (k, x) :: r else e :: setMapIndex r k x

/-- The loop of the map case over the elements; `keyv` and `valv` are the two
values allocated once before the loop and reused by every iteration.  A `Val.ptr`
owns its target, so for a map with pointer values the entries hold copies of
the target as it is when they are stored, where the Go map holds the one shared
pointer under every key. -/
def bindMapLoop (bindKey bindVal : Binder) :
    List Node → List (Val × Val) → Val → Val → List (Val × Val) × Option String
  | [], m, _, _ => (m, none)
  | node :: rest, m, keyv, valv =>
    if node.IsScalar then
      (m, some "map element must be represented via (key value...) list")
    else
      match (node.list).getD [] with
      | first :: second :: more =>
        match bindKey [first] keyv with
        | (_, some err) => (m, some ("key unmarshaling failure: " ++ err))
        | (k2, none) =>
          match bindVal (second :: more) valv with
          | (_, some err) => (m, some ("value unmarshaling failure: " ++ err))
          | (x2, none) => bindMapLoop bindKey bindVal rest (setMapIndex m k2 x2) k2 x2
      | _ => (m, some "valid map element list must contain at least two items")

/-- Case `reflect.Map` in `unmarshalValue`: a new map, a new key and a new value,
then the loop. -/
def bindMap (bindKey bindVal : Binder) (zeroKey zeroVal : Val) : Binder := fun tree _ =>
  let r := bindMapLoop bindKey bindVal (indirectMap tree) [] zeroKey zeroVal
  (.map (some r.1), r.2)

/-- The loop of the struct case over the elements; `bindField name rest fields`
looks the field `name` up and binds `rest` into it (`none` when no field
matches, and the element is then ignored). -/
def bindStructLoop
    (bindField : List UInt8 → List Node → List Val → Option (List Val × Option String)) :
    List Node → List Val → List Val × Option String
  | [], vs => (vs, none)
  | node :: rest, vs =>
    if node.IsScalar then
      (vs, some "struct field must be represented via (name value...) list")
    else
      match (node.list).getD [] with
      | first :: second :: more =>
        if !first.IsScalar then
          (vs, some "first element of the struct field list must be scalar")
        else
          match bindField first.Value (second :: more) vs with
          | none => bindStructLoop bindField rest vs
          | some (vs2, some err) => (vs2, some err)
          | some (vs2, none) => bindStructLoop bindField rest vs2
      | _ => (vs, some "valid struct field list must contain at least two items")

/-- Call of `u.UnmarshalSX(tree)` on a receiver with target `tgt`; the method
cannot make a nil receiver non-nil or the reverse. -/
def callUnmarshalSX (g : List Node → Option Val → Option Val × Option String)
    (tree : List Node) (tgt : Option Val) : Option Val × Option String :=
  match tgt with
  | none => (none, (g tree none).2)
  | some x => (some (((g tree (some x)).1).getD x), (g tree (some x)).2)

mutual
/-- Go `unmarshalValue(tree, v)` for `v` of type `t`.  The flag is `true` at the
entry of the function and `false` after its pointer step ("one level of
indirection is supported"), where `tryUnmarshaler` and the `switch` on the kind
follow.  Field tag 45 is the text `-`.  `tryUnmarshaler` succeeds for the `named`
types; the case of `struct` is the `switch` for a struct type without the method
(see `Ty`), and says nothing about a struct that gets `UnmarshalSX` by promotion
from an embedded field. -/
def unmarshalAux (lib : FloatLib) : Bool → Ty → Binder
  | true, .ptr e => fun tree v =>
    let x : Val :=
      match v with
      | .ptr (some x) => x
      | _ => zero e
    let r := unmarshalAux lib false e tree x
    (.ptr (some r.1), r.2)
  | _, .named g _ => fun tree v =>
    let r := callUnmarshalSX g tree (some v)
    ((r.1).getD v, r.2)
  | false, .ptr (.named g _) => fun tree v =>
    let r := callUnmarshalSX g tree
      (match v with
       | .ptr tgt => tgt
       | _ => none)
    (.ptr r.1, r.2)
  | false, .ptr _ => fun _ v => (v, some "unsupported type")
  | _, .int bits => bindInt bits
  | _, .uint bits => bindUint bits
  | _, .float bits => bindFloat lib bits
  | _, .bool => bindBool
  | _, .string => bindString
  | _, .array n e => bindArray (fun tr x => unmarshalAux lib true e tr x) (zero e) n
  | _, .slice e => bindSlice (fun tr x => unmarshalAux lib true e tr x) (zero e)
  | _, .map k e =>
    bindMap (fun tr x => unmarshalAux lib true k tr x) (fun tr x => unmarshalAux lib true e tr x)
      (zero k) (zero e)
  | _, .struct fs => fun tree v =>
    let vs : List Val :=
      match v with
      | .struct vs => vs
      | _ => []
    let r := bindStructLoop (fun name rest xs => bindField lib fs name rest xs)
      (indirectMap tree) vs
    (.struct r.1, r.2)
  | _, .other => fun _ v => (v, some "unsupported type")
termination_by structural _ t => t
/-- The field lookup of the struct case and the bind into the field found: the
first field, in declaration order, that is not skipped (tag `-`, or anonymous)
and whose tag or name equals `name`.  `none` when no field matches. -/
def bindField (lib : FloatLib) :
    List (StructField × Ty) → List UInt8 → List Node → List Val →
      Option (List Val × Option String)
  | [], _, _, _ => none
  | _ :: _, _, _, [] => none
  | f :: fs, name, rest, x :: xs =>
    if f.1.Tag = [45] ∨ f.1.Anonymous = true ∨ ¬ (f.1.Tag = name ∨ f.1.Name = name) then
      (bindField lib fs name rest xs).map (fun r => (x :: r.1, r.2))
    else if f.1.PkgPath ≠ "" then
      some (x :: xs, some "writing to unexported field")
    else
      some ((unmarshalAux lib true f.2 rest x).1 :: xs, (unmarshalAux lib true f.2 rest x).2)
termination_by structural fs => fs
end

/-- Go `unmarshalValue(tree, v)`. -/
def unmarshalValue (lib : FloatLib) (tree : List Node) (t : Ty) (v : Val) : Val × Option String :=
  unmarshalAux lib true t tree v

/-- The argument `out` of `Unmarshal`: a value that is not a pointer, a nil
pointer, or a pointer to a variable of type `t` that holds `v`. -/
inductive Dest where
  | nonPointer (t : Ty) (v : Val)
  | nilPointer (t : Ty)
  | pointer (t : Ty) (v : Val)

/-- How a call of `Unmarshal` ends: it returns an error value (`none` for nil), or
it panics; in both cases with the destination as it is then. -/
inductive Outcome where
  | returned (err : Option String) (out : Dest)
  | panicked (msg : String) (out : Dest)

/-- Go `Unmarshal(data, out)`. -/
def Unmarshal (lib : FloatLib) (data : List UInt8) (out : Dest) : Option Outcome :=
  (Parse data).map (fun r =>
    match r.2 with
    | some err => Outcome.returned (some err) out
    | none =>
      match out with
      | .pointer t v =>
        Outcome.returned (unmarshalValue lib r.1 t v).2 (.pointer t (unmarshalValue lib r.1 t v).1)
      | _ => Outcome.panicked "sx.Unmarshal expects a non-nil pointer as 'out' argument" out)

/-- The primitive kinds of the binder: signed and unsigned integers, floats,
booleans and strings. -/
def Ty.isPrimitive : Ty → Bool
  | .int _ => true
  | .uint _ => true
  | .float _ => true
  | .bool => true
  | .string => true
  | _ => false

/-- The sequence kinds of the binder: arrays (fixed size) and slices (growable). -/
def Ty.isSequence : Ty → Bool
  | .array _ _ => true
  | .slice _ => true
  | _ => false

/-- An element of a map or struct tree that is a bare scalar, or a list with
fewer than two nodes. -/
def malformedElem (n : Node) : Bool :=
  match n.list with
  | none => true
  | some l => decide (l.length < 2)

/-- An element whose first node is not a scalar. -/
def nonScalarKey (n : Node) : Bool :=
  match n.list with
  | some (f :: _) => (f.list).isSome
  | _ => false

/-- The fields of a struct value (no fields for a value that is not a struct). -/
def structVals (v : Val) : List Val :=
  match v with
  | .struct vs => vs
  | _ => []

/-- A field the lookup of the struct case never matches: its tag is `-` (45), or
it is anonymous (embedded). -/
def StructField.skipped (f : StructField) : Bool :=
  decide (f.Tag = [45]) || f.Anonymous

/-- The fields at the skipped positions of `fs` are the same in `vs2` as in `vs`,
and the two lists have the same length. -/
def SkippedKept (fs : List (StructField × Ty)) (vs vs2 : List Val) : Prop :=
  vs2.length = vs.length
    ∧ ∀ (i : Nat) (f : StructField × Ty), fs[i]? = some f → f.1.skipped = true →
        vs2[i]? = vs[i]?

/-- A destination `Unmarshal` accepts: a non-nil pointer. -/
def Dest.isNonNilPointer : Dest → Bool
  | .pointer _ _ => true
  | _ => false

/-- The canonical base-10 text of a natural number: its digits, most significant
first, as the bytes `0` (48) to `9` (57); the text of zero is `0`. -/
def decimalNat (n : Nat) : List UInt8 :=
  if n = 0 then [48]
  else (Nat.digits 10 n).reverse.map (fun d => UInt8.ofNat (48 + d))

/-- The canonical base-10 text of an integer: a `-` (45) in front of the text of
the absolute value when the integer is negative. -/
def decimal (n : Int) : List UInt8 :=
  if n < 0 then 45 :: decimalNat n.natAbs else decimalNat n.natAbs

/-- An element of a struct tree of the form `(k ...)`: a list whose first child is
a scalar. -/
def keyedElem (n : Node) : Bool :=
  match n.list with
  | some (f :: _) => (f.list).isNone
  | _ => false

/-- Text of the content lines of a multi-line raw string written with carriage
return and line feed: every line is a run of spacer bytes, then `|` (124), one
space, the line, a carriage return (13) and a line feed (10).  The first
component is the spacer in front of the line, the second the line. -/
def crlfLines (lines : List (List UInt8 × List UInt8)) : List UInt8 :=
  (lines.map (fun p => p.1 ++ [124, 32] ++ p.2 ++ [13, 10])).flatten

/-- The state `q` is reached from `p` by reading: the buffer is the same, the
read pointer has not moved back and is not past the end of the buffer. -/
def parser.Reaches (p q : parser) : Prop :=
  q.data = p.data ∧ p.ptr ≤ q.ptr ∧ q.ptr ≤ p.data.length

mutual
/-- A type that, as the type of an embedded field, may bring a method
`UnmarshalSX` into the method set of the embedding struct or of its pointer: a
type with the method (`named`), a pointer to such a type, a struct that embeds
one in turn, and a type of a kind outside the binder (`other`, which includes
the interface types).  Shadowing and ambiguity, which take a promoted method
away again, are not looked at: the answer `false` is on the safe side. -/
def Ty.bringsUnmarshalSX : Ty → Bool
  | .named _ _ => true
  | .other => true
  | .ptr e => e.bringsUnmarshalSX
  | .struct fs => promotesUnmarshalSX fs
  | .int _ => false
  | .uint _ => false
  | .float _ => false
  | .bool => false
  | .string => false
  | .array _ _ => false
  | .slice _ => false
  | .map _ _ => false
termination_by structural t => t
/-- Some embedded (anonymous) field of the field list may bring a method
`UnmarshalSX`: Go's `tryUnmarshaler` then finds the promoted method on the struct
and calls it in place of the struct case.  For a field list where this is
`false`, the struct type has no promoted `UnmarshalSX`. -/
def promotesUnmarshalSX : List (StructField × Ty) → Bool
  | [] => false
  | f :: fs => (f.1.Anonymous && f.2.bringsUnmarshalSX) || promotesUnmarshalSX fs
termination_by structural fs => fs
end

/-! # Theorems -/

/-! ## Bytes and parser states -/

theorem byte_int (d : UInt8) : byte (int d) = d := by
  unfold byte int
  have h : d.toNat < 256 := d.val.isLt
  have h2 : ((d.toNat : Int) % 256).toNat = d.toNat := by omega
  rw [h2]
  cases d with
  | mk v => simp [UInt8.ofNat, UInt8.toNat]

theorem int_nonneg (d : UInt8) : 0 ≤ int d := by
  unfold int; omega

theorem int_lt (d : UInt8) : int d < 256 := by
  unfold int
  have h : d.toNat < 256 := d.val.isLt
  omega

theorem int_ne_eof (d : UInt8) : int d ≠ eof := by
  have := int_nonneg d
  unfold eof; omega

theorem int_eq_iff (d : UInt8) (k : Nat) (hk : k < 256) :
    int d = (k : Int) ↔ d = UInt8.ofNat k := by
  constructor
  · intro h
    have h1 : byte (int d) = byte (k : Int) := by rw [h]
    rw [byte_int] at h1
    rw [h1]
    unfold byte
    have h2 : ((k : Int) % 256).toNat = k := by omega
    rw [h2]
  · intro h
    subst h
    unfold int
    simp [UInt8.ofNat, UInt8.toNat, Fin.ofNat, Nat.mod_eq_of_lt hk]

theorem mkp_current_cons (pre : List UInt8) (b : UInt8) (l : List UInt8) (e : Option String) :
    (mkp pre (b :: l) e).current = some (int b) := by
  have h : (pre ++ b :: l)[pre.length]? = some b := by
    rw [List.getElem?_append_right (Nat.le_refl _)]
    simp
  simp [mkp, parser.current, h]

theorem mkp_current_nil (pre : List UInt8) (e : Option String) :
    (mkp pre [] e).current = some eof := by
  simp [mkp, parser.current]

theorem mkp_current (pre l : List UInt8) (e : Option String) :
    (mkp pre l e).current = some (hd l) := by
  cases l with
  | nil => exact mkp_current_nil pre e
  | cons b l => exact mkp_current_cons pre b l e

theorem mkp_snoc (pre : List UInt8) (b : UInt8) (l : List UInt8) (e : Option String) :
    ({ data := pre ++ b :: l, ptr := pre.length + 1, err := e } : parser)
      = mkp (pre ++ [b]) l e := by
  simp [mkp]

theorem mkp_advance_cons (pre : List UInt8) (b : UInt8) (l : List UInt8) (e : Option String) :
    (mkp pre (b :: l) e).advance = some (mkp (pre ++ [b]) l e, hd l) := by
  have h : (mkp pre (b :: l) e).advance
      = ((mkp (pre ++ [b]) l e).current).map (fun c => (mkp (pre ++ [b]) l e, c)) := by
    simp [parser.advance, mkp]
  rw [h, mkp_current]
  rfl

theorem mkp_advance_nil (pre : List UInt8) (e : Option String) :
    (mkp pre [] e).advance = some (mkp pre [] e, eof) := by
  have h : (mkp pre [] e).advance
      = ((mkp pre [] e).current).map (fun c => (mkp pre [] e, c)) := by
    simp [parser.advance, mkp]
  rw [h, mkp_current]
  rfl

theorem mkp_error (pre l : List UInt8) (e : Option String) (msg : String) :
    (mkp pre l e).error msg = (mkp (pre ++ l) [] (some msg), eof) := by
  simp [mkp, parser.error]

theorem mkp_fuel (pre l : List UInt8) (e : Option String) :
    (mkp pre l e).fuel = l.length + 1 := by
  simp [mkp, parser.fuel]

theorem mkp_unreadLen (pre l : List UInt8) (e : Option String) :
    (mkp pre l e).unreadLen = (l.length : Int) := by
  simp [mkp, parser.unreadLen]

theorem mkp_get (pre l : List UInt8) (e : Option String) (i : Nat) :
    (mkp pre l e).data[(mkp pre l e).ptr + i]? = l[i]? := by
  simp [mkp, List.getElem?_append_right]

theorem mkp_err (pre l : List UInt8) (e : Option String) : (mkp pre l e).err = e := rfl

theorem mkp_zero (data : List UInt8) :
    ({ data := data, ptr := 0, err := none } : parser) = mkp [] data none := rfl

/-! ## The simple loops -/

theorem isSpace_eof : isSpace eof = false := by decide

theorem isScalar_eof : isScalar eof = true := by decide

theorem skipToNonSpaceLoop_spec (ws : List UInt8) (hws : ∀ b ∈ ws, isSpace (int b) = true)
    (rest : List UInt8) (hrest : isSpace (hd rest) = false) (e : Option String) :
    ∀ (pre : List UInt8) (fuel : Nat), ws.length < fuel →
      skipToNonSpaceLoop fuel (mkp pre (ws ++ rest) e) (hd (ws ++ rest))
        = some (mkp (pre ++ ws) rest e) := by
  induction ws with
  | nil =>
    intro pre fuel hf
    cases fuel with
    | zero => omega
    | succ f => simp [skipToNonSpaceLoop, hrest]
  | cons b ws ih =>
    intro pre fuel hf
    cases fuel with
    | zero => omega
    | succ f =>
      have hb : isSpace (int b) = true := hws b (by simp)
      have hne : int b ≠ eof := int_ne_eof b
      have ih2 := ih (fun c hc => hws c (by simp [hc])) (pre ++ [b]) f
        (by simp at hf; omega)
      simp only [List.cons_append, hd, skipToNonSpaceLoop]
      simp only [List.cons_append] at ih2
      rw [mkp_advance_cons]
      simp [hb, hne, ih2]

theorem skipToNonSpace_spec (ws : List UInt8) (hws : ∀ b ∈ ws, isSpace (int b) = true)
    (rest : List UInt8) (hrest : isSpace (hd rest) = false) (e : Option String)
    (pre : List UInt8) :
    (mkp pre (ws ++ rest) e).skipToNonSpace = some (mkp (pre ++ ws) rest e) := by
  unfold parser.skipToNonSpace
  rw [mkp_current, mkp_fuel]
  simp only [Option.some_bind]
  exact skipToNonSpaceLoop_spec ws hws rest hrest e pre _ (by simp; omega)

theorem skipToNonSpace_none (rest : List UInt8) (hrest : isSpace (hd rest) = false)
    (e : Option String) (pre : List UInt8) :
    (mkp pre rest e).skipToNonSpace = some (mkp pre rest e) := by
  have h := skipToNonSpace_spec [] (by simp) rest hrest e pre
  simpa using h

theorem skipCommentLoop_spec (c : List UInt8) (hc : ∀ b ∈ c, int b ≠ 10)
    (rest : List UInt8) (hrest : hd rest = eof ∨ hd rest = 10) (e : Option String) :
    ∀ (pre : List UInt8) (fuel : Nat), c.length < fuel →
      skipCommentLoop fuel (mkp pre (c ++ rest) e) (hd (c ++ rest))
        = some (mkp (pre ++ c) rest e) := by
  induction c with
  | nil =>
    intro pre fuel hf
    cases fuel with
    | zero => omega
    | succ f =>
      rcases hrest with h | h <;> simp [skipCommentLoop, h]
  | cons b c ih =>
    intro pre fuel hf
    cases fuel with
    | zero => omega
    | succ f =>
      have hb : int b ≠ 10 := hc b (by simp)
      have hne : int b ≠ eof := int_ne_eof b
      have ih2 := ih (fun d hd => hc d (by simp [hd])) (pre ++ [b]) f
        (by simp at hf; omega)
      simp only [List.cons_append, hd, skipCommentLoop]
      simp only [List.cons_append] at ih2
      rw [mkp_advance_cons]
      simp [hb, hne, ih2]

theorem skipComment_spec (c : List UInt8) (hc : ∀ b ∈ c, int b ≠ 10)
    (rest : List UInt8) (hrest : hd rest = eof ∨ hd rest = 10) (e : Option String)
    (pre : List UInt8) :
    (mkp pre (c ++ rest) e).skipComment = some (mkp (pre ++ c) rest e) := by
  unfold parser.skipComment
  rw [mkp_current, mkp_fuel]
  simp only [Option.some_bind]
  exact skipCommentLoop_spec c hc rest hrest e pre _ (by simp; omega)

theorem parseScalarLoop_spec (tok : List UInt8) (htok : ∀ b ∈ tok, isScalar (int b) = true)
    (rest : List UInt8) (hrest : hd rest = eof ∨ isScalar (hd rest) = false)
    (e : Option String) :
    ∀ (pre : List UInt8) (fuel : Nat) (buf : List UInt8), tok.length < fuel →
      parseScalarLoop fuel (mkp pre (tok ++ rest) e) (hd (tok ++ rest)) buf
        = some (mkp (pre ++ tok) rest e, buf ++ tok) := by
  induction tok with
  | nil =>
    intro pre fuel buf hf
    cases fuel with
    | zero => omega
    | succ f =>
      rcases hrest with h | h <;> simp [parseScalarLoop, h]
  | cons b tok ih =>
    intro pre fuel buf hf
    cases fuel with
    | zero => omega
    | succ f =>
      have hb : isScalar (int b) = true := htok b (by simp)
      have hne : int b ≠ eof := int_ne_eof b
      have ih2 := ih (fun d hd => htok d (by simp [hd])) (pre ++ [b]) f (buf ++ [b])
        (by simp at hf; omega)
      simp only [List.cons_append, hd, parseScalarLoop]
      simp only [List.cons_append] at ih2
      rw [mkp_advance_cons]
      simp [hb, hne, ih2, byte_int]

theorem parseScalar_spec (tok : List UInt8) (htok : ∀ b ∈ tok, isScalar (int b) = true)
    (rest : List UInt8) (hrest : hd rest = eof ∨ isScalar (hd rest) = false)
    (e : Option String) (pre : List UInt8) :
    (mkp pre (tok ++ rest) e).parseScalar
      = some (mkp (pre ++ tok) rest e, Node.scalar tok) := by
  unfold parser.parseScalar
  rw [mkp_current, mkp_fuel]
  simp only [Option.some_bind]
  rw [parseScalarLoop_spec tok htok rest hrest e pre _ [] (by simp; omega)]
  simp

theorem parseRawStringLiteralLoop_spec (s : List UInt8)
    (hs : ∀ b ∈ s, int b ≠ 96 ∧ int b ≠ 10) (rest : List UInt8) (e : Option String) :
    ∀ (pre : List UInt8) (fuel : Nat) (buf : List UInt8), s.length < fuel →
      parseRawStringLiteralLoop fuel (mkp pre (s ++ 96 :: rest) e) (hd (s ++ 96 :: rest)) buf
        = some (mkp (pre ++ s ++ [96]) rest e, Node.scalar (buf ++ s), true) := by
  induction s with
  | nil =>
    intro pre fuel buf hf
    cases fuel with
    | zero => omega
    | succ f =>
      simp only [List.nil_append, hd, parseRawStringLiteralLoop]
      rw [mkp_advance_cons]
      simp [int, eof]
  | cons b s ih =>
    intro pre fuel buf hf
    cases fuel with
    | zero => omega
    | succ f =>
      have hb := hs b (by simp)
      have hne : int b ≠ eof := int_ne_eof b
      have ih2 := ih (fun d hd => hs d (by simp [hd])) (pre ++ [b]) f (buf ++ [b])
        (by simp at hf; omega)
      simp only [List.cons_append, hd, parseRawStringLiteralLoop]
      simp only [List.cons_append] at ih2
      rw [mkp_advance_cons]
      simp [hb.1, hb.2, hne, ih2, byte_int]

theorem parseRawStringLiteral_spec (s : List UInt8)
    (hs : ∀ b ∈ s, int b ≠ 96 ∧ int b ≠ 10) (rest : List UInt8) (e : Option String)
    (pre : List UInt8) :
    (mkp pre (96 :: (s ++ 96 :: rest)) e).parseRawStringLiteral
      = some (mkp (pre ++ [96] ++ s ++ [96]) rest e, Node.scalar s, true) := by
  unfold parser.parseRawStringLiteral
  rw [mkp_advance_cons, mkp_fuel]
  simp only [Option.some_bind]
  rw [parseRawStringLiteralLoop_spec s hs rest e (pre ++ [96]) _ [] (by simp; omega)]
  simp

/-! ## Dispatch of `parseSingleNode` -/

theorem parseSingleNode_eof (pre : List UInt8) (e : Option String) (fuel : Nat) :
    parseSingleNode (fuel + 1) (mkp pre [] e) = some (mkp pre [] e, Node.zero, false) := by
  rw [parseSingleNode, skipToNonSpace_none [] isSpace_eof]
  simp [mkp_current, hd, eof]

theorem parseSingleNode_ws_eof (ws : List UInt8) (hws : ∀ b ∈ ws, isSpace (int b) = true)
    (pre : List UInt8) (e : Option String) (fuel : Nat) :
    parseSingleNode (fuel + 1) (mkp pre ws e) = some (mkp (pre ++ ws) [] e, Node.zero, false) := by
  have h := skipToNonSpace_spec ws hws [] isSpace_eof e pre
  rw [List.append_nil] at h
  rw [parseSingleNode, h]
  simp [mkp_current, hd, eof]

theorem parseLoop_ws_eof (ws : List UInt8) (hws : ∀ b ∈ ws, isSpace (int b) = true)
    (pre : List UInt8) (e : Option String) (fuel : Nat) (out : List Node) :
    parseLoop (fuel + 2) (mkp pre ws e) out = some (mkp (pre ++ ws) [] e, out) := by
  rw [parseLoop, parseSingleNode_ws_eof ws hws]
  simp

theorem parseLoop_eof (pre : List UInt8) (e : Option String) (fuel : Nat) (out : List Node) :
    parseLoop (fuel + 2) (mkp pre [] e) out = some (mkp pre [] e, out) := by
  have h := parseLoop_ws_eof [] (by simp) pre e fuel out
  simpa using h

theorem isScalar_cases (b : Int) (h : isScalar b = true) :
    b ≠ 32 ∧ b ≠ 9 ∧ b ≠ 10 ∧ b ≠ 13 ∧ b ≠ 34 ∧ b ≠ 96 ∧ b ≠ 40 ∧ b ≠ 41 ∧ b ≠ 59 := by
  unfold isScalar at h
  simp at h
  omega

theorem isScalar_not_space (b : Int) (h : isScalar b = true) : isSpace b = false := by
  have := isScalar_cases b h
  simp [isSpace]
  omega

theorem isSpace_not_scalar (b : Int) (h : isSpace b = true) : isScalar b = false := by
  unfold isSpace at h
  unfold isScalar
  simp at h
  simp
  omega

theorem parseSingleNode_scalar (ws : List UInt8) (hws : ∀ b ∈ ws, isSpace (int b) = true)
    (t : UInt8) (tok : List UInt8) (htok : ∀ b ∈ t :: tok, isScalar (int b) = true)
    (rest : List UInt8) (hrest : hd rest = eof ∨ isScalar (hd rest) = false)
    (pre : List UInt8) (e : Option String) (fuel : Nat) :
    parseSingleNode (fuel + 1) (mkp pre (ws ++ (t :: tok ++ rest)) e)
      = some (mkp (pre ++ ws ++ t :: tok) rest e, Node.scalar (t :: tok), true) := by
  have ht : isScalar (int t) = true := htok t (by simp)
  have hc := isScalar_cases (int t) ht
  have hsk := skipToNonSpace_spec ws hws (t :: tok ++ rest)
    (by simpa [hd] using isScalar_not_space _ ht) e pre
  rw [parseSingleNode, hsk]
  have hp := parseScalar_spec (t :: tok) htok rest hrest e (pre ++ ws)
  simp only [Option.some_bind, mkp_current, hp]
  simp [hd, hc, int_ne_eof]

/-! ## Bytes and their `int` codes -/

theorem int_inj (a b : UInt8) : int a = int b ↔ a = b := by
  constructor
  · intro h
    have h1 := congrArg byte h
    rwa [byte_int, byte_int] at h1
  · intro h
    rw [h]

theorem int_eq_lit (b k : UInt8) (n : Int) (hn : int k = n) : int b = n ↔ b = k := by
  rw [← hn]
  exact int_inj b k

theorem isSpace_iff (b : UInt8) : isSpace (int b) = true ↔ b ∈ spaceBytes := by
  have h1 := int_eq_lit b 32 32 rfl
  have h2 := int_eq_lit b 9 9 rfl
  have h3 := int_eq_lit b 10 10 rfl
  have h4 := int_eq_lit b 13 13 rfl
  simp [isSpace, spaceBytes, h1, h2, h3, h4, or_assoc]

theorem isScalar_iff (b : UInt8) :
    isScalar (int b) = true ↔ b ∉ spaceBytes ∧ b ∉ delimBytes := by
  have h1 := int_eq_lit b 32 32 rfl
  have h2 := int_eq_lit b 9 9 rfl
  have h3 := int_eq_lit b 10 10 rfl
  have h4 := int_eq_lit b 13 13 rfl
  have h5 := int_eq_lit b 34 34 rfl
  have h6 := int_eq_lit b 96 96 rfl
  have h7 := int_eq_lit b 40 40 rfl
  have h8 := int_eq_lit b 41 41 rfl
  have h9 := int_eq_lit b 59 59 rfl
  simp [isScalar, spaceBytes, delimBytes, h1, h2, h3, h4, h5, h6, h7, h8, h9, and_assoc]

/-! ## Bare tokens -/

theorem joinTokens_length (ps : List (List UInt8 × List UInt8))
    (h : ∀ p ∈ ps, p.1 ≠ []) : ps.length ≤ (joinTokens ps).length := by
  induction ps with
  | nil => simp [joinTokens]
  | cons p r ih =>
    have h1 : p.1 ≠ [] := h p (by simp)
    have h2 : 0 < p.1.length := List.length_pos.mpr h1
    have h3 := ih (fun q hq => h q (by simp [hq]))
    simp [joinTokens]
    omega

theorem parseLoop_tokens (e : Option String) (ps : List (List UInt8 × List UInt8))
    (htok : ∀ p ∈ ps, IsToken p.1)
    (hws : ∀ p ∈ ps, ∀ b ∈ p.2, b ∈ spaceBytes)
    (hsep : ∀ p ∈ ps.dropLast, p.2 ≠ []) :
    ∀ (ws : List UInt8), (∀ b ∈ ws, b ∈ spaceBytes) →
    ∀ (pre : List UInt8) (out : List Node) (fuel : Nat), ps.length + 2 ≤ fuel →
      parseLoop fuel (mkp pre (ws ++ joinTokens ps) e) out
        = some (mkp (pre ++ ws ++ joinTokens ps) [] e,
            out ++ ps.map (fun p => Node.scalar p.1)) := by
  induction ps with
  | nil =>
    intro ws hw pre out fuel hf
    obtain ⟨f, rfl⟩ : ∃ f, fuel = f + 2 := ⟨fuel - 2, by simp at hf; omega⟩
    have h := parseLoop_ws_eof ws (fun b hb => (isSpace_iff b).mpr (hw b hb)) pre e f out
    simpa [joinTokens] using h
  | cons p r ih =>
    intro ws hw pre out fuel hf
    obtain ⟨f, rfl⟩ : ∃ f, fuel = f + 2 := ⟨fuel - 2, by simp at hf; omega⟩
    obtain ⟨hne, hsc⟩ := htok p (by simp)
    obtain ⟨t, tok, htt⟩ : ∃ t tok, p.1 = t :: tok := by
      cases hp : p.1 with
      | nil => exact absurd hp hne
      | cons t tok => exact ⟨t, tok, rfl⟩
    have hrest : hd (p.2 ++ joinTokens r) = eof ∨ isScalar (hd (p.2 ++ joinTokens r)) = false := by
      cases hp2 : p.2 with
      | nil =>
        cases r with
        | nil => left; simp [joinTokens, hd]
        | cons q r2 => exact absurd hp2 (hsep p (by simp [List.dropLast]))
      | cons w ws2 =>
        right
        have hw2 : w ∈ spaceBytes := hws p (by simp) w (by simp [hp2])
        simpa [hd] using isSpace_not_scalar _ ((isSpace_iff w).mpr hw2)
    have h1 := parseSingleNode_scalar ws (fun b hb => (isSpace_iff b).mpr (hw b hb)) t tok
      (fun b hb => (isScalar_iff b).mpr (hsc b (by rw [htt]; exact hb)))
      (p.2 ++ joinTokens r) hrest pre e f
    have h2 := ih (fun q hq => htok q (by simp [hq])) (fun q hq => hws q (by simp [hq]))
      (fun q hq => hsep q (by
        cases r with
        | nil => simp at hq
        | cons q2 r2 => simp only [List.dropLast_cons₂]; exact List.mem_cons_of_mem _ hq))
      p.2 (hws p (by simp)) (pre ++ ws ++ t :: tok) (out ++ [Node.scalar (t :: tok)]) (f + 1)
      (by simp at hf; omega)
    have hj : ws ++ joinTokens (p :: r) = ws ++ (t :: tok ++ (p.2 ++ joinTokens r)) := by
      simp [joinTokens, htt]
    rw [hj, parseLoop, h1]
    simp only [Option.some_bind, Bool.not_true, Bool.false_eq_true, if_false, h2]
    simp [htt, joinTokens]

/-! ## Entry point -/

theorem Parse_eq (data : List UInt8) (q : parser) (out : List Node)
    (h : parseLoop (parseFuel data) (mkp [] data none) [] = some (q, out)) :
    Parse data = some (if q.err = none then out else [], q.err) := by
  unfold Parse parser.parse
  rw [mkp_zero, h]
  by_cases he : q.err = none <;> simp [he]

/-! ## `matches` -/

theorem matchesLoop_spec (pre l : List UInt8) (e : Option String) :
    ∀ (s : List UInt8) (i : Nat), i + s.length ≤ l.length →
      matchesLoop (mkp pre l e) s i = some (s.isPrefixOf (l.drop i)) := by
  intro s
  induction s with
  | nil => intro i _; simp [matchesLoop]
  | cons c s ih =>
    intro i hi
    have hlt : i < l.length := by simp at hi; omega
    have hd1 : l.drop i = l[i] :: l.drop (i + 1) := List.drop_eq_getElem_cons hlt
    have hg : (mkp pre l e).data[(mkp pre l e).ptr + i]? = some l[i] := by
      rw [mkp_get]; exact List.getElem?_eq_getElem hlt
    rw [matchesLoop, hg, hd1]
    simp only [Option.some_bind, List.isPrefixOf]
    by_cases hc : l[i] = c
    · rw [ih (i + 1) (by simp at hi; omega)]
      simp [hc]
    · have hc2 : ¬ c = l[i] := fun h => hc h.symm
      simp [hc, hc2]

theorem matches_spec (pre l : List UInt8) (e : Option String) (s : List UInt8) :
    (mkp pre l e).matches s = some (s.isPrefixOf l) := by
  unfold parser.matches
  rw [mkp_unreadLen]
  by_cases h : (l.length : Int) < (s.length : Int)
  · have h2 : l.length < s.length := by omega
    have h3 : s.isPrefixOf l = false := by
      cases hp : s.isPrefixOf l with
      | false => rfl
      | true =>
        have := (List.isPrefixOf_iff_prefix.mp hp).length_le
        omega
    simp [h, h3]
  · have h2 := matchesLoop_spec pre l e s 0 (by omega)
    simp [h, h2]

/-! ## Raw strings -/

theorem parseSingleNode_raw (s : List UInt8) (hs : ∀ b ∈ s, b ≠ 96 ∧ b ≠ 10)
    (rest pre : List UInt8) (e : Option String) (fuel : Nat) :
    parseSingleNode (fuel + 1) (mkp pre (96 :: (s ++ 96 :: rest)) e)
      = some (mkp (pre ++ [96] ++ s ++ [96]) rest e, Node.scalar s, true) := by
  have hs2 : ∀ b ∈ s, int b ≠ 96 ∧ int b ≠ 10 := by
    intro b hb
    have h1 := int_eq_lit b 96 96 rfl
    have h2 := int_eq_lit b 10 10 rfl
    have := hs b hb
    simp [h1, h2, this]
  have hsk := skipToNonSpace_none (96 :: (s ++ 96 :: rest)) (by simp [hd, int, isSpace]) e pre
  have hm1 : [96, 10].isPrefixOf (96 :: (s ++ 96 :: rest)) = false := by
    cases s with
    | nil => simp [List.isPrefixOf]
    | cons b s =>
      have := (hs b (by simp)).2
      simp [List.isPrefixOf]
      exact fun h => this h.symm
  have hm2 : [96, 13, 10].isPrefixOf (96 :: (s ++ 96 :: rest)) = false := by
    match s, hs with
    | [], _ => simp [List.isPrefixOf]
    | [b], _ => simp [List.isPrefixOf]
    | b :: b2 :: s, hs =>
      have := (hs b2 (by simp)).2
      simp [List.isPrefixOf]
      exact fun _ h => this h.symm
  rw [parseSingleNode, hsk]
  simp only [Option.some_bind, mkp_current, matches_spec, hm1, hm2,
    parseRawStringLiteral_spec s hs2 rest e pre]
  simp [hd, int, eof]

/-! ## Lists -/

theorem parseListLoop_close (pre rest : List UInt8) (e : Option String) (fuel : Nat)
    (out : List Node) :
    parseListLoop (fuel + 1) (mkp pre (41 :: rest) e) out
      = some (mkp (pre ++ [41]) rest e, Node.ofList out, true) := by
  have hsk := skipToNonSpace_none (41 :: rest) (by simp [hd, int, isSpace]) e pre
  rw [parseListLoop, hsk]
  simp only [Option.some_bind, mkp_current, mkp_advance_cons]
  simp [hd, int, eof]

theorem parseListLoop_eof (pre : List UInt8) (e : Option String) (fuel : Nat)
    (out : List Node) :
    parseListLoop (fuel + 1) (mkp pre [] e) out
      = some (mkp pre [] (some "unexpected eof when parsing a list"), Node.zero, false) := by
  have hsk := skipToNonSpace_none [] isSpace_eof e pre
  rw [parseListLoop, hsk]
  simp only [Option.some_bind, mkp_current, mkp_error]
  simp [hd]

theorem parseListLoop_open (pre rest : List UInt8) (e : Option String) (fuel : Nat)
    (out : List Node) :
    parseListLoop (fuel + 1) (mkp pre (40 :: rest) e) out
      = (parseSingleNode fuel (mkp pre (40 :: rest) e)).bind (fun r =>
          if !r.2.2 then some (r.1, Node.zero, false)
          else parseListLoop fuel r.1 (out ++ [r.2.1])) := by
  have hsk := skipToNonSpace_none (40 :: rest) (by simp [hd, int, isSpace]) e pre
  rw [parseListLoop, hsk]
  simp only [Option.some_bind, mkp_current]
  simp [hd, int, eof]

theorem parseSingleNode_open (pre rest : List UInt8) (e : Option String) (fuel : Nat) :
    parseSingleNode (fuel + 2) (mkp pre (40 :: rest) e)
      = parseListLoop fuel (mkp (pre ++ [40]) rest e) [] := by
  have hsk := skipToNonSpace_none (40 :: rest) (by simp [hd, int, isSpace]) e pre
  rw [parseSingleNode, hsk]
  simp only [Option.some_bind, mkp_current]
  simp [hd, int, parseList, mkp_advance_cons]

theorem parseSingleNode_close (pre rest : List UInt8) (e : Option String) (fuel : Nat) :
    parseSingleNode (fuel + 1) (mkp pre (41 :: rest) e)
      = some (mkp (pre ++ 41 :: rest) [] (some "unmatched closing parenthesis ')'"),
          Node.zero, false) := by
  have hsk := skipToNonSpace_none (41 :: rest) (by simp [hd, int, isSpace]) e pre
  rw [parseSingleNode, hsk]
  simp only [Option.some_bind, mkp_current, mkp_error]
  simp [hd, int]

theorem parseSingleNode_balanced (e : Option String) :
    ∀ (k : Nat) (pre rest : List UInt8) (fuel : Nat), 3 * k + 3 ≤ fuel →
      parseSingleNode fuel
          (mkp pre (List.replicate (k + 1) 40 ++ (List.replicate (k + 1) 41 ++ rest)) e)
        = some (mkp (pre ++ List.replicate (k + 1) 40 ++ List.replicate (k + 1) 41) rest e,
            nestedList k, true) := by
  intro k
  induction k with
  | zero =>
    intro pre rest fuel hf
    obtain ⟨f, rfl⟩ : ∃ f, fuel = f + 1 + 2 := ⟨fuel - 3, by omega⟩
    simp only [List.replicate, List.cons_append, List.nil_append]
    rw [parseSingleNode_open, parseListLoop_close]
    simp [nestedList]
  | succ k ih =>
    intro pre rest fuel hf
    obtain ⟨f, rfl⟩ : ∃ f, fuel = f + 1 + 2 := ⟨fuel - 3, by omega⟩
    have h1 : List.replicate (k + 1 + 1) 40 ++ (List.replicate (k + 1 + 1) 41 ++ rest)
        = 40 :: (List.replicate (k + 1) (40 : UInt8)
            ++ (List.replicate (k + 1) 41 ++ 41 :: rest)) := by
      rw [List.replicate_succ (n := k + 1), List.replicate_succ' (n := k + 1)]
      simp
    have h2 := ih (pre ++ [40]) (41 :: rest) f (by omega)
    rw [h1, parseSingleNode_open]
    rw [List.replicate_succ (n := k), List.cons_append, parseListLoop_open]
    rw [← List.cons_append, ← List.replicate_succ (n := k), h2]
    obtain ⟨g, rfl⟩ : ∃ g, f = g + 1 := ⟨f - 1, by omega⟩
    simp only [Option.some_bind, Bool.not_true, Bool.false_eq_true, if_false,
      parseListLoop_close]
    have h3 : ∀ (x : List UInt8),
        40 :: (List.replicate (k + 1) 40 ++ x) = List.replicate (k + 1) 40 ++ 40 :: x := by
      intro x
      rw [← List.cons_append, ← List.replicate_succ, List.replicate_succ', List.append_assoc]
      rfl
    simp [nestedList, List.replicate_succ' (n := k + 1), List.replicate_succ (n := k + 1)]
    rw [h3]

theorem parseSingleNode_unclosed (e : Option String) :
    ∀ (n m : Nat), m < n → ∀ (pre : List UInt8) (fuel : Nat), 3 * n ≤ fuel →
      parseSingleNode fuel (mkp pre (List.replicate n 40 ++ List.replicate m 41) e)
        = some (mkp (pre ++ (List.replicate n 40 ++ List.replicate m 41)) []
            (some "unexpected eof when parsing a list"), Node.zero, false) := by
  intro n
  induction n with
  | zero => intro m hm; omega
  | succ n ih =>
    intro m hm pre fuel hf
    obtain ⟨f, rfl⟩ : ∃ f, fuel = f + 1 + 2 := ⟨fuel - 3, by omega⟩
    rw [List.replicate_succ, List.cons_append, parseSingleNode_open]
    cases n with
    | zero =>
      have hm0 : m = 0 := by omega
      subst hm0
      simp [parseListLoop_eof]
    | succ k =>
      rw [List.replicate_succ, List.cons_append, parseListLoop_open,
        ← List.cons_append, ← List.replicate_succ]
      by_cases hmk : m < k + 1
      · rw [ih m hmk (pre ++ [40]) f (by omega)]
        simp
      · have hmk2 : m = k + 1 := by omega
        subst hmk2
        have h2 := parseSingleNode_balanced e k (pre ++ [40]) [] f (by omega)
        rw [List.append_nil] at h2
        rw [h2]
        obtain ⟨g, rfl⟩ : ∃ g, f = g + 1 := ⟨f - 1, by omega⟩
        simp [parseListLoop_eof]

theorem parseLoop_unclosed (n m : Nat) (hnm : m < n) (fuel : Nat) (hf : 3 * n + 1 ≤ fuel) :
    parseLoop fuel (mkp [] (List.replicate n 40 ++ List.replicate m 41) none) []
      = some (mkp (List.replicate n 40 ++ List.replicate m 41) []
          (some "unexpected eof when parsing a list"), []) := by
  obtain ⟨f, rfl⟩ : ∃ f, fuel = f + 1 := ⟨fuel - 1, by omega⟩
  rw [parseLoop, parseSingleNode_unclosed none n m hnm [] f (by omega)]
  simp

theorem parseLoop_unmatched (n m : Nat) (hnm : n < m) (fuel : Nat) (hf : 3 * n + 3 ≤ fuel) :
    parseLoop fuel (mkp [] (List.replicate n 40 ++ List.replicate m 41) none) []
      = some (mkp (List.replicate n 40 ++ List.replicate m 41) []
          (some "unmatched closing parenthesis ')'"),
          match n with
          | 0 => []
          | k + 1 => [nestedList k]) := by
  obtain ⟨d, rfl⟩ : ∃ d, m = n + (d + 1) := ⟨m - n - 1, by omega⟩
  obtain ⟨f, rfl⟩ : ∃ f, fuel = f + 1 + 2 := ⟨fuel - 3, by omega⟩
  cases n with
  | zero =>
    have h0 : List.replicate 0 (40 : UInt8) ++ List.replicate (0 + (d + 1)) 41
        = 41 :: List.replicate d 41 := by
      rw [Nat.zero_add, List.replicate_succ]
      rfl
    rw [h0, parseLoop, parseSingleNode_close]
    simp
  | succ k =>
    have h1 : List.replicate (k + 1) (40 : UInt8) ++ List.replicate (k + 1 + (d + 1)) 41
        = List.replicate (k + 1) 40 ++ (List.replicate (k + 1) 41 ++ 41 :: List.replicate d 41) := by
      rw [List.replicate_add (k + 1) (d + 1), List.replicate_succ (n := d)]
    have h2 := parseSingleNode_balanced none k [] (41 :: List.replicate d 41) (f + 2) (by omega)
    rw [h1, parseLoop, h2]
    simp only [Option.some_bind, Bool.not_true, Bool.false_eq_true, if_false]
    rw [parseLoop, parseSingleNode_close]
    simp

theorem parseLoop_balanced (k : Nat) (fuel : Nat) (hf : 3 * k + 6 ≤ fuel) :
    parseLoop fuel (mkp [] (List.replicate (k + 1) 40 ++ List.replicate (k + 1) 41) none) []
      = some (mkp (List.replicate (k + 1) 40 ++ List.replicate (k + 1) 41) [] none,
          [nestedList k]) := by
  obtain ⟨f, rfl⟩ : ∃ f, fuel = f + 2 + 1 := ⟨fuel - 3, by omega⟩
  have h2 := parseSingleNode_balanced none k [] [] (f + 2) (by omega)
  rw [List.append_nil] at h2
  rw [parseLoop, h2]
  simp [parseLoop_eof]

/-! ## Quoted strings -/

theorem mkp_advanceN_two (pre : List UInt8) (a b : UInt8) (l : List UInt8) (e : Option String) :
    (mkp pre (a :: b :: l) e).advanceN 2 = some (mkp (pre ++ [a, b]) l e, hd l) := by
  have h : (mkp pre (a :: b :: l) e).advanceN 2
      = ((mkp (pre ++ [a, b]) l e).current).map (fun c => (mkp (pre ++ [a, b]) l e, c)) := by
    have h2 : ¬ (l.length + 1 + 1 < 2) := by omega
    simp [parser.advanceN, mkp, h2]
  rw [h, mkp_current]
  rfl

theorem isHex_int (h : UInt8) :
    isHex (int h) = match hexDigitVal h with
      | some v => ((v : Int), true)
      | none => (eof, false) := by
  unfold isHex hexDigitVal int
  have hlt : h.toNat < 256 := h.val.isLt
  by_cases h1 : 48 ≤ h.toNat ∧ h.toNat ≤ 57
  · have h1' : (48 : Int) ≤ (h.toNat : Int) ∧ (h.toNat : Int) ≤ 57 := by omega
    simp only [h1, h1', and_self, if_true]
    congr 1
    omega
  · have h1' : ¬ ((48 : Int) ≤ (h.toNat : Int) ∧ (h.toNat : Int) ≤ 57) := by omega
    by_cases h2 : 97 ≤ h.toNat ∧ h.toNat ≤ 102
    · have h2' : (97 : Int) ≤ (h.toNat : Int) ∧ (h.toNat : Int) ≤ 102 := by omega
      simp only [h1, h1', h2, h2', and_self, if_true, if_false]
      congr 1
      omega
    · have h2' : ¬ ((97 : Int) ≤ (h.toNat : Int) ∧ (h.toNat : Int) ≤ 102) := by omega
      by_cases h3 : 65 ≤ h.toNat ∧ h.toNat ≤ 70
      · have h3' : (65 : Int) ≤ (h.toNat : Int) ∧ (h.toNat : Int) ≤ 70 := by omega
        simp only [h1, h1', h2, h2', h3, h3', and_self, if_true, if_false]
        congr 1
        omega
      · have h3' : ¬ ((65 : Int) ≤ (h.toNat : Int) ∧ (h.toNat : Int) ≤ 70) := by omega
        simp only [h1, h1', h2, h2', h3, h3', if_false]

theorem hexDigitVal_lt (h : UInt8) (v : Nat) (hv : hexDigitVal h = some v) : v < 16 := by
  unfold hexDigitVal at hv
  split at hv
  · simp at hv; omega
  · split at hv
    · simp at hv; omega
    · split at hv
      · simp at hv; omega
      · simp at hv

theorem byte_hex (v1 v2 : Nat) (h1 : v1 < 16) (h2 : v2 < 16) :
    byte ((v1 : Int) * 16 + (v2 : Int)) = UInt8.ofNat (16 * v1 + v2) := by
  unfold byte
  have h : (((v1 : Int) * 16 + (v2 : Int)) % 256).toNat = 16 * v1 + v2 := by omega
  rw [h]

theorem parseEscapeSequence_hex (h1 h2 : UInt8) (v1 v2 : Nat)
    (hv1 : hexDigitVal h1 = some v1) (hv2 : hexDigitVal h2 = some v2)
    (pre l : List UInt8) (e : Option String) :
    (mkp pre (92 :: 120 :: h1 :: h2 :: l) e).parseEscapeSequence
      = some (mkp (pre ++ [92, 120, h1]) (h2 :: l) e, (v1 : Int) * 16 + (v2 : Int)) := by
  unfold parser.parseEscapeSequence
  rw [mkp_advance_cons]
  have hg1 : (mkp (pre ++ [92]) (120 :: h1 :: h2 :: l) e).data[
      (mkp (pre ++ [92]) (120 :: h1 :: h2 :: l) e).ptr + 1]? = some h1 := by
    rw [mkp_get]; simp
  have hg2 : (mkp (pre ++ [92]) (120 :: h1 :: h2 :: l) e).data[
      (mkp (pre ++ [92]) (120 :: h1 :: h2 :: l) e).ptr + 2]? = some h2 := by
    rw [mkp_get]; simp
  have hx1 := isHex_int h1
  have hx2 := isHex_int h2
  rw [hv1] at hx1
  rw [hv2] at hx2
  have hu : ¬ ((mkp (pre ++ [92]) (120 :: h1 :: h2 :: l) e).unreadLen < 3) := by
    rw [mkp_unreadLen]; simp; omega
  have ha := mkp_advanceN_two (pre ++ [92]) 120 h1 (h2 :: l) e
  simp only [Option.some_bind, hd, hg1, hg2, hx1, hx2, hu, ha]
  simp [int]

theorem stringLoop_plain (b : UInt8) (hb : b ≠ 34 ∧ b ≠ 92 ∧ b ≠ 10)
    (pre l : List UInt8) (e : Option String) (fuel : Nat) (buf : List UInt8) :
    parseStringLiteralLoop (fuel + 1) (mkp pre (b :: l) e) (int b) buf
      = parseStringLiteralLoop fuel (mkp (pre ++ [b]) l e) (hd l) (buf ++ [b]) := by
  have h1 := int_eq_lit b 34 34 rfl
  have h2 := int_eq_lit b 92 92 rfl
  have h3 := int_eq_lit b 10 10 rfl
  rw [parseStringLiteralLoop, mkp_advance_cons]
  simp [int_ne_eof, h1, h2, h3, hb, byte_int]

theorem stringLoop_escape (c : UInt8) (v : Int)
    (hc : (c = 34 ∧ v = 34) ∨ (c = 92 ∧ v = 92) ∨ (c = 114 ∧ v = 13) ∨ (c = 110 ∧ v = 10)
      ∨ (c = 116 ∧ v = 9))
    (pre l : List UInt8) (e : Option String) (fuel : Nat) (buf : List UInt8) :
    parseStringLiteralLoop (fuel + 1) (mkp pre (92 :: c :: l) e) 92 buf
      = parseStringLiteralLoop fuel (mkp (pre ++ [92, c]) l e) (hd l) (buf ++ [byte v]) := by
  have hesc : (mkp pre (92 :: c :: l) e).parseEscapeSequence
      = some (mkp (pre ++ [92]) (c :: l) e, v) := by
    unfold parser.parseEscapeSequence
    rw [mkp_advance_cons]
    rcases hc with ⟨h, hv⟩ | ⟨h, hv⟩ | ⟨h, hv⟩ | ⟨h, hv⟩ | ⟨h, hv⟩ <;>
      subst h <;> subst hv <;> simp [hd, int]
  have hv : v ≠ eof := by
    rcases hc with ⟨_, hv⟩ | ⟨_, hv⟩ | ⟨_, hv⟩ | ⟨_, hv⟩ | ⟨_, hv⟩ <;> subst hv <;> decide
  have hv2 : ¬ v = -1 := hv
  rw [parseStringLiteralLoop, hesc]
  simp only [Option.some_bind, mkp_advance_cons]
  simp [eof, hv2]

theorem stringLoop_hex (h1 h2 : UInt8)
    (hok : (hexDigitVal h1).isSome = true ∧ (hexDigitVal h2).isSome = true)
    (pre l : List UInt8) (e : Option String) (fuel : Nat) (buf : List UInt8) :
    parseStringLiteralLoop (fuel + 1) (mkp pre (92 :: 120 :: h1 :: h2 :: l) e) 92 buf
      = parseStringLiteralLoop fuel (mkp (pre ++ [92, 120, h1, h2]) l e) (hd l)
          (buf ++ [UInt8.ofNat (16 * (hexDigitVal h1).getD 0 + (hexDigitVal h2).getD 0)]) := by
  obtain ⟨v1, hv1⟩ := Option.isSome_iff_exists.mp hok.1
  obtain ⟨v2, hv2⟩ := Option.isSome_iff_exists.mp hok.2
  have hl1 := hexDigitVal_lt h1 v1 hv1
  have hl2 := hexDigitVal_lt h2 v2 hv2
  have hne : ¬ ((v1 : Int) * 16 + (v2 : Int) = -1) := by omega
  rw [parseStringLiteralLoop, parseEscapeSequence_hex h1 h2 v1 v2 hv1 hv2]
  simp only [Option.some_bind, mkp_advance_cons, byte_hex v1 v2 hl1 hl2, hv1, hv2,
    Option.getD_some]
  simp [eof, hne]

theorem stringLoop_item (it : Item) (hok : it.ok)
    (pre l : List UInt8) (e : Option String) (fuel : Nat) (buf : List UInt8) :
    parseStringLiteralLoop (fuel + 1) (mkp pre (it.src ++ l) e) (hd (it.src ++ l)) buf
      = parseStringLiteralLoop fuel (mkp (pre ++ it.src) l e) (hd l) (buf ++ [it.dec]) := by
  cases it with
  | plain b => exact stringLoop_plain b hok pre l e fuel buf
  | quote =>
    exact stringLoop_escape 34 34 (by simp) pre l e fuel buf
  | backslash =>
    exact stringLoop_escape 92 92 (by simp) pre l e fuel buf
  | cr =>
    exact stringLoop_escape 114 13 (by simp) pre l e fuel buf
  | lf =>
    exact stringLoop_escape 110 10 (by simp) pre l e fuel buf
  | tab =>
    exact stringLoop_escape 116 9 (by simp) pre l e fuel buf
  | hex h1 h2 => exact stringLoop_hex h1 h2 hok pre l e fuel buf

theorem srcOf_length (items : List Item) : items.length ≤ (srcOf items).length := by
  induction items with
  | nil => simp [srcOf]
  | cons it r ih =>
    have h : 1 ≤ it.src.length := by cases it <;> simp [Item.src]
    simp [srcOf] at ih ⊢
    omega

theorem stringLoop_items (e : Option String) (rest : List UInt8) :
    ∀ (items : List Item), (∀ it ∈ items, it.ok) →
    ∀ (pre : List UInt8) (fuel : Nat) (buf : List UInt8),
      parseStringLiteralLoop (fuel + items.length) (mkp pre (srcOf items ++ rest) e)
          (hd (srcOf items ++ rest)) buf
        = parseStringLiteralLoop fuel (mkp (pre ++ srcOf items) rest e) (hd rest)
            (buf ++ decOf items) := by
  intro items
  induction items with
  | nil => intro _ pre fuel buf; simp [srcOf, decOf]
  | cons it r ih =>
    intro hok pre fuel buf
    have h1 := stringLoop_item it (hok it (by simp)) pre (srcOf r ++ rest) e
      (fuel + r.length) buf
    have h2 := ih (fun x hx => hok x (by simp [hx])) (pre ++ it.src) fuel (buf ++ [it.dec])
    have hs : srcOf (it :: r) ++ rest = it.src ++ (srcOf r ++ rest) := by simp [srcOf]
    have hf : fuel + (it :: r).length = fuel + r.length + 1 := by simp; omega
    rw [hs, hf, h1, h2]
    simp [srcOf, decOf]

theorem parseSingleNode_string (pre l : List UInt8) (e : Option String) (fuel : Nat) :
    parseSingleNode (fuel + 1) (mkp pre (34 :: l) e)
      = parseStringLiteralLoop (l.length + 2) (mkp (pre ++ [34]) l e) (hd l) [] := by
  have hsk := skipToNonSpace_none (34 :: l) (by simp [hd, int, isSpace]) e pre
  rw [parseSingleNode, hsk]
  simp only [Option.some_bind, mkp_current]
  simp [hd, int, parser.parseStringLiteral, mkp_advance_cons, mkp_fuel]

theorem stringLoop_close (pre rest : List UInt8) (e : Option String) (fuel : Nat)
    (buf : List UInt8) :
    parseStringLiteralLoop (fuel + 1) (mkp pre (34 :: rest) e) 34 buf
      = some (mkp (pre ++ [34]) rest e, Node.scalar buf, true) := by
  rw [parseStringLiteralLoop, mkp_advance_cons]
  simp [eof]

theorem stringLoop_plains (e : Option String) (rest : List UInt8) :
    ∀ (p : List UInt8), (∀ b ∈ p, b ≠ 34 ∧ b ≠ 92 ∧ b ≠ 10) →
    ∀ (pre : List UInt8) (fuel : Nat) (buf : List UInt8),
      parseStringLiteralLoop (fuel + p.length) (mkp pre (p ++ rest) e) (hd (p ++ rest)) buf
        = parseStringLiteralLoop fuel (mkp (pre ++ p) rest e) (hd rest) (buf ++ p) := by
  intro p
  induction p with
  | nil => intro _ pre fuel buf; simp
  | cons b r ih =>
    intro hp pre fuel buf
    have h1 := stringLoop_plain b (hp b (by simp)) pre (r ++ rest) e (fuel + r.length) buf
    have h2 := ih (fun x hx => hp x (by simp [hx])) (pre ++ [b]) fuel (buf ++ [b])
    have hf : fuel + (b :: r).length = fuel + r.length + 1 := by simp; omega
    have hh : hd (b :: (r ++ rest)) = int b := rfl
    rw [hf, List.cons_append, hh, h1, h2]
    simp

theorem stringLoop_escape_fails (pre l : List UInt8) (e : Option String) (fuel : Nat)
    (buf : List UInt8) (q : parser)
    (h : (mkp pre (92 :: l) e).parseEscapeSequence = some (q, eof)) :
    parseStringLiteralLoop (fuel + 1) (mkp pre (92 :: l) e) 92 buf
      = some (q, Node.zero, false) := by
  rw [parseStringLiteralLoop, h]
  simp [eof]

theorem parseEscapeSequence_invalid (c : UInt8) (hc : c ∉ [34, 92, 114, 110, 116, 120])
    (pre s : List UInt8) (e : Option String) :
    (mkp pre (92 :: c :: s) e).parseEscapeSequence
      = some (mkp (pre ++ 92 :: c :: s) [] (some "invalid escape sequence"), eof) := by
  have h1 := int_eq_lit c 34 34 rfl
  have h2 := int_eq_lit c 92 92 rfl
  have h3 := int_eq_lit c 114 114 rfl
  have h4 := int_eq_lit c 110 110 rfl
  have h5 := int_eq_lit c 116 116 rfl
  have h6 := int_eq_lit c 120 120 rfl
  simp only [List.mem_cons, List.mem_singleton, List.not_mem_nil, or_false, not_or] at hc
  unfold parser.parseEscapeSequence
  rw [mkp_advance_cons]
  simp [hd, h1, h2, h3, h4, h5, h6, hc, int_ne_eof, mkp_error]

theorem parseEscapeSequence_truncated (pre : List UInt8) (e : Option String) :
    (mkp pre [92] e).parseEscapeSequence
      = some (mkp (pre ++ [92]) []
          (some "unexpected eof when parsing a string escape sequence"), eof) := by
  unfold parser.parseEscapeSequence
  rw [mkp_advance_cons]
  simp [hd, eof, mkp_error]

theorem parseEscapeSequence_bad_hex (s : List UInt8)
    (hs : ¬ ∃ h1 h2 s2, s = h1 :: h2 :: s2
      ∧ (hexDigitVal h1).isSome = true ∧ (hexDigitVal h2).isSome = true)
    (pre : List UInt8) (e : Option String) :
    ∃ msg, (mkp pre (92 :: 120 :: s) e).parseEscapeSequence
      = some (mkp (pre ++ 92 :: 120 :: s) [] (some msg), eof) := by
  unfold parser.parseEscapeSequence
  rw [mkp_advance_cons]
  match s, hs with
  | [], _ =>
    exact ⟨"unexpected eof when parsing a string escape sequence (hex literal)", by
      simp [hd, int, mkp_unreadLen, mkp_error]⟩
  | [h1], _ =>
    exact ⟨"unexpected eof when parsing a string escape sequence (hex literal)", by
      simp [hd, int, mkp_unreadLen, mkp_error]⟩
  | h1 :: h2 :: s2, hs =>
    have hg1 : (mkp (pre ++ [92]) (120 :: h1 :: h2 :: s2) e).data[
        (mkp (pre ++ [92]) (120 :: h1 :: h2 :: s2) e).ptr + 1]? = some h1 := by
      rw [mkp_get]; simp
    have hg2 : (mkp (pre ++ [92]) (120 :: h1 :: h2 :: s2) e).data[
        (mkp (pre ++ [92]) (120 :: h1 :: h2 :: s2) e).ptr + 2]? = some h2 := by
      rw [mkp_get]; simp
    have hu : ¬ ((mkp (pre ++ [92]) (120 :: h1 :: h2 :: s2) e).unreadLen < 3) := by
      rw [mkp_unreadLen]; simp; omega
    have hx1 := isHex_int h1
    have hx2 := isHex_int h2
    cases hv1 : hexDigitVal h1 with
    | none =>
      rw [hv1] at hx1
      exact ⟨"invalid first hex digit in string escape sequence", by
        simp only [Option.some_bind, hd, hg1, hu, hx1, mkp_error]
        simp [int]⟩
    | some v1 =>
      cases hv2 : hexDigitVal h2 with
      | none =>
        rw [hv1] at hx1
        rw [hv2] at hx2
        exact ⟨"invalid second hex digit in string escape sequence", by
          simp only [Option.some_bind, hd, hg1, hg2, hu, hx1, hx2, mkp_error]
          simp [int]⟩
      | some v2 =>
        exact absurd ⟨h1, h2, s2, rfl, by simp [hv1], by simp [hv2]⟩ hs

theorem Parse_string_fails (p : List UInt8) (hp : ∀ b ∈ p, b ≠ 34 ∧ b ≠ 92 ∧ b ≠ 10)
    (l : List UInt8) (msg : String)
    (h : (mkp ([34] ++ p) (92 :: l) none).parseEscapeSequence
      = some (mkp ([34] ++ p ++ 92 :: l) [] (some msg), eof)) :
    Parse ([34] ++ p ++ 92 :: l) = some ([], some msg) := by
  have h1 := parseSingleNode_string [] (p ++ 92 :: l) none
    (parseFuel ([34] ++ p ++ 92 :: l) - 2)
  obtain ⟨g, hg⟩ : ∃ g, (p ++ 92 :: l).length + 2 = (g + 1) + p.length :=
    ⟨l.length + 2, by simp; omega⟩
  have hh : hd (92 :: l) = 92 := by simp [hd, int]
  rw [hg, stringLoop_plains none (92 :: l) p hp, hh] at h1
  simp only [List.nil_append] at h1
  rw [stringLoop_escape_fails _ _ _ _ _ _ h] at h1
  have hf : parseFuel ([34] ++ p ++ 92 :: l)
      = (parseFuel ([34] ++ p ++ 92 :: l) - 2) + 1 + 1 := by
    simp [parseFuel]
  have h2 : parseLoop (parseFuel ([34] ++ p ++ 92 :: l)) (mkp [] ([34] ++ p ++ 92 :: l) none) []
      = some (mkp ([34] ++ p ++ 92 :: l) [] (some msg), []) := by
    rw [hf, parseLoop]
    have h3 : mkp [] ([34] ++ p ++ 92 :: l) none = mkp [] (34 :: (p ++ 92 :: l)) none := by simp
    rw [h3, h1]
    simp
  rw [Parse_eq _ _ _ h2]
  simp [mkp_err]

/-! ## A comment before the closing parenthesis -/

theorem parseListLoop_step (ws : List UInt8) (hws : ∀ b ∈ ws, isSpace (int b) = true)
    (l : List UInt8) (hsp : isSpace (hd l) = false) (heof : hd l ≠ eof) (hcl : hd l ≠ 41)
    (pre : List UInt8) (e : Option String) (fuel : Nat) (out : List Node) :
    parseListLoop (fuel + 1) (mkp pre (ws ++ l) e) out
      = (parseSingleNode fuel (mkp (pre ++ ws) l e)).bind (fun r =>
          if !r.2.2 then some (r.1, Node.zero, false)
          else parseListLoop fuel r.1 (out ++ [r.2.1])) := by
  rw [parseListLoop, skipToNonSpace_spec ws hws l hsp]
  simp only [Option.some_bind, mkp_current]
  simp [heof, hcl]

theorem parseSingleNode_ws_close (ws : List UInt8) (hws : ∀ b ∈ ws, isSpace (int b) = true)
    (pre rest : List UInt8) (e : Option String) (fuel : Nat) :
    parseSingleNode (fuel + 1) (mkp pre (ws ++ 41 :: rest) e)
      = some (mkp (pre ++ ws ++ 41 :: rest) [] (some "unmatched closing parenthesis ')'"),
          Node.zero, false) := by
  have hsk := skipToNonSpace_spec ws hws (41 :: rest) (by simp [hd, int, isSpace]) e pre
  rw [parseSingleNode, hsk]
  simp only [Option.some_bind, mkp_current, mkp_error]
  simp [hd, int]

theorem parseSingleNode_comment_close (c : List UInt8) (hc : ∀ b ∈ c, b ≠ 10)
    (pre rest : List UInt8) (e : Option String) (fuel : Nat) :
    parseSingleNode (fuel + 2) (mkp pre (59 :: (c ++ 10 :: 41 :: rest)) e)
      = some (mkp (pre ++ 59 :: (c ++ 10 :: 41 :: rest)) []
          (some "unmatched closing parenthesis ')'"), Node.zero, false) := by
  have hsk := skipToNonSpace_none (59 :: (c ++ 10 :: 41 :: rest))
    (by simp [hd, int, isSpace]) e pre
  have hc2 : ∀ b ∈ 59 :: c, int b ≠ 10 := by
    intro b hb
    have h10 := int_eq_lit b 10 10 rfl
    rcases List.mem_cons.mp hb with h | h
    · subst h; decide
    · simp [h10, hc b h]
  have hcm := skipComment_spec (59 :: c) hc2 (10 :: 41 :: rest) (by right; rfl) e pre
  have hcl := parseSingleNode_ws_close [10] (by decide) (pre ++ 59 :: c) rest e fuel
  rw [parseSingleNode, hsk]
  simp only [Option.some_bind, mkp_current]
  simp only [List.cons_append] at hcm
  have hh : hd (59 :: (c ++ 10 :: 41 :: rest)) = 59 := rfl
  rw [hh]
  simp only [show ¬ ((59 : Int) = 40) by decide, show ¬ ((59 : Int) = 41) by decide,
    show ¬ ((59 : Int) = 34) by decide, show ¬ ((59 : Int) = 96) by decide, if_false, if_true,
    hcm, Option.some_bind]
  rw [show ([10] : List UInt8) ++ 41 :: rest = 10 :: 41 :: rest from rfl] at hcl
  rw [hcl]
  simp

theorem parseListLoop_tokens (e : Option String) (rest : List UInt8)
    (ps : List (List UInt8 × List UInt8))
    (htok : ∀ p ∈ ps, IsToken p.1)
    (hws : ∀ p ∈ ps, p.2 ≠ [] ∧ ∀ b ∈ p.2, b ∈ spaceBytes) :
    ∀ (ws : List UInt8), (∀ b ∈ ws, b ∈ spaceBytes) →
    ∀ (pre : List UInt8) (out : List Node) (fuel : Nat),
      parseListLoop (fuel + 1 + ps.length) (mkp pre (ws ++ (joinTokens ps ++ rest)) e) out
        = parseListLoop (fuel + 1) (mkp (pre ++ ws ++ joinTokens ps) rest e)
            (out ++ ps.map (fun p => Node.scalar p.1)) := by
  induction ps with
  | nil =>
    intro ws hw pre out fuel
    have hs := skipToNonSpace_spec ws (fun b hb => (isSpace_iff b).mpr (hw b hb))
    simp only [joinTokens, List.nil_append, List.length_nil, Nat.add_zero, List.map_nil,
      List.append_nil]
    by_cases hr : isSpace (hd rest) = false
    · rw [parseListLoop, parseListLoop, hs rest hr e pre,
        skipToNonSpace_none rest hr e (pre ++ ws)]
    · -- the whitespace run continues into `rest`: both sides skip all of it
      simp only [Bool.not_eq_false] at hr
      obtain ⟨ws2, rest2, hsplit, hws2, hrest2⟩ :
          ∃ ws2 rest2, rest = ws2 ++ rest2
            ∧ (∀ b ∈ ws2, isSpace (int b) = true) ∧ isSpace (hd rest2) = false := by
        clear hs hr
        induction rest with
        | nil => exact ⟨[], [], rfl, by simp, isSpace_eof⟩
        | cons b r ih =>
          by_cases hb : isSpace (int b) = true
          · obtain ⟨w, r2, h1, h2, h3⟩ := ih
            refine ⟨b :: w, r2, by rw [h1]; rfl, ?_, h3⟩
            intro x hx
            rcases List.mem_cons.mp hx with h | h
            · rw [h]; exact hb
            · exact h2 x h
          · exact ⟨[], b :: r, rfl, by simp, by simpa [hd] using hb⟩
      subst hsplit
      have h1 := skipToNonSpace_spec (ws ++ ws2)
        (fun b hb => by
          rcases List.mem_append.mp hb with h | h
          · exact (isSpace_iff b).mpr (hw b h)
          · exact hws2 b h) rest2 hrest2 e pre
      have h2 := skipToNonSpace_spec ws2 hws2 rest2 hrest2 e (pre ++ ws)
      rw [List.append_assoc] at h1
      rw [parseListLoop, parseListLoop, h1, h2]
      simp
  | cons p r ih =>
    intro ws hw pre out fuel
    obtain ⟨hne, hsc⟩ := htok p (by simp)
    obtain ⟨hwne, hwsp⟩ := hws p (by simp)
    obtain ⟨t, tok, htt⟩ : ∃ t tok, p.1 = t :: tok := by
      cases hp : p.1 with
      | nil => exact absurd hp hne
      | cons t tok => exact ⟨t, tok, rfl⟩
    obtain ⟨w, ws2, hww⟩ : ∃ w ws2, p.2 = w :: ws2 := by
      cases hp : p.2 with
      | nil => exact absurd hp hwne
      | cons w ws2 => exact ⟨w, ws2, rfl⟩
    have hall : ∀ b ∈ t :: tok, isScalar (int b) = true :=
      fun b hb => (isScalar_iff b).mpr (hsc b (by rw [htt]; exact hb))
    have ht : isScalar (int t) = true := hall t (by simp)
    have hc := isScalar_cases (int t) ht
    have hrest : hd (p.2 ++ (joinTokens r ++ rest)) = eof
        ∨ isScalar (hd (p.2 ++ (joinTokens r ++ rest))) = false := by
      right
      have hw2 : w ∈ spaceBytes := hwsp w (by simp [hww])
      rw [hww]
      simpa [hd] using isSpace_not_scalar _ ((isSpace_iff w).mpr hw2)
    have hj : ws ++ (joinTokens (p :: r) ++ rest)
        = ws ++ (t :: tok ++ (p.2 ++ (joinTokens r ++ rest))) := by
      simp [joinTokens, htt]
    have hstep := parseListLoop_step ws (fun b hb => (isSpace_iff b).mpr (hw b hb))
      (t :: tok ++ (p.2 ++ (joinTokens r ++ rest)))
      (by simpa [hd] using isScalar_not_space _ ht)
      (by simpa [hd] using int_ne_eof t) (by simpa [hd] using hc.2.2.2.2.2.2.2.1)
      pre e (fuel + 1 + r.length) out
    have hnode := parseSingleNode_scalar [] (by simp) t tok hall
      (p.2 ++ (joinTokens r ++ rest)) hrest (pre ++ ws) e (fuel + r.length)
    have h2 := ih (fun q hq => htok q (by simp [hq])) (fun q hq => hws q (by simp [hq]))
      p.2 hwsp (pre ++ ws ++ t :: tok) (out ++ [Node.scalar (t :: tok)]) fuel
    have hf : fuel + 1 + (p :: r).length = fuel + 1 + r.length + 1 := by simp; omega
    have hf2 : fuel + 1 + r.length = fuel + r.length + 1 := by omega
    rw [hj, hf, hstep, hf2]
    simp only [List.nil_append, List.append_nil] at hnode
    rw [hnode]
    simp only [Option.some_bind, Bool.not_true, Bool.false_eq_true, if_false]
    rw [← hf2, h2]
    simp [htt, joinTokens]

theorem intercalate_space (ts : List (List UInt8)) (hne : ts ≠ []) :
    List.intercalate [32] ts ++ [32] = joinTokens (ts.map (fun t => (t, [32]))) := by
  induction ts with
  | nil => exact absurd rfl hne
  | cons t r ih =>
    cases r with
    | nil => simp [List.intercalate, joinTokens]
    | cons t2 r2 =>
      have h := ih (by simp)
      simp only [List.intercalate, List.intersperse, List.flatten, List.map,
        joinTokens, List.append_assoc] at h ⊢
      rw [h]

theorem Parse_list_comment_close (lead : List UInt8) (hlead : ∀ b ∈ lead, b ∈ spaceBytes)
    (ps : List (List UInt8 × List UInt8))
    (htok : ∀ p ∈ ps, IsToken p.1)
    (hws : ∀ p ∈ ps, p.2 ≠ [] ∧ ∀ b ∈ p.2, b ∈ spaceBytes)
    (c : List UInt8) (hc : ∀ b ∈ c, b ≠ 10) :
    Parse (40 :: (lead ++ (joinTokens ps ++ 59 :: (c ++ [10, 41]))))
      = some ([], some "unmatched closing parenthesis ')'") := by
  have hlen := joinTokens_length ps (fun p hp => (htok p hp).1)
  obtain ⟨g, hg⟩ : ∃ g, parseFuel (40 :: (lead ++ (joinTokens ps ++ 59 :: (c ++ [10, 41]))))
      = (g + 2) + 1 + ps.length + 2 + 1 :=
    ⟨parseFuel (40 :: (lead ++ (joinTokens ps ++ 59 :: (c ++ [10, 41])))) - 6 - ps.length, by
      simp [parseFuel]; omega⟩
  have h1 := parseListLoop_tokens none (59 :: (c ++ [10, 41])) ps htok hws lead hlead [40] []
    (g + 2)
  have h2 := parseListLoop_step [] (by simp) (59 :: (c ++ [10, 41]))
    (by simp [hd, int, isSpace]) (by simp [hd, int, eof]) (by simp [hd, int])
    ([40] ++ lead ++ joinTokens ps) none (g + 2) ([] ++ ps.map (fun p => Node.scalar p.1))
  have h3 := parseSingleNode_comment_close c hc ([40] ++ lead ++ joinTokens ps) [] none g
  simp only [List.nil_append, List.append_nil] at h2
  rw [h3] at h2
  simp only [Option.some_bind, Bool.not_false, if_true] at h2
  have h : parseLoop (parseFuel (40 :: (lead ++ (joinTokens ps ++ 59 :: (c ++ [10, 41])))))
      (mkp [] (40 :: (lead ++ (joinTokens ps ++ 59 :: (c ++ [10, 41])))) none) []
      = some (mkp ([40] ++ lead ++ joinTokens ps ++ 59 :: (c ++ [10, 41])) []
          (some "unmatched closing parenthesis ')'"), []) := by
    rw [hg, parseLoop, parseSingleNode_open]
    simp only [List.nil_append] at h1 ⊢
    rw [h1, h2]
    simp
  rw [Parse_eq _ _ _ h]
  simp [mkp_err]

/-! ## A comment before the end of the input -/

theorem parseSingleNode_comment_eof (c : List UInt8) (hc : ∀ b ∈ c, b ≠ 10)
    (pre : List UInt8) (e : Option String) (fuel : Nat) :
    parseSingleNode (fuel + 2) (mkp pre (59 :: c) e)
      = some (mkp (pre ++ 59 :: c) [] e, Node.zero, false) := by
  have hsk := skipToNonSpace_none (59 :: c) (by simp [hd, int, isSpace]) e pre
  have hc2 : ∀ b ∈ 59 :: c, int b ≠ 10 := by
    intro b hb
    have h10 := int_eq_lit b 10 10 rfl
    rcases List.mem_cons.mp hb with h | h
    · subst h; decide
    · simp [h10, hc b h]
  have hcm := skipComment_spec (59 :: c) hc2 [] (by left; rfl) e pre
  rw [List.append_nil] at hcm
  have hh : hd (59 :: c) = 59 := rfl
  rw [parseSingleNode, hsk]
  simp only [Option.some_bind, mkp_current, hh]
  simp only [show ¬ ((59 : Int) = 40) by decide, show ¬ ((59 : Int) = 41) by decide,
    show ¬ ((59 : Int) = 34) by decide, show ¬ ((59 : Int) = 96) by decide, if_false, if_true,
    hcm, Option.some_bind]
  exact parseSingleNode_eof (pre ++ 59 :: c) e fuel

/-! ## Multi-line raw strings -/

theorem parseRawLineLoop_spec (l : List UInt8) (hl : ∀ b ∈ l, b ≠ 10 ∧ b ≠ 13)
    (rest : List UInt8) (hrest : hd rest = eof ∨ hd rest = 10) (e : Option String) :
    ∀ (pre : List UInt8) (fuel : Nat) (buf : List UInt8), l.length < fuel →
      parseRawLineLoop fuel (mkp pre (l ++ rest) e) (hd (l ++ rest)) buf
        = some (mkp (pre ++ l) rest e, buf ++ l) := by
  induction l with
  | nil =>
    intro pre fuel buf hf
    cases fuel with
    | zero => omega
    | succ f => rcases hrest with h | h <;> simp [parseRawLineLoop, h]
  | cons b l ih =>
    intro pre fuel buf hf
    cases fuel with
    | zero => omega
    | succ f =>
      have hb := hl b (by simp)
      have h10 := int_eq_lit b 10 10 rfl
      have h13 := int_eq_lit b 13 13 rfl
      have hne : int b ≠ eof := int_ne_eof b
      have ih2 := ih (fun d hd => hl d (by simp [hd])) (pre ++ [b]) f (buf ++ [b])
        (by simp at hf; omega)
      simp only [List.cons_append, hd, parseRawLineLoop]
      simp only [List.cons_append] at ih2
      rw [mkp_advance_cons]
      simp [hb.1, hb.2, h10, h13, hne, ih2, byte_int]

theorem parseRawLine_spec (l : List UInt8) (hl : ∀ b ∈ l, b ≠ 10 ∧ b ≠ 13)
    (rest pre : List UInt8) (e : Option String) (buf : List UInt8) :
    (mkp pre (124 :: 32 :: (l ++ 10 :: rest)) e).parseRawLine buf
      = some (mkp (pre ++ 124 :: 32 :: l) (10 :: rest) e, buf ++ l) := by
  unfold parser.parseRawLine
  rw [mkp_advance_cons, mkp_fuel]
  have h32 : hd (32 :: (l ++ 10 :: rest)) = 32 := rfl
  simp only [Option.some_bind, h32, if_true, mkp_advance_cons, Option.map_some', mkp_current]
  rw [parseRawLineLoop_spec l hl (10 :: rest) (by right; rfl) e _ _ buf (by simp; omega)]
  simp

theorem multiLineLoop_lines (e : Option String) (rest : List UInt8) :
    ∀ (lines : List (List UInt8)), (∀ l ∈ lines, ∀ b ∈ l, b ≠ 10 ∧ b ≠ 13) →
    ∀ (pre : List UInt8) (fuel : Nat) (buf : List UInt8),
      parseMultiLineStringLiteralLoop (fuel + lines.length)
          (mkp pre (rawLines lines ++ rest) e) buf
        = parseMultiLineStringLiteralLoop fuel (mkp (pre ++ rawLines lines) rest e)
            (lines.foldl appendLine buf) := by
  intro lines
  induction lines with
  | nil => intro _ pre fuel buf; simp [rawLines]
  | cons l r ih =>
    intro hl pre fuel buf
    have hl1 := hl l (by simp)
    have h2 := ih (fun x hx => hl x (by simp [hx])) (pre ++ 124 :: 32 :: l ++ [10]) fuel
      (appendLine buf l)
    have hs : rawLines (l :: r) ++ rest = 124 :: 32 :: (l ++ 10 :: (rawLines r ++ rest)) := by
      simp [rawLines]
    have hf : fuel + (l :: r).length = fuel + r.length + 1 := by simp; omega
    have hsk := skipToNonSpace_none (124 :: 32 :: (l ++ 10 :: (rawLines r ++ rest)))
      (by simp [hd, int, isSpace]) e pre
    have hh : hd (124 :: 32 :: (l ++ 10 :: (rawLines r ++ rest))) = 124 := rfl
    rw [hs, hf, parseMultiLineStringLiteralLoop, hsk]
    simp only [Option.some_bind, mkp_current, hh]
    simp only [show ¬ ((124 : Int) = 96) by decide, if_false, if_true,
      parseRawLine_spec l hl1, Option.some_bind, mkp_advance_cons]
    have ha : (if (buf.length != 0) = true then buf ++ [10] else buf) ++ l
        = appendLine buf l := rfl
    rw [ha, h2]
    simp [rawLines]

theorem foldl_appendLine_nonempty (lines : List (List UInt8)) :
    ∀ (buf : List UInt8), buf ≠ [] →
      lines.foldl appendLine buf = buf ++ (lines.map (fun l => 10 :: l)).flatten := by
  induction lines with
  | nil => intro buf _; simp
  | cons l r ih =>
    intro buf hb
    have hlen : buf.length ≠ 0 := fun h => hb (List.length_eq_zero.mp h)
    have h1 : appendLine buf l = buf ++ 10 :: l := by simp [appendLine, hlen]
    rw [List.foldl_cons, h1, ih _ (by simp)]
    simp

theorem intercalate_cons_flatten (l : List UInt8) (r : List (List UInt8)) :
    List.intercalate [10] (l :: r) = l ++ (r.map (fun x => 10 :: x)).flatten := by
  induction r generalizing l with
  | nil => simp [List.intercalate]
  | cons x r ih =>
    have h := ih x
    simp only [List.intercalate, List.intersperse, List.flatten, List.map,
      List.append_assoc] at h ⊢
    rw [h]
    simp

theorem foldl_appendLine_nil (lines : List (List UInt8)) :
    lines.foldl appendLine []
      = List.intercalate [10] (lines.dropWhile (fun l => l.isEmpty)) := by
  induction lines with
  | nil => simp [List.intercalate]
  | cons l r ih =>
    cases l with
    | nil =>
      have h1 : appendLine [] [] = [] := by simp [appendLine]
      rw [List.foldl_cons, h1, ih]
      simp [List.dropWhile]
    | cons b l =>
      have h1 : appendLine [] (b :: l) = b :: l := by simp [appendLine]
      rw [List.foldl_cons, h1, foldl_appendLine_nonempty r (b :: l) (by simp)]
      simp only [List.dropWhile, List.isEmpty_cons]
      rw [intercalate_cons_flatten]

theorem parseSingleNode_multiLine (l pre : List UInt8) (e : Option String) (fuel : Nat) :
    parseSingleNode (fuel + 1) (mkp pre (96 :: 10 :: l) e)
      = parseMultiLineStringLiteralLoop (l.length + 3) (mkp (pre ++ [96, 10]) l e) [] := by
  have hsk := skipToNonSpace_none (96 :: 10 :: l) (by simp [hd, int, isSpace]) e pre
  have hm : [96, 10].isPrefixOf (96 :: 10 :: l) = true := by simp [List.isPrefixOf]
  have hn : (mkp pre (96 :: 10 :: l) e).next 1 = some 96 := by
    have hg := mkp_get pre (96 :: 10 :: l) e 0
    simp only [Nat.add_zero] at hg
    have hlt : ¬ ((mkp pre (96 :: 10 :: l) e).ptr + 1 ≥ (mkp pre (96 :: 10 :: l) e).data.length) := by
      simp [mkp]
    simp only [parser.next, hlt, if_false, hg]
    rfl
  rw [parseSingleNode, hsk]
  simp only [Option.some_bind, mkp_current, matches_spec, hm]
  have hh : hd (96 :: 10 :: l) = 96 := rfl
  rw [hh]
  simp only [show ¬ ((96 : Int) = 40) by decide, show ¬ ((96 : Int) = 41) by decide,
    show ¬ ((96 : Int) = 34) by decide, if_false, if_true, Option.some_bind,
    parser.parseMultiLineStringLiteral, hn, show ¬ ((96 : Int) = 13) by decide,
    mkp_advanceN_two, mkp_fuel]
  simp

theorem multiLineLoop_close (pre rest : List UInt8) (e : Option String) (fuel : Nat)
    (buf : List UInt8) :
    parseMultiLineStringLiteralLoop (fuel + 1) (mkp pre (96 :: rest) e) buf
      = some (mkp (pre ++ [96]) rest e, Node.scalar buf, true) := by
  have hsk := skipToNonSpace_none (96 :: rest) (by simp [hd, int, isSpace]) e pre
  rw [parseMultiLineStringLiteralLoop, hsk]
  simp only [Option.some_bind, mkp_current, mkp_advance_cons]
  simp [hd, int]

/-! ## The binder: the `switch` on the kind -/

theorem unmarshalValue_int (lib : FloatLib) (tree : List Node) (bits : Nat) (v : Val) :
    unmarshalValue lib tree (.int bits) v = bindInt bits tree v := by
  simp [unmarshalValue, unmarshalAux]

theorem unmarshalValue_uint (lib : FloatLib) (tree : List Node) (bits : Nat) (v : Val) :
    unmarshalValue lib tree (.uint bits) v = bindUint bits tree v := by
  simp [unmarshalValue, unmarshalAux]

theorem unmarshalValue_float (lib : FloatLib) (tree : List Node) (bits : Nat) (v : Val) :
    unmarshalValue lib tree (.float bits) v = bindFloat lib bits tree v := by
  simp [unmarshalValue, unmarshalAux]

theorem unmarshalValue_bool (lib : FloatLib) (tree : List Node) (v : Val) :
    unmarshalValue lib tree .bool v = bindBool tree v := by
  simp [unmarshalValue, unmarshalAux]

theorem unmarshalValue_string (lib : FloatLib) (tree : List Node) (v : Val) :
    unmarshalValue lib tree .string v = bindString tree v := by
  simp [unmarshalValue, unmarshalAux]

theorem unmarshalValue_array (lib : FloatLib) (tree : List Node) (n : Nat) (e : Ty) (v : Val) :
    unmarshalValue lib tree (.array n e) v
      = bindArray (fun tr x => unmarshalValue lib tr e x) (zero e) n tree v := by
  simp [unmarshalValue, unmarshalAux]

theorem unmarshalValue_slice (lib : FloatLib) (tree : List Node) (e : Ty) (v : Val) :
    unmarshalValue lib tree (.slice e) v
      = bindSlice (fun tr x => unmarshalValue lib tr e x) (zero e) tree v := by
  simp [unmarshalValue, unmarshalAux]

theorem unmarshalValue_map (lib : FloatLib) (tree : List Node) (k e : Ty) (v : Val) :
    unmarshalValue lib tree (.map k e) v
      = bindMap (fun tr x => unmarshalValue lib tr k x) (fun tr x => unmarshalValue lib tr e x)
          (zero k) (zero e) tree v := by
  simp [unmarshalValue, unmarshalAux]

theorem unmarshalValue_struct (lib : FloatLib) (tree : List Node)
    (fs : List (StructField × Ty)) (vs : List Val) :
    unmarshalValue lib tree (.struct fs) (.struct vs)
      = (.struct (bindStructLoop (fun name rest xs => bindField lib fs name rest xs)
            (indirectMap tree) vs).1,
          (bindStructLoop (fun name rest xs => bindField lib fs name rest xs)
            (indirectMap tree) vs).2) := by
  simp [unmarshalValue, unmarshalAux]

theorem isTreeScalar_false (tree : List Node) (hs : ∀ s, tree ≠ [Node.mk none s]) :
    isTreeScalar tree = false := by
  unfold isTreeScalar
  split
  · rename_i n
    cases n with
    | mk l val =>
      cases l with
      | none => exact absurd rfl (hs val)
      | some l => simp [Node.IsScalar, Node.list]
  · rfl

/-! ## Sequences -/

theorem isTreeList_false (L : List Node) (hL : ∀ l s, L ≠ [Node.mk (some l) s]) :
    isTreeList L = false := by
  unfold isTreeList
  split
  · rename_i n
    cases n with
    | mk l val =>
      cases l with
      | none => simp [Node.IsScalar, Node.list]
      | some l => exact absurd rfl (hL l val)
  · rfl

theorem seqTree_list (L : List Node) (val : List UInt8) :
    seqTree [Node.mk (some L) val] = L := by
  simp [seqTree, isTreeList, Node.IsScalar, Node.list]

theorem seqTree_self (L : List Node) (hL : ∀ l s, L ≠ [Node.mk (some l) s]) :
    seqTree L = L := by
  simp [seqTree, isTreeList_false L hL]

theorem bindElems_length (bind : Binder) :
    ∀ (ns : List Node) (vs : List Val), ns.length ≤ vs.length →
      (bindElems bind ns vs).1.length = vs.length := by
  intro ns
  induction ns with
  | nil => intro vs _; simp [bindElems]
  | cons n ns ih =>
    intro vs h
    cases vs with
    | nil => simp at h
    | cons x xs =>
      have hx : ns.length ≤ xs.length := by simpa using h
      rcases hb : bind [n] x with ⟨x2, _ | err⟩
      · simp [bindElems, hb, ih xs hx]
      · simp [bindElems, hb]

/-! ## Maps and structs: malformed elements -/

theorem unmarshalValue_struct_any (lib : FloatLib) (tree : List Node)
    (fs : List (StructField × Ty)) (v : Val) :
    unmarshalValue lib tree (.struct fs) v
      = (.struct (bindStructLoop (fun name rest xs => bindField lib fs name rest xs)
            (indirectMap tree) (structVals v)).1,
          (bindStructLoop (fun name rest xs => bindField lib fs name rest xs)
            (indirectMap tree) (structVals v)).2) := by
  cases v <;> simp [unmarshalValue, unmarshalAux, structVals]

theorem bindMapLoop_malformed (bk bv : Binder) :
    ∀ (nodes : List Node) (m : List (Val × Val)) (keyv valv : Val),
      (∃ n ∈ nodes, malformedElem n = true) →
      (bindMapLoop bk bv nodes m keyv valv).2 ≠ none := by
  intro nodes
  induction nodes with
  | nil => intro m keyv valv h; simp at h
  | cons node rest ih =>
    intro m keyv valv h
    rw [bindMapLoop]
    split
    · simp
    · rename_i hsc
      split
      · rename_i first second more hl
        have hnode : malformedElem node = false := by
          cases node with
          | mk l val =>
            cases l with
            | none => simp [Node.IsScalar, Node.list] at hsc
            | some l =>
              simp only [Node.list, Option.getD_some] at hl
              simp [malformedElem, Node.list, hl]
        have hrest : ∃ n ∈ rest, malformedElem n = true := by
          obtain ⟨n, hn, hm⟩ := h
          rcases List.mem_cons.mp hn with h1 | h1
          · rw [h1, hnode] at hm; cases hm
          · exact ⟨n, h1, hm⟩
        split
        · simp
        · split
          · simp
          · exact ih _ _ _ hrest
      · simp

theorem bindStructLoop_malformed
    (bf : List UInt8 → List Node → List Val → Option (List Val × Option String)) :
    ∀ (nodes : List Node) (vs : List Val),
      (∃ n ∈ nodes, malformedElem n = true ∨ nonScalarKey n = true) →
      (bindStructLoop bf nodes vs).2 ≠ none := by
  intro nodes
  induction nodes with
  | nil => intro vs h; simp at h
  | cons node rest ih =>
    intro vs h
    rw [bindStructLoop]
    split
    · simp
    · rename_i hsc
      split
      · rename_i first second more hl
        split
        · simp
        · rename_i hfirst
          have hnode : malformedElem node = false ∧ nonScalarKey node = false := by
            cases node with
            | mk l val =>
              cases l with
              | none => simp [Node.IsScalar, Node.list] at hsc
              | some l =>
                simp only [Node.list, Option.getD_some] at hl
                simp only [Bool.not_eq_true, Bool.not_eq_false', Bool.not_not] at hfirst
                cases first with
                | mk fl fv =>
                  cases fl with
                  | none => simp [malformedElem, nonScalarKey, Node.list, hl]
                  | some fl => simp [Node.IsScalar, Node.list] at hfirst
          have hrest : ∃ n ∈ rest, malformedElem n = true ∨ nonScalarKey n = true := by
            obtain ⟨n, hn, hm⟩ := h
            rcases List.mem_cons.mp hn with h1 | h1
            · rw [h1, hnode.1, hnode.2] at hm; simp at hm
            · exact ⟨n, h1, hm⟩
          split
          · exact ih _ hrest
          · simp
          · exact ih _ hrest
      · simp

/-! ## Structs: the field lookup -/

theorem SkippedKept_refl (fs : List (StructField × Ty)) (vs : List Val) :
    SkippedKept fs vs vs := ⟨rfl, fun _ _ _ _ => rfl⟩

theorem SkippedKept_trans (fs : List (StructField × Ty)) (a b c : List Val)
    (h1 : SkippedKept fs a b) (h2 : SkippedKept fs b c) : SkippedKept fs a c :=
  ⟨h2.1.trans h1.1, fun i f hf hs => (h2.2 i f hf hs).trans (h1.2 i f hf hs)⟩

theorem bindField_frame (lib : FloatLib) :
    ∀ (fs : List (StructField × Ty)) (name : List UInt8) (rest : List Node) (vs : List Val)
      (r : List Val × Option String),
      bindField lib fs name rest vs = some r → SkippedKept fs vs r.1 := by
  intro fs
  induction fs with
  | nil => intro name rest vs r h; simp [bindField] at h
  | cons f fs ih =>
    intro name rest vs r h
    cases vs with
    | nil => simp [bindField] at h
    | cons x xs =>
      rw [bindField] at h
      split at h
      · rename_i hc
        cases hb : bindField lib fs name rest xs with
        | none => rw [hb] at h; simp at h
        | some r2 =>
          rw [hb] at h
          simp only [Option.map_some', Option.some.injEq] at h
          subst h
          have h2 := ih name rest xs r2 hb
          refine ⟨by simp [h2.1], ?_⟩
          intro i g hg hs
          cases i with
          | zero => simp
          | succ j =>
            simp only [List.getElem?_cons_succ] at hg ⊢
            exact h2.2 j g hg hs
      · rename_i hc
        have hns : f.1.skipped = false := by
          simp only [not_or, not_not] at hc
          simp [StructField.skipped, hc.1, hc.2.1]
        have key : ∀ (y : Val), SkippedKept (f :: fs) (x :: xs) (y :: xs) := by
          intro y
          refine ⟨by simp, ?_⟩
          intro i g hg hs
          cases i with
          | zero =>
            simp only [List.getElem?_cons_zero, Option.some.injEq] at hg
            rw [← hg, hns] at hs
            cases hs
          | succ j => simp
        split at h
        · simp only [Option.some.injEq] at h
          subst h
          exact key x
        · simp only [Option.some.injEq] at h
          subst h
          exact key _

theorem bindStructLoop_frame (fs : List (StructField × Ty))
    (bf : List UInt8 → List Node → List Val → Option (List Val × Option String))
    (hbf : ∀ name rest vs r, bf name rest vs = some r → SkippedKept fs vs r.1) :
    ∀ (nodes : List Node) (vs : List Val),
      SkippedKept fs vs (bindStructLoop bf nodes vs).1 := by
  intro nodes
  induction nodes with
  | nil => intro vs; simp [bindStructLoop, SkippedKept_refl]
  | cons node rest ih =>
    intro vs
    rw [bindStructLoop]
    split
    · exact SkippedKept_refl fs vs
    · split
      · split
        · exact SkippedKept_refl fs vs
        · split
          · exact ih vs
          · rename_i vs2 err hb
            exact hbf _ _ _ _ hb
          · rename_i vs2 hb
            exact SkippedKept_trans fs vs vs2 _ (hbf _ _ _ _ hb) (ih vs2)
      · exact SkippedKept_refl fs vs

theorem bindField_none (lib : FloatLib) (name : List UInt8) (rest : List Node) :
    ∀ (fs : List (StructField × Ty)) (vs : List Val),
      (∀ f ∈ fs, (f.1.Tag = name ∨ f.1.Name = name) → f.1.skipped = true) →
      bindField lib fs name rest vs = none := by
  intro fs
  induction fs with
  | nil => intro vs _; simp [bindField]
  | cons f fs ih =>
    intro vs h
    cases vs with
    | nil => simp [bindField]
    | cons x xs =>
      have hf := h f (by simp)
      have hc : f.1.Tag = [45] ∨ f.1.Anonymous = true
          ∨ ¬ (f.1.Tag = name ∨ f.1.Name = name) := by
        by_cases hm : f.1.Tag = name ∨ f.1.Name = name
        · have hs := hf hm
          simp only [StructField.skipped, Bool.or_eq_true, decide_eq_true_eq] at hs
          rcases hs with hs | hs
          · exact Or.inl hs
          · exact Or.inr (Or.inl hs)
        · exact Or.inr (Or.inr hm)
      rw [bindField, if_pos hc, ih xs (fun g hg => h g (by simp [hg]))]
      rfl

theorem indirectMap_element (k : List UInt8) (second : Node) (more : List Node)
    (val : List UInt8) :
    indirectMap [Node.mk (some (Node.scalar k :: second :: more)) val]
      = [Node.mk (some (Node.scalar k :: second :: more)) val] := by
  simp [indirectMap, isTreeList, Node.IsScalar, Node.list, Node.scalar]

theorem unmarshalValue_struct_unmatched (lib : FloatLib) (fs : List (StructField × Ty))
    (vs : List Val) (k : List UInt8) (second : Node) (more : List Node) (val : List UInt8)
    (h : ∀ f ∈ fs, (f.1.Tag = k ∨ f.1.Name = k) → f.1.skipped = true) :
    unmarshalValue lib [Node.mk (some (Node.scalar k :: second :: more)) val]
        (Ty.struct fs) (Val.struct vs) = (Val.struct vs, none) := by
  rw [unmarshalValue_struct, indirectMap_element]
  have hb := bindField_none lib k (second :: more) fs vs h
  simp [bindStructLoop, Node.IsScalar, Node.list, Node.scalar, Node.Value, hb]

/-! ## Integers and their base-10 text -/

theorem parseDigits_append (a b : List UInt8) :
    ∀ acc, parseDigits (a ++ b) acc = (parseDigits a acc).bind (parseDigits b) := by
  induction a with
  | nil => intro acc; simp [parseDigits]
  | cons c a ih =>
    intro acc
    simp only [List.cons_append, parseDigits]
    split
    · exact ih _
    · rfl

theorem toNat_digitByte (d : Nat) (hd : d < 10) : (UInt8.ofNat (48 + d)).toNat = 48 + d := by
  have h : 48 + d < 256 := by omega
  simp [UInt8.ofNat, UInt8.toNat, Fin.ofNat, Nat.mod_eq_of_lt h]

theorem parseDigits_digits (ds : List Nat) (hds : ∀ d ∈ ds, d < 10) :
    ∀ acc, parseDigits (ds.reverse.map (fun d => UInt8.ofNat (48 + d))) acc
      = some (acc * 10 ^ ds.length + Nat.ofDigits 10 ds) := by
  induction ds with
  | nil => intro acc; simp [parseDigits]
  | cons d ds ih =>
    intro acc
    have hd : d < 10 := hds d (by simp)
    have h1 := ih (fun x hx => hds x (by simp [hx])) acc
    have h2 := toNat_digitByte d hd
    rw [List.reverse_cons, List.map_append, parseDigits_append, h1]
    simp only [List.map_cons, List.map_nil, Option.some_bind, parseDigits, h2]
    have h3 : 48 ≤ 48 + d ∧ 48 + d ≤ 57 := by omega
    simp only [h3, and_self, if_true, Nat.ofDigits_cons, List.length_cons, Nat.add_sub_cancel_left]
    congr 1
    ring

theorem parseDigits_decimalNat (n : Nat) : parseDigits (decimalNat n) 0 = some n := by
  unfold decimalNat
  by_cases h : n = 0
  · subst h; rfl
  · rw [if_neg h, parseDigits_digits _ (fun d hd => Nat.digits_lt_base (by omega) hd)]
    simp [Nat.ofDigits_digits]

theorem decimalNat_cons (n : Nat) :
    ∃ c r, decimalNat n = c :: r ∧ c ≠ 43 ∧ c ≠ 45 := by
  unfold decimalNat
  by_cases h : n = 0
  · subst h; exact ⟨48, [], rfl, by decide, by decide⟩
  · rw [if_neg h]
    have hne : Nat.digits 10 n ≠ [] := Nat.digits_ne_nil_iff_ne_zero.mpr h
    have hlast := Nat.digits_lt_base (b := 10) (m := n) (d := (Nat.digits 10 n).getLast hne)
      (by omega) (List.getLast_mem hne)
    obtain ⟨init, hinit⟩ : ∃ init, Nat.digits 10 n = init ++ [(Nat.digits 10 n).getLast hne] :=
      ⟨(Nat.digits 10 n).dropLast, (List.dropLast_append_getLast hne).symm⟩
    generalize (Nat.digits 10 n).getLast hne = d at hlast hinit
    rw [hinit]
    refine ⟨UInt8.ofNat (48 + d), init.reverse.map (fun d => UInt8.ofNat (48 + d)), by simp, ?_, ?_⟩
    · intro hc
      have := congrArg UInt8.toNat hc
      rw [toNat_digitByte d hlast] at this
      have h43 : (43 : UInt8).toNat = 43 := rfl
      omega
    · intro hc
      have := congrArg UInt8.toNat hc
      rw [toNat_digitByte d hlast] at this
      have h45 : (45 : UInt8).toNat = 45 := rfl
      omega

theorem ParseInt_decimal (n : Int) :
    ParseInt (decimal n)
      = if -(2 ^ 63 : Int) ≤ n ∧ n ≤ 2 ^ 63 - 1 then some n else none := by
  obtain ⟨c, r, hcr, h43, h45⟩ := decimalNat_cons n.natAbs
  have hp := parseDigits_decimalNat n.natAbs
  by_cases hneg : n < 0
  · have hd : decimal n = 45 :: decimalNat n.natAbs := by simp [decimal, hneg]
    rw [hd]
    simp only [ParseInt, true_or, or_true, if_true, decide_True, hcr, reduceCtorEq, if_false]
    rw [← hcr, hp]
    simp only [Bool.not_true, Bool.false_and, Bool.false_eq_true, if_false, Bool.true_and,
      decide_eq_true_eq]
    by_cases hr : n.natAbs > 2 ^ 63
    · have ht : ¬ (-(2 ^ 63 : Int) ≤ n ∧ n ≤ 2 ^ 63 - 1) := by omega
      rw [if_pos hr, if_neg ht]
    · have ht : -(2 ^ 63 : Int) ≤ n ∧ n ≤ 2 ^ 63 - 1 := by omega
      rw [if_neg hr, if_pos ht]
      congr 1
      omega
  · have hd : decimal n = decimalNat n.natAbs := by simp [decimal, hneg]
    rw [hd, hcr]
    simp only [ParseInt, h43, h45, or_self, if_false, decide_False, reduceCtorEq]
    rw [← hcr, hp]
    simp only [Bool.not_false, Bool.true_and, Bool.false_and, Bool.false_eq_true, if_false,
      decide_eq_true_eq]
    by_cases hr : n.natAbs ≥ 2 ^ 63
    · have ht : ¬ (-(2 ^ 63 : Int) ≤ n ∧ n ≤ 2 ^ 63 - 1) := by omega
      rw [if_pos hr, if_neg ht]
    · have ht : -(2 ^ 63 : Int) ≤ n ∧ n ≤ 2 ^ 63 - 1 := by omega
      rw [if_neg hr, if_pos ht]
      congr 1
      omega

theorem bindInt_decimal (w : Nat) (hw : w = 8 ∨ w = 16 ∨ w = 32 ∨ w = 64) (n : Int)
    (v : Val) :
    bindInt w [Node.scalar (decimal n)] v
      = if -(2 ^ (w - 1) : Int) ≤ n ∧ n ≤ 2 ^ (w - 1) - 1 then (Val.int n, none)
        else if -(2 ^ 63 : Int) ≤ n ∧ n ≤ 2 ^ 63 - 1 then (v, some "integer overflow")
        else (v, some "node is not an integer") := by
  have hs : isTreeScalar [Node.scalar (decimal n)] = true := rfl
  have hf : firstValue [Node.scalar (decimal n)] = decimal n := rfl
  simp only [bindInt, hs, hf, ParseInt_decimal, Bool.not_true, Bool.false_eq_true, if_false]
  by_cases h64 : -(2 ^ 63 : Int) ≤ n ∧ n ≤ 2 ^ 63 - 1
  · rw [if_pos h64]
    simp only [OverflowInt, Bool.or_eq_true, decide_eq_true_eq]
    by_cases hin : -(2 ^ (w - 1) : Int) ≤ n ∧ n ≤ 2 ^ (w - 1) - 1
    · have hno : ¬ (n < -(2 ^ (w - 1) : Int) ∨ n ≥ (2 ^ (w - 1) : Int)) := by omega
      rw [if_neg hno, if_pos hin]
    · have hov : n < -(2 ^ (w - 1) : Int) ∨ n ≥ (2 ^ (w - 1) : Int) := by omega
      rw [if_pos hov, if_neg hin, if_pos h64]
  · rw [if_neg h64]
    have hin : ¬ (-(2 ^ (w - 1) : Int) ≤ n ∧ n ≤ 2 ^ (w - 1) - 1) := by
      rcases hw with rfl | rfl | rfl | rfl <;> omega
    rw [if_neg hin, if_neg h64]

/-! ## Arrays of integers -/

theorem bindInt_scalar (w : Nat) (s : List UInt8) (n : Int) (v : Val)
    (hp : ParseInt s = some n) (hlo : -(2 ^ (w - 1) : Int) ≤ n) (hhi : n ≤ 2 ^ (w - 1) - 1) :
    bindInt w [Node.scalar s] v = (Val.int n, none) := by
  have hs : isTreeScalar [Node.scalar s] = true := rfl
  have hf : firstValue [Node.scalar s] = s := rfl
  have hno : ¬ (n < -(2 ^ (w - 1) : Int) ∨ n ≥ (2 ^ (w - 1) : Int)) := by omega
  simp only [bindInt, hs, hf, hp, Bool.not_true, Bool.false_eq_true, if_false, OverflowInt,
    Bool.or_eq_true, decide_eq_true_eq, hno]

theorem bindUint_scalar (w : Nat) (s : List UInt8) (n : Nat) (v : Val)
    (hp : ParseUint s = some n) (hhi : n < 2 ^ w) :
    bindUint w [Node.scalar s] v = (Val.uint n, none) := by
  have hs : isTreeScalar [Node.scalar s] = true := rfl
  have hf : firstValue [Node.scalar s] = s := rfl
  have hno : ¬ (n ≥ 2 ^ w) := by omega
  simp only [bindUint, hs, hf, hp, Bool.not_true, Bool.false_eq_true, if_false, OverflowUint,
    decide_eq_true_eq, hno]

theorem bindElems_scalars {α : Type} (bind : Binder) (text : α → List UInt8) (value : α → Val) :
    ∀ (items : List α) (prev : List Val),
      (∀ p ∈ items, ∀ x, bind [Node.scalar (text p)] x = (value p, none)) →
      items.length ≤ prev.length →
      bindElems bind (items.map (fun p => Node.scalar (text p))) prev
        = (items.map value ++ prev.drop items.length, none) := by
  intro items
  induction items with
  | nil => intro prev _ _; simp [bindElems]
  | cons p items ih =>
    intro prev h hlen
    cases prev with
    | nil => simp at hlen
    | cons x xs =>
      have h1 := h p (by simp) x
      have h2 := ih xs (fun q hq => h q (by simp [hq])) (by simpa using hlen)
      simp only [List.map_cons, bindElems, h1, h2]
      simp

theorem bindArray_scalars {α : Type} (bind : Binder) (zeroElem : Val) (text : α → List UInt8)
    (value : α → Val) (N : Nat) (prev : List Val) (tree : List Node) (items : List α)
    (extra : List Node) (hprev : prev.length = N)
    (htree : seqTree tree = items.map (fun p => Node.scalar (text p)) ++ extra)
    (hitems : ∀ p ∈ items, ∀ x, bind [Node.scalar (text p)] x = (value p, none))
    (hk : (extra = [] ∧ items.length ≤ N) ∨ items.length = N) :
    bindArray bind zeroElem N tree (Val.array prev)
      = (Val.array (items.map value ++ List.replicate (N - items.length) zeroElem), none) := by
  have hle : items.length ≤ N := by
    rcases hk with ⟨_, h⟩ | h <;> omega
  have hnodes : (seqTree tree).take N = items.map (fun p => Node.scalar (text p)) := by
    rw [htree]
    rcases hk with ⟨he, h⟩ | h
    · rw [he, List.append_nil]
      exact List.take_of_length_le (by simpa using h)
    · rw [List.take_append_of_le_length (by simp [h])]
      exact List.take_of_length_le (by simp [h])
  have hb := bindElems_scalars bind text value items prev hitems (by omega)
  simp only [bindArray, hnodes, hb, List.length_map]
  simp

/-! ## Structs: the enclosing list -/

theorem indirectMap_keyed (T : List Node) (hT : ∀ n ∈ T, keyedElem n = true) :
    indirectMap T = T := by
  cases T with
  | nil => rfl
  | cons n r =>
    cases r with
    | cons m r => simp [indirectMap, isTreeList]
    | nil =>
      have h := hT n (by simp)
      cases n with
      | mk l val =>
        cases l with
        | none => simp [keyedElem, Node.list] at h
        | some l =>
          cases l with
          | nil => simp [keyedElem, Node.list] at h
          | cons f t =>
            simp only [keyedElem, Node.list] at h
            simp [indirectMap, isTreeList, Node.IsScalar, Node.list, h]

theorem indirectMap_wrapped (T : List Node) (val : List UInt8)
    (hT : ∀ n ∈ T, (n.list).isSome = true) :
    indirectMap [Node.mk (some T) val] = T := by
  cases T with
  | nil => simp [indirectMap, isTreeList, Node.IsScalar, Node.list]
  | cons n r =>
    have h := hT n (by simp)
    cases n with
    | mk l v =>
      cases l with
      | none => simp [Node.list] at h
      | some l => simp [indirectMap, isTreeList, Node.IsScalar, Node.list]

theorem keyedElem_isSome (n : Node) (h : keyedElem n = true) : (n.list).isSome = true := by
  cases n with
  | mk l val =>
    cases l with
    | none => simp [keyedElem, Node.list] at h
    | some l => rfl

theorem wrapped_keyed_malformed (T : List Node) (val : List UInt8)
    (hT : ∀ n ∈ T, keyedElem n = true) :
    malformedElem (Node.mk (some T) val) = true ∨ nonScalarKey (Node.mk (some T) val) = true := by
  cases T with
  | nil => left; simp [malformedElem, Node.list]
  | cons n r =>
    right
    have h := keyedElem_isSome n (hT n (by simp))
    cases n with
    | mk l v =>
      cases l with
      | none => simp [Node.list] at h
      | some l => simp [nonScalarKey, Node.list]

/-! ## Multi-line raw strings: carriage returns and spacers -/

theorem parseRawLineLoop_cr (l : List UInt8) (hl : ∀ b ∈ l, b ≠ 10 ∧ b ≠ 13)
    (rest : List UInt8) (e : Option String) :
    ∀ (pre : List UInt8) (fuel : Nat) (buf : List UInt8), l.length + 1 < fuel →
      parseRawLineLoop fuel (mkp pre (l ++ 13 :: 10 :: rest) e) (hd (l ++ 13 :: 10 :: rest)) buf
        = some (mkp (pre ++ l ++ [13]) (10 :: rest) e, buf ++ l) := by
  induction l with
  | nil =>
    intro pre fuel buf hf
    obtain ⟨f, rfl⟩ : ∃ f, fuel = f + 2 := ⟨fuel - 2, by simp at hf; omega⟩
    have h1 : hd (13 :: 10 :: rest) = 13 := rfl
    have h2 : hd (10 :: rest) = 10 := rfl
    simp only [List.nil_append, parseRawLineLoop, h1, mkp_advance_cons, h2]
    simp [eof]
  | cons b l ih =>
    intro pre fuel buf hf
    cases fuel with
    | zero => omega
    | succ f =>
      have hb := hl b (by simp)
      have h10 := int_eq_lit b 10 10 rfl
      have h13 := int_eq_lit b 13 13 rfl
      have hne : int b ≠ eof := int_ne_eof b
      have ih2 := ih (fun d hd => hl d (by simp [hd])) (pre ++ [b]) f (buf ++ [b])
        (by simp at hf; omega)
      simp only [List.cons_append, hd, parseRawLineLoop]
      simp only [List.cons_append] at ih2
      rw [mkp_advance_cons]
      simp [hb.1, hb.2, h10, h13, hne, ih2, byte_int]

theorem parseRawLine_crlf (l : List UInt8) (hl : ∀ b ∈ l, b ≠ 10 ∧ b ≠ 13)
    (rest pre : List UInt8) (e : Option String) (buf : List UInt8) :
    (mkp pre (124 :: 32 :: (l ++ 13 :: 10 :: rest)) e).parseRawLine buf
      = some (mkp (pre ++ 124 :: 32 :: l ++ [13]) (10 :: rest) e, buf ++ l) := by
  unfold parser.parseRawLine
  rw [mkp_advance_cons, mkp_fuel]
  have h32 : hd (32 :: (l ++ 13 :: 10 :: rest)) = 32 := rfl
  simp only [Option.some_bind, h32, if_true, mkp_advance_cons, Option.map_some', mkp_current]
  rw [parseRawLineLoop_cr l hl rest e _ _ buf (by simp; omega)]
  simp

theorem multiLineLoop_crlf (e : Option String) (rest : List UInt8) :
    ∀ (lines : List (List UInt8 × List UInt8)),
      (∀ p ∈ lines, ∀ b ∈ p.1, b ∈ spaceBytes) →
      (∀ p ∈ lines, ∀ b ∈ p.2, b ≠ 10 ∧ b ≠ 13) →
    ∀ (pre : List UInt8) (fuel : Nat) (buf : List UInt8),
      parseMultiLineStringLiteralLoop (fuel + lines.length)
          (mkp pre (crlfLines lines ++ rest) e) buf
        = parseMultiLineStringLiteralLoop fuel (mkp (pre ++ crlfLines lines) rest e)
            ((lines.map (fun p => p.2)).foldl appendLine buf) := by
  intro lines
  induction lines with
  | nil => intro _ _ pre fuel buf; simp [crlfLines]
  | cons p r ih =>
    intro hs hl pre fuel buf
    have hs1 := hs p (by simp)
    have hl1 := hl p (by simp)
    have h2 := ih (fun x hx => hs x (by simp [hx])) (fun x hx => hl x (by simp [hx]))
      (pre ++ p.1 ++ 124 :: 32 :: p.2 ++ [13, 10]) fuel (appendLine buf p.2)
    have hs2 : crlfLines (p :: r) ++ rest
        = p.1 ++ 124 :: 32 :: (p.2 ++ 13 :: 10 :: (crlfLines r ++ rest)) := by
      simp [crlfLines]
    have hf : fuel + (p :: r).length = fuel + r.length + 1 := by simp; omega
    have hsk := skipToNonSpace_spec p.1 (fun b hb => (isSpace_iff b).mpr (hs1 b hb))
      (124 :: 32 :: (p.2 ++ 13 :: 10 :: (crlfLines r ++ rest)))
      (by simp [hd, int, isSpace]) e pre
    have hh : hd (124 :: 32 :: (p.2 ++ 13 :: 10 :: (crlfLines r ++ rest))) = 124 := rfl
    rw [hs2, hf, parseMultiLineStringLiteralLoop, hsk]
    simp only [Option.some_bind, mkp_current, hh]
    simp only [show ¬ ((124 : Int) = 96) by decide, if_false, if_true,
      parseRawLine_crlf p.2 hl1, Option.some_bind, mkp_advance_cons]
    have ha : (if (buf.length != 0) = true then buf ++ [10] else buf) ++ p.2
        = appendLine buf p.2 := rfl
    rw [ha]
    have h3 : pre ++ p.1 ++ 124 :: 32 :: p.2 ++ [13] ++ [10]
        = pre ++ p.1 ++ 124 :: 32 :: p.2 ++ [13, 10] := by simp
    rw [h3, h2]
    simp [crlfLines]

theorem multiLineLoop_ws_close (ws : List UInt8) (hws : ∀ b ∈ ws, b ∈ spaceBytes)
    (pre rest : List UInt8) (e : Option String) (fuel : Nat) (buf : List UInt8) :
    parseMultiLineStringLiteralLoop (fuel + 1) (mkp pre (ws ++ 96 :: rest) e) buf
      = some (mkp (pre ++ ws ++ [96]) rest e, Node.scalar buf, true) := by
  have hsk := skipToNonSpace_spec ws (fun b hb => (isSpace_iff b).mpr (hws b hb))
    (96 :: rest) (by simp [hd, int, isSpace]) e pre
  rw [parseMultiLineStringLiteralLoop, hsk]
  simp only [Option.some_bind, mkp_current, mkp_advance_cons]
  simp [hd, int]

theorem parseSingleNode_multiLine_cr (l pre : List UInt8) (e : Option String) (fuel : Nat) :
    parseSingleNode (fuel + 1) (mkp pre (96 :: 13 :: 10 :: l) e)
      = parseMultiLineStringLiteralLoop (l.length + 4) (mkp (pre ++ [96, 13]) (10 :: l) e) [] := by
  have hsk := skipToNonSpace_none (96 :: 13 :: 10 :: l) (by simp [hd, int, isSpace]) e pre
  have hm1 : [96, 10].isPrefixOf (96 :: 13 :: 10 :: l) = false := by simp [List.isPrefixOf]
  have hm : [96, 13, 10].isPrefixOf (96 :: 13 :: 10 :: l) = true := by simp [List.isPrefixOf]
  have hn : (mkp pre (96 :: 13 :: 10 :: l) e).next 1 = some 96 := by
    have hg := mkp_get pre (96 :: 13 :: 10 :: l) e 0
    simp only [Nat.add_zero] at hg
    have hlt : ¬ ((mkp pre (96 :: 13 :: 10 :: l) e).ptr + 1
        ≥ (mkp pre (96 :: 13 :: 10 :: l) e).data.length) := by
      simp [mkp]
    simp only [parser.next, hlt, if_false, hg]
    rfl
  rw [parseSingleNode, hsk]
  simp only [Option.some_bind, mkp_current, matches_spec, hm1, hm]
  have hh : hd (96 :: 13 :: 10 :: l) = 96 := rfl
  rw [hh]
  simp only [show ¬ ((96 : Int) = 40) by decide, show ¬ ((96 : Int) = 41) by decide,
    show ¬ ((96 : Int) = 34) by decide, if_false, if_true, Option.some_bind,
    parser.parseMultiLineStringLiteral, hn, show ¬ ((96 : Int) = 13) by decide,
    mkp_advanceN_two, mkp_fuel]
  simp

theorem rawLines_length_le (lines : List (List UInt8)) :
    lines.length ≤ (rawLines lines).length := by
  induction lines with
  | nil => simp
  | cons l r ih => simp [rawLines] at ih ⊢; omega

theorem crlfLines_length_le (lines : List (List UInt8 × List UInt8)) :
    lines.length ≤ (crlfLines lines).length := by
  induction lines with
  | nil => simp
  | cons l r ih => simp [crlfLines] at ih ⊢; omega

theorem Parse_rawLines (lines : List (List UInt8))
    (hl : ∀ l ∈ lines, ∀ b ∈ l, b ≠ 10 ∧ b ≠ 13) :
    Parse ([96, 10] ++ rawLines lines ++ [96])
      = some ([Node.scalar (List.intercalate [10] (lines.dropWhile (fun l => l.isEmpty)))],
          none) := by
  have hlen := rawLines_length_le lines
  obtain ⟨g, hg⟩ : ∃ g, (rawLines lines ++ [96]).length + 3 = (g + 1) + lines.length :=
    ⟨(rawLines lines).length + 3 - lines.length, by simp; omega⟩
  have h1 := parseSingleNode_multiLine (rawLines lines ++ [96]) [] none
    (parseFuel ([96, 10] ++ rawLines lines ++ [96]) - 2)
  rw [hg, multiLineLoop_lines none [96] lines hl, multiLineLoop_close,
    foldl_appendLine_nil] at h1
  have hf : parseFuel ([96, 10] ++ rawLines lines ++ [96])
      = (parseFuel ([96, 10] ++ rawLines lines ++ [96]) - 4) + 2 + 1 + 1 := by
    simp [parseFuel]; omega
  have hf2 : parseFuel ([96, 10] ++ rawLines lines ++ [96]) - 2 + 1
      = (parseFuel ([96, 10] ++ rawLines lines ++ [96]) - 4) + 2 + 1 := by
    simp [parseFuel]; omega
  have h : parseLoop (parseFuel ([96, 10] ++ rawLines lines ++ [96]))
      (mkp [] ([96, 10] ++ rawLines lines ++ [96]) none) []
      = some (mkp ([96, 10] ++ rawLines lines ++ [96]) [] none,
          [Node.scalar (List.intercalate [10] (lines.dropWhile (fun l => l.isEmpty)))]) := by
    rw [hf2] at h1
    rw [hf, parseLoop]
    have h2 : mkp [] ([96, 10] ++ rawLines lines ++ [96]) none
        = mkp [] (96 :: 10 :: (rawLines lines ++ [96])) none := by simp
    rw [h2, h1]
    simp [parseLoop_eof]
  rw [Parse_eq _ _ _ h]
  simp [mkp_err]

theorem multiLineLoop_crlf_all (lines : List (List UInt8 × List UInt8)) (ws : List UInt8)
    (hs : ∀ p ∈ lines, ∀ b ∈ p.1, b ∈ spaceBytes)
    (hl : ∀ p ∈ lines, ∀ b ∈ p.2, b ≠ 10 ∧ b ≠ 13) (hws : ∀ b ∈ ws, b ∈ spaceBytes)
    (pre : List UInt8) (e : Option String) (fuel : Nat) (buf : List UInt8) :
    parseMultiLineStringLiteralLoop (fuel + 1 + lines.length)
        (mkp pre (10 :: (crlfLines lines ++ ws ++ [96])) e) buf
      = some (mkp (pre ++ 10 :: (crlfLines lines ++ ws ++ [96])) [] e,
          Node.scalar ((lines.map (fun p => p.2)).foldl appendLine buf), true) := by
  cases lines with
  | nil =>
    have h := multiLineLoop_ws_close (10 :: ws)
      (by intro b hb
          rcases List.mem_cons.mp hb with h | h
          · rw [h]; decide
          · exact hws b h) pre [] e fuel buf
    simpa [crlfLines] using h
  | cons p r =>
    have hc : (10 : UInt8) :: (crlfLines (p :: r) ++ ws ++ [96])
        = crlfLines ((10 :: p.1, p.2) :: r) ++ (ws ++ [96]) := by
      simp [crlfLines]
    have h1 := multiLineLoop_crlf e (ws ++ [96]) ((10 :: p.1, p.2) :: r)
      (by intro x hx b hb
          rcases List.mem_cons.mp hx with h | h
          · rw [h] at hb
            rcases List.mem_cons.mp hb with h2 | h2
            · rw [h2]; decide
            · exact hs p (by simp) b h2
          · exact hs x (by simp [h]) b hb)
      (by intro x hx b hb
          rcases List.mem_cons.mp hx with h | h
          · rw [h] at hb; exact hl p (by simp) b hb
          · exact hl x (by simp [h]) b hb)
      pre (fuel + 1) buf
    have h2 := multiLineLoop_ws_close ws hws (pre ++ crlfLines ((10 :: p.1, p.2) :: r)) [] e fuel
      ((((10 :: p.1, p.2) :: r).map (fun p => p.2)).foldl appendLine buf)
    rw [hc]
    have hlen : ((10 :: p.1, p.2) :: r).length = (p :: r).length := by simp
    rw [hlen] at h1
    rw [h1, h2]
    simp

theorem Parse_crlfLines (lines : List (List UInt8 × List UInt8)) (ws : List UInt8)
    (hs : ∀ p ∈ lines, ∀ b ∈ p.1, b ∈ spaceBytes)
    (hl : ∀ p ∈ lines, ∀ b ∈ p.2, b ≠ 10 ∧ b ≠ 13) (hws : ∀ b ∈ ws, b ∈ spaceBytes) :
    Parse ([96, 13, 10] ++ crlfLines lines ++ ws ++ [96])
      = some ([Node.scalar (List.intercalate [10]
          ((lines.map (fun p => p.2)).dropWhile (fun l => l.isEmpty)))], none) := by
  have hlen := crlfLines_length_le lines
  obtain ⟨g, hg⟩ : ∃ g, (crlfLines lines ++ ws ++ [96]).length + 4 = g + 1 + lines.length :=
    ⟨(crlfLines lines ++ ws ++ [96]).length + 3 - lines.length, by simp; omega⟩
  have h1 := parseSingleNode_multiLine_cr (crlfLines lines ++ ws ++ [96]) [] none
    (parseFuel ([96, 13, 10] ++ crlfLines lines ++ ws ++ [96]) - 2)
  rw [hg, multiLineLoop_crlf_all lines ws hs hl hws, foldl_appendLine_nil] at h1
  have hf : parseFuel ([96, 13, 10] ++ crlfLines lines ++ ws ++ [96])
      = (parseFuel ([96, 13, 10] ++ crlfLines lines ++ ws ++ [96]) - 4) + 2 + 1 + 1 := by
    simp [parseFuel]; omega
  have hf2 : parseFuel ([96, 13, 10] ++ crlfLines lines ++ ws ++ [96]) - 2 + 1
      = (parseFuel ([96, 13, 10] ++ crlfLines lines ++ ws ++ [96]) - 4) + 2 + 1 := by
    simp [parseFuel]; omega
  have h : parseLoop (parseFuel ([96, 13, 10] ++ crlfLines lines ++ ws ++ [96]))
      (mkp [] ([96, 13, 10] ++ crlfLines lines ++ ws ++ [96]) none) []
      = some (mkp ([96, 13, 10] ++ crlfLines lines ++ ws ++ [96]) [] none,
          [Node.scalar (List.intercalate [10]
            ((lines.map (fun p => p.2)).dropWhile (fun l => l.isEmpty)))]) := by
    rw [hf2] at h1
    rw [hf, parseLoop]
    have h2 : mkp [] ([96, 13, 10] ++ crlfLines lines ++ ws ++ [96]) none
        = mkp [] (96 :: 13 :: 10 :: (crlfLines lines ++ ws ++ [96])) none := by simp
    rw [h2, h1]
    simp [parseLoop_eof]
  rw [Parse_eq _ _ _ h]
  simp [mkp_err]

/-! ## Totality: every method returns, inside the buffer -/

theorem Reaches_refl (p : parser) (h : p.ptr ≤ p.data.length) : p.Reaches p :=
  ⟨rfl, Nat.le_refl _, h⟩

theorem Reaches_trans {p q r : parser} (h1 : p.Reaches q) (h2 : q.Reaches r) : p.Reaches r := by
  obtain ⟨a1, a2, a3⟩ := h1
  obtain ⟨b1, b2, b3⟩ := h2
  refine ⟨b1.trans a1, Nat.le_trans a2 b2, ?_⟩
  rw [a1] at b3
  exact b3

theorem Reaches_bound {p q : parser} (h : p.Reaches q) : q.ptr ≤ q.data.length := by
  obtain ⟨a1, _, a3⟩ := h
  rw [a1]
  exact a3

theorem Reaches_length {p q : parser} (h : p.Reaches q) : q.data.length = p.data.length := by
  rw [h.1]

theorem current_total (p : parser) (h : p.ptr ≤ p.data.length) :
    ∃ b, p.current = some b ∧ (b = eof ↔ p.ptr = p.data.length) := by
  by_cases he : p.ptr = p.data.length
  · exact ⟨eof, by simp [parser.current, he], by simp [he]⟩
  · have hlt : p.ptr < p.data.length := by omega
    refine ⟨int p.data[p.ptr], ?_, ?_⟩
    · simp [parser.current, he, List.getElem?_eq_getElem hlt]
    · constructor
      · intro h2
        exact absurd h2 (int_ne_eof _)
      · intro h2
        exact absurd h2 he

theorem advance_total (p : parser) (h : p.ptr ≤ p.data.length) :
    ∃ q b, p.advance = some (q, b) ∧ p.Reaches q ∧ q.current = some b
      ∧ (p.ptr < p.data.length → q.ptr = p.ptr + 1) := by
  by_cases hlt : p.ptr < p.data.length
  · obtain ⟨b, hb, _⟩ := current_total { p with ptr := p.ptr + 1 } (by simpa using hlt)
    refine ⟨{ p with ptr := p.ptr + 1 }, b, ?_, ⟨rfl, by simp, by simpa using hlt⟩, hb, fun _ => rfl⟩
    simp [parser.advance, hlt, hb]
  · obtain ⟨b, hb, _⟩ := current_total p h
    refine ⟨p, b, ?_, Reaches_refl p h, hb, fun h2 => absurd h2 hlt⟩
    simp [parser.advance, hlt, hb]

theorem advanceN_total (p : parser) (n : Nat) (h : p.ptr ≤ p.data.length) :
    ∃ q b, p.advanceN n = some (q, b) ∧ p.Reaches q
      ∧ (p.ptr < p.data.length → 0 < n → p.ptr < q.ptr) := by
  by_cases hgt : p.ptr + n > p.data.length
  · obtain ⟨b, hb, _⟩ := current_total { p with ptr := p.data.length } (by simp)
    refine ⟨{ p with ptr := p.data.length }, b, ?_, ⟨rfl, by simpa using h, by simp⟩,
      fun h1 _ => by simpa using h1⟩
    simp [parser.advanceN, hgt, hb]
  · obtain ⟨b, hb, _⟩ := current_total { p with ptr := p.ptr + n } (by simp; omega)
    refine ⟨{ p with ptr := p.ptr + n }, b, ?_, ⟨rfl, by simp, by simp; omega⟩,
      fun _ h2 => by simp; omega⟩
    simp [parser.advanceN, hgt, hb]

theorem next_total (p : parser) (n : Nat) (h : p.ptr ≤ p.data.length) :
    ∃ b, p.next n = some b := by
  by_cases hge : p.ptr + n ≥ p.data.length
  · exact ⟨eof, by simp [parser.next, hge]⟩
  · have hlt : p.ptr < p.data.length := by omega
    exact ⟨int p.data[p.ptr], by simp [parser.next, hge, List.getElem?_eq_getElem hlt]⟩

theorem error_Reaches (p : parser) (msg : String) (h : p.ptr ≤ p.data.length) :
    p.Reaches (p.error msg).1 :=
  ⟨rfl, h, Nat.le_refl _⟩

theorem matchesLoop_total (p : parser) :
    ∀ (s : List UInt8) (i : Nat), p.ptr + i + s.length ≤ p.data.length →
      ∃ m, matchesLoop p s i = some m := by
  intro s
  induction s with
  | nil => intro i _; exact ⟨true, rfl⟩
  | cons c s ih =>
    intro i hi
    have hlt : p.ptr + i < p.data.length := by simp at hi; omega
    rw [matchesLoop, List.getElem?_eq_getElem hlt]
    simp only [Option.some_bind]
    split
    · exact ⟨false, rfl⟩
    · exact ih (i + 1) (by simp at hi; omega)

theorem matches_total (p : parser) (s : List UInt8) : ∃ m, p.matches s = some m := by
  unfold parser.matches
  split
  · exact ⟨false, rfl⟩
  · rename_i hn
    apply matchesLoop_total
    unfold parser.unreadLen at hn
    omega

theorem current_lt (p : parser) (b : Int) (h : p.ptr ≤ p.data.length)
    (hb : p.current = some b) (hne : b ≠ eof) : p.ptr < p.data.length := by
  obtain ⟨c, hc, hiff⟩ := current_total p h
  rw [hb] at hc
  cases hc
  have : ¬ p.ptr = p.data.length := fun h2 => hne (hiff.mpr h2)
  omega

theorem skipToNonSpaceLoop_total :
    ∀ (fuel : Nat) (p : parser) (b : Int), p.ptr ≤ p.data.length → p.current = some b →
      p.data.length - p.ptr < fuel →
      ∃ q, skipToNonSpaceLoop fuel p b = some q ∧ p.Reaches q
        ∧ ∃ c, q.current = some c ∧ isSpace c = false := by
  intro fuel
  induction fuel with
  | zero => intro p b _ _ hf; omega
  | succ f ih =>
    intro p b h hb hf
    rw [skipToNonSpaceLoop]
    by_cases hc : (b != eof && isSpace b) = true
    · have hne : b ≠ eof := by
        intro h2
        rw [h2] at hc
        simp [isSpace_eof] at hc
      have hlt := current_lt p b h hb hne
      obtain ⟨q, c, ha, hr, hqc, hq⟩ := advance_total p h
      have hq1 := hq hlt
      obtain ⟨q2, h2, hr2, hpost⟩ := ih q c (Reaches_bound hr) hqc
        (by rw [Reaches_length hr, hq1]; omega)
      refine ⟨q2, ?_, Reaches_trans hr hr2, hpost⟩
      simp [hc, ha, h2]
    · refine ⟨p, by simp [hc], Reaches_refl p h, b, hb, ?_⟩
      by_cases h2 : b = eof
      · rw [h2]; exact isSpace_eof
      · cases hs : isSpace b with
        | false => rfl
        | true => simp [h2, hs] at hc

theorem skipToNonSpace_total (p : parser) (h : p.ptr ≤ p.data.length) :
    ∃ q, p.skipToNonSpace = some q ∧ p.Reaches q
      ∧ ∃ c, q.current = some c ∧ isSpace c = false := by
  obtain ⟨b, hb, _⟩ := current_total p h
  obtain ⟨q, hq, hr, hpost⟩ := skipToNonSpaceLoop_total p.fuel p b h hb
    (by unfold parser.fuel; omega)
  exact ⟨q, by simp [parser.skipToNonSpace, hb, hq], hr, hpost⟩

theorem skipCommentLoop_total :
    ∀ (fuel : Nat) (p : parser) (b : Int), p.ptr ≤ p.data.length → p.current = some b →
      p.data.length - p.ptr < fuel →
      ∃ q, skipCommentLoop fuel p b = some q ∧ p.Reaches q
        ∧ (b ≠ eof → b ≠ 10 → p.ptr < q.ptr) := by
  intro fuel
  induction fuel with
  | zero => intro p b _ _ hf; omega
  | succ f ih =>
    intro p b h hb hf
    rw [skipCommentLoop]
    by_cases hc : (b != eof && b != 10) = true
    · have hne : b ≠ eof := by
        intro h2
        rw [h2] at hc
        simp at hc
      have hlt := current_lt p b h hb hne
      obtain ⟨q, c, ha, hr, hqc, hq⟩ := advance_total p h
      have hq1 := hq hlt
      obtain ⟨q2, h2, hr2, _⟩ := ih q c (Reaches_bound hr) hqc
        (by rw [Reaches_length hr, hq1]; omega)
      refine ⟨q2, ?_, Reaches_trans hr hr2, ?_⟩
      · simp [hc, ha, h2]
      · intro _ _
        have := hr2.2.1
        omega
    · refine ⟨p, by simp [hc], Reaches_refl p h, ?_⟩
      intro h1 h2
      simp [h1, h2] at hc

theorem skipComment_total (p : parser) (h : p.ptr ≤ p.data.length) :
    ∃ q, p.skipComment = some q ∧ p.Reaches q
      ∧ (∀ b, p.current = some b → b ≠ eof → b ≠ 10 → p.ptr < q.ptr) := by
  obtain ⟨b, hb, _⟩ := current_total p h
  obtain ⟨q, hq, hr, hpost⟩ := skipCommentLoop_total p.fuel p b h hb
    (by unfold parser.fuel; omega)
  refine ⟨q, by simp [parser.skipComment, hb, hq], hr, ?_⟩
  intro c hc
  rw [hb] at hc
  cases hc
  exact hpost

theorem parseScalarLoop_total :
    ∀ (fuel : Nat) (p : parser) (b : Int) (buf : List UInt8), p.ptr ≤ p.data.length →
      p.current = some b → p.data.length - p.ptr < fuel →
      ∃ r, parseScalarLoop fuel p b buf = some r ∧ p.Reaches r.1
        ∧ (b ≠ eof → isScalar b = true → p.ptr < r.1.ptr) := by
  intro fuel
  induction fuel with
  | zero => intro p b _ _ _ hf; omega
  | succ f ih =>
    intro p b buf h hb hf
    rw [parseScalarLoop]
    by_cases hc : (b != eof && isScalar b) = true
    · have hne : b ≠ eof := by
        intro h2
        rw [h2] at hc
        simp at hc
      have hlt := current_lt p b h hb hne
      obtain ⟨q, c, ha, hr, hqc, hq⟩ := advance_total p h
      have hq1 := hq hlt
      obtain ⟨r, h2, hr2, _⟩ := ih q c (buf ++ [byte b]) (Reaches_bound hr) hqc
        (by rw [Reaches_length hr, hq1]; omega)
      refine ⟨r, ?_, Reaches_trans hr hr2, ?_⟩
      · simp [hc, ha, h2]
      · intro _ _
        have := hr2.2.1
        omega
    · refine ⟨(p, buf), by simp [hc], Reaches_refl p h, ?_⟩
      intro h1 h2
      simp [h1, h2] at hc

theorem parseScalar_total (p : parser) (h : p.ptr ≤ p.data.length) :
    ∃ r, p.parseScalar = some r ∧ p.Reaches r.1
      ∧ (∀ b, p.current = some b → b ≠ eof → isScalar b = true → p.ptr < r.1.ptr) := by
  obtain ⟨b, hb, _⟩ := current_total p h
  obtain ⟨r, hq, hr, hpost⟩ := parseScalarLoop_total p.fuel p b [] h hb
    (by unfold parser.fuel; omega)
  refine ⟨(r.1, Node.scalar r.2), by simp [parser.parseScalar, hb, hq], hr, ?_⟩
  intro c hc
  rw [hb] at hc
  cases hc
  exact hpost

theorem parseEscapeSequence_total (p : parser) (h : p.ptr ≤ p.data.length) :
    ∃ r, p.parseEscapeSequence = some r ∧ p.Reaches r.1
      ∧ (p.ptr < p.data.length → p.ptr < r.1.ptr) := by
  obtain ⟨q, b, ha, hr, _, hq⟩ := advance_total p h
  have hqb := Reaches_bound hr
  have hstep : p.ptr < p.data.length → p.ptr < q.ptr := fun h1 => by rw [hq h1]; omega
  have herr : ∀ msg, p.Reaches (q.error msg).1
      ∧ (p.ptr < p.data.length → p.ptr < (q.error msg).1.ptr) := by
    intro msg
    refine ⟨Reaches_trans hr (error_Reaches q msg hqb), ?_⟩
    intro h1
    have : (q.error msg).1.ptr = q.data.length := rfl
    rw [this, Reaches_length hr]
    exact h1
  simp only [parser.parseEscapeSequence, ha, Option.some_bind]
  by_cases h34 : b = 34
  · exact ⟨(q, 34), by simp [h34], hr, hstep⟩
  by_cases h92 : b = 92
  · exact ⟨(q, 92), by simp [h92], hr, hstep⟩
  by_cases h114 : b = 114
  · exact ⟨(q, 13), by simp [h114], hr, hstep⟩
  by_cases h110 : b = 110
  · exact ⟨(q, 10), by simp [h110], hr, hstep⟩
  by_cases h116 : b = 116
  · exact ⟨(q, 9), by simp [h116], hr, hstep⟩
  simp only [h34, h92, h114, h110, h116, if_false]
  by_cases h120 : b = 120
  · simp only [h120, if_true]
    by_cases hu : q.unreadLen < 3
    · rw [if_pos hu]
      exact ⟨_, rfl, (herr _).1, (herr _).2⟩
    · have hu2 : q.ptr + 2 < q.data.length := by
        unfold parser.unreadLen at hu
        omega
      have h1 : q.ptr + 1 < q.data.length := by omega
      simp only [hu, if_false, List.getElem?_eq_getElem h1, List.getElem?_eq_getElem hu2,
        Option.some_bind]
      by_cases hx1 : (isHex (int q.data[q.ptr + 1])).2 = true
      · by_cases hx2 : (isHex (int q.data[q.ptr + 2])).2 = true
        · obtain ⟨q2, c, ha2, hr2, hq2⟩ := advanceN_total q 2 hqb
          simp only [hx1, hx2, Bool.not_true, Bool.false_eq_true, if_false, ha2,
            Option.map_some']
          refine ⟨_, rfl, Reaches_trans hr hr2, ?_⟩
          intro h3
          have := hr2.2.1
          have := hstep h3
          simp only
          omega
        · simp only [hx1, hx2, Bool.not_true, Bool.false_eq_true, if_false, Bool.not_false,
            if_true]
          exact ⟨_, rfl, (herr _).1, (herr _).2⟩
      · simp only [hx1, Bool.not_false, if_true]
        exact ⟨_, rfl, (herr _).1, (herr _).2⟩
  · simp only [h120, if_false]
    by_cases he : b = eof
    · rw [if_pos he]
      exact ⟨_, rfl, (herr _).1, (herr _).2⟩
    · rw [if_neg he]
      exact ⟨_, rfl, (herr _).1, (herr _).2⟩

theorem parseStringLiteralLoop_total :
    ∀ (fuel : Nat) (p : parser) (b : Int) (buf : List UInt8), p.ptr ≤ p.data.length →
      p.current = some b → p.data.length - p.ptr < fuel →
      ∃ r, parseStringLiteralLoop fuel p b buf = some r ∧ p.Reaches r.1 := by
  intro fuel
  induction fuel with
  | zero => intro p b _ _ _ hf; omega
  | succ f ih =>
    intro p b buf h hb hf
    rw [parseStringLiteralLoop]
    by_cases hne : b = eof
    · have hne2 : (b != eof) = false := by simp [hne]
      simp only [hne2, Bool.false_eq_true, if_false]
      exact ⟨_, rfl, error_Reaches p _ h⟩
    · have hlt := current_lt p b h hb hne
      have hne2 : (b != eof) = true := by simp [hne]
      simp only [hne2, if_true]
      by_cases h92 : b = 92
      · obtain ⟨r, he, hr, hprog⟩ := parseEscapeSequence_total p h
        have hp := hprog hlt
        simp only [h92, if_true, he, Option.some_bind]
        by_cases hre : r.2 = eof
        · rw [if_pos hre]
          exact ⟨_, rfl, hr⟩
        · obtain ⟨q, c, ha, hr2, hqc, _⟩ := advance_total r.1 (Reaches_bound hr)
          have hq2 := hr2.2.1
          obtain ⟨r3, h3, hr3⟩ := ih q c (buf ++ [byte r.2]) (Reaches_bound hr2) hqc
            (by rw [Reaches_length hr2, Reaches_length hr]; omega)
          rw [if_neg hre, ha]
          exact ⟨r3, h3, Reaches_trans hr (Reaches_trans hr2 hr3)⟩
      · rw [if_neg h92]
        by_cases h34 : b = 34
        · obtain ⟨q, c, ha, hr, _, _⟩ := advance_total p h
          rw [if_pos h34, ha]
          exact ⟨_, rfl, hr⟩
        · rw [if_neg h34]
          by_cases h10 : b = 10
          · rw [if_pos h10]
            exact ⟨_, rfl, error_Reaches p _ h⟩
          · obtain ⟨q, c, ha, hr, hqc, hq⟩ := advance_total p h
            have hq1 := hq hlt
            obtain ⟨r3, h3, hr3⟩ := ih q c (buf ++ [byte b]) (Reaches_bound hr) hqc
              (by rw [Reaches_length hr, hq1]; omega)
            rw [if_neg h10, ha]
            exact ⟨r3, h3, Reaches_trans hr hr3⟩

theorem parseStringLiteral_total (p : parser) (h : p.ptr < p.data.length) :
    ∃ r, p.parseStringLiteral = some r ∧ p.Reaches r.1 ∧ p.ptr < r.1.ptr := by
  obtain ⟨q, c, ha, hr, hqc, hq⟩ := advance_total p (Nat.le_of_lt h)
  have hq1 := hq h
  obtain ⟨r, h2, hr2⟩ := parseStringLiteralLoop_total p.fuel q c [] (Reaches_bound hr) hqc
    (by rw [Reaches_length hr, hq1]; unfold parser.fuel; omega)
  refine ⟨r, by simp [parser.parseStringLiteral, ha, h2], Reaches_trans hr hr2, ?_⟩
  have := hr2.2.1
  omega

theorem parseRawStringLiteralLoop_total :
    ∀ (fuel : Nat) (p : parser) (b : Int) (buf : List UInt8), p.ptr ≤ p.data.length →
      p.current = some b → p.data.length - p.ptr < fuel →
      ∃ r, parseRawStringLiteralLoop fuel p b buf = some r ∧ p.Reaches r.1 := by
  intro fuel
  induction fuel with
  | zero => intro p b _ _ _ hf; omega
  | succ f ih =>
    intro p b buf h hb hf
    rw [parseRawStringLiteralLoop]
    by_cases hne : b = eof
    · have hne2 : (b != eof) = false := by simp [hne]
      simp only [hne2, Bool.false_eq_true, if_false]
      exact ⟨_, rfl, error_Reaches p _ h⟩
    · have hlt := current_lt p b h hb hne
      have hne2 : (b != eof) = true := by simp [hne]
      simp only [hne2, if_true]
      by_cases h96 : b = 96
      · obtain ⟨q, c, ha, hr, _, _⟩ := advance_total p h
        rw [if_pos h96, ha]
        exact ⟨_, rfl, hr⟩
      · rw [if_neg h96]
        by_cases h10 : b = 10
        · rw [if_pos h10]
          exact ⟨_, rfl, error_Reaches p _ h⟩
        · obtain ⟨q, c, ha, hr, hqc, hq⟩ := advance_total p h
          have hq1 := hq hlt
          obtain ⟨r3, h3, hr3⟩ := ih q c (buf ++ [byte b]) (Reaches_bound hr) hqc
            (by rw [Reaches_length hr, hq1]; omega)
          rw [if_neg h10, ha]
          exact ⟨r3, h3, Reaches_trans hr hr3⟩

theorem parseRawStringLiteral_total (p : parser) (h : p.ptr < p.data.length) :
    ∃ r, p.parseRawStringLiteral = some r ∧ p.Reaches r.1 ∧ p.ptr < r.1.ptr := by
  obtain ⟨q, c, ha, hr, hqc, hq⟩ := advance_total p (Nat.le_of_lt h)
  have hq1 := hq h
  obtain ⟨r, h2, hr2⟩ := parseRawStringLiteralLoop_total p.fuel q c [] (Reaches_bound hr) hqc
    (by rw [Reaches_length hr, hq1]; unfold parser.fuel; omega)
  refine ⟨r, by simp [parser.parseRawStringLiteral, ha, h2], Reaches_trans hr hr2, ?_⟩
  have := hr2.2.1
  omega

theorem parseRawLineLoop_total :
    ∀ (fuel : Nat) (p : parser) (b : Int) (buf : List UInt8), p.ptr ≤ p.data.length →
      p.current = some b → p.data.length - p.ptr < fuel →
      ∃ r, parseRawLineLoop fuel p b buf = some r ∧ p.Reaches r.1 := by
  intro fuel
  induction fuel with
  | zero => intro p b _ _ _ hf; omega
  | succ f ih =>
    intro p b buf h hb hf
    rw [parseRawLineLoop]
    by_cases hc : (b != eof && b != 10) = true
    · have hne : b ≠ eof := by
        intro h2
        rw [h2] at hc
        simp at hc
      have hlt := current_lt p b h hb hne
      obtain ⟨q, c, ha, hr, hqc, hq⟩ := advance_total p h
      have hq1 := hq hlt
      obtain ⟨r, h2, hr2⟩ := ih q c (if b = 13 then buf else buf ++ [byte b])
        (Reaches_bound hr) hqc (by rw [Reaches_length hr, hq1]; omega)
      rw [if_pos hc, ha]
      exact ⟨r, h2, Reaches_trans hr hr2⟩
    · rw [if_neg hc]
      exact ⟨_, rfl, Reaches_refl p h⟩

theorem parseRawLine_total (p : parser) (buf : List UInt8) (h : p.ptr < p.data.length) :
    ∃ r, p.parseRawLine buf = some r ∧ p.Reaches r.1 ∧ p.ptr < r.1.ptr := by
  obtain ⟨q, c, ha, hr, hqc, hq⟩ := advance_total p (Nat.le_of_lt h)
  have hq1 := hq h
  unfold parser.parseRawLine
  rw [ha]
  simp only [Option.some_bind]
  by_cases h32 : c = 32
  · obtain ⟨q2, c2, ha2, hr2, hqc2, _⟩ := advance_total q (Reaches_bound hr)
    have hq2 := hr2.2.1
    obtain ⟨r, h3, hr3⟩ := parseRawLineLoop_total p.fuel q2 c2 buf (Reaches_bound hr2) hqc2
      (by rw [Reaches_length hr2, Reaches_length hr]; unfold parser.fuel; omega)
    rw [if_pos h32, ha2]
    simp only [Option.map_some', Option.some_bind, hqc2]
    refine ⟨r, h3, Reaches_trans hr (Reaches_trans hr2 hr3), ?_⟩
    have := hr3.2.1
    omega
  · obtain ⟨r, h3, hr3⟩ := parseRawLineLoop_total p.fuel q c buf (Reaches_bound hr) hqc
      (by rw [Reaches_length hr]; unfold parser.fuel; omega)
    rw [if_neg h32]
    simp only [Option.some_bind, hqc]
    refine ⟨r, h3, Reaches_trans hr hr3, ?_⟩
    have := hr3.2.1
    omega

theorem parseMultiLineStringLiteralLoop_total :
    ∀ (fuel : Nat) (p : parser) (buf : List UInt8), p.ptr ≤ p.data.length →
      p.data.length - p.ptr < fuel →
      ∃ r, parseMultiLineStringLiteralLoop fuel p buf = some r ∧ p.Reaches r.1 := by
  intro fuel
  induction fuel with
  | zero => intro p _ _ hf; omega
  | succ f ih =>
    intro p buf h hf
    obtain ⟨p1, hs, hr1, b, hb, _⟩ := skipToNonSpace_total p h
    have hb1 := Reaches_bound hr1
    have hp1 := hr1.2.1
    rw [parseMultiLineStringLiteralLoop, hs]
    simp only [Option.some_bind, hb]
    by_cases h96 : b = 96
    · obtain ⟨q, c, ha, hr, _, _⟩ := advance_total p1 hb1
      rw [if_pos h96, ha]
      exact ⟨_, rfl, Reaches_trans hr1 hr⟩
    · rw [if_neg h96]
      by_cases h124 : b = 124
      · have hlt := current_lt p1 b hb1 hb (by rw [h124]; decide)
        obtain ⟨r, hl, hr2, hprog⟩ := parseRawLine_total p1
          (if (buf.length != 0) = true then buf ++ [10] else buf) hlt
        obtain ⟨q, c, ha, hr3, _, _⟩ := advance_total r.1 (Reaches_bound hr2)
        have hq := hr3.2.1
        have e1 := Reaches_length hr1
        have e2 := Reaches_length hr2
        have e3 := Reaches_length hr3
        obtain ⟨r4, h4, hr4⟩ := ih q r.2 (Reaches_bound hr3) (by omega)
        rw [if_pos h124, hl]
        simp only [Option.some_bind, ha]
        exact ⟨r4, h4, Reaches_trans hr1 (Reaches_trans hr2 (Reaches_trans hr3 hr4))⟩
      · rw [if_neg h124]
        by_cases he : b = eof
        · rw [if_pos he]
          exact ⟨_, rfl, Reaches_trans hr1 (error_Reaches p1 _ hb1)⟩
        · rw [if_neg he]
          exact ⟨_, rfl, Reaches_trans hr1 (error_Reaches p1 _ hb1)⟩

theorem parseMultiLineStringLiteral_total (p : parser) (h : p.ptr < p.data.length) :
    ∃ r, p.parseMultiLineStringLiteral = some r ∧ p.Reaches r.1 ∧ p.ptr < r.1.ptr := by
  obtain ⟨b, hn⟩ := next_total p 1 (Nat.le_of_lt h)
  unfold parser.parseMultiLineStringLiteral
  rw [hn]
  simp only [Option.some_bind]
  by_cases h13 : b = 13
  · obtain ⟨q, c, ha, hr, hq⟩ := advanceN_total p 3 (Nat.le_of_lt h)
    have hq1 := hq h (by decide)
    obtain ⟨r, h2, hr2⟩ := parseMultiLineStringLiteralLoop_total p.fuel q [] (Reaches_bound hr)
      (by rw [Reaches_length hr]; unfold parser.fuel; omega)
    rw [if_pos h13, ha]
    refine ⟨r, h2, Reaches_trans hr hr2, ?_⟩
    have := hr2.2.1
    omega
  · obtain ⟨q, c, ha, hr, hq⟩ := advanceN_total p 2 (Nat.le_of_lt h)
    have hq1 := hq h (by decide)
    obtain ⟨r, h2, hr2⟩ := parseMultiLineStringLiteralLoop_total p.fuel q [] (Reaches_bound hr)
      (by rw [Reaches_length hr]; unfold parser.fuel; omega)
    rw [if_neg h13, ha]
    refine ⟨r, h2, Reaches_trans hr hr2, ?_⟩
    have := hr2.2.1
    omega

theorem isScalar_of_not_delim (b : Int) (hs : isSpace b = false) (h40 : b ≠ 40)
    (h41 : b ≠ 41) (h34 : b ≠ 34) (h96 : b ≠ 96) (h59 : b ≠ 59) : isScalar b = true := by
  unfold isSpace at hs
  unfold isScalar
  simp at hs
  simp [hs, h40, h41, h34, h96, h59]

theorem parseNodes_total : ∀ (fuel : Nat),
    (∀ p : parser, p.ptr ≤ p.data.length → 3 * (p.data.length - p.ptr) + 1 ≤ fuel →
      ∃ r, parseSingleNode fuel p = some r ∧ p.Reaches r.1
        ∧ (r.2.2 = true → p.ptr < r.1.ptr))
    ∧ (∀ p : parser, p.ptr < p.data.length → 3 * (p.data.length - p.ptr) ≤ fuel →
      ∃ r, parseList fuel p = some r ∧ p.Reaches r.1 ∧ p.ptr < r.1.ptr)
    ∧ (∀ (p : parser) (out : List Node), p.ptr ≤ p.data.length →
      3 * (p.data.length - p.ptr) + 2 ≤ fuel →
      ∃ r, parseListLoop fuel p out = some r ∧ p.Reaches r.1) := by
  intro fuel
  induction fuel with
  | zero =>
    refine ⟨fun p _ hf => by omega, fun p h hf => by omega, fun p _ _ hf => by omega⟩
  | succ f ih =>
    obtain ⟨ihS, ihL, ihLL⟩ := ih
    refine ⟨?_, ?_, ?_⟩
    · intro p h hf
      obtain ⟨p1, hs, hr1, b, hb, hsp⟩ := skipToNonSpace_total p h
      have hb1 := Reaches_bound hr1
      have hp1 := hr1.2.1
      have e1 := Reaches_length hr1
      rw [parseSingleNode, hs]
      simp only [Option.some_bind, hb]
      by_cases h40 : b = 40
      · have hlt := current_lt p1 b hb1 hb (by rw [h40]; decide)
        obtain ⟨r, h2, hr2, hprog⟩ := ihL p1 hlt (by omega)
        rw [if_pos h40]
        exact ⟨r, h2, Reaches_trans hr1 hr2, fun _ => by omega⟩
      rw [if_neg h40]
      by_cases h41 : b = 41
      · rw [if_pos h41]
        exact ⟨_, rfl, Reaches_trans hr1 (error_Reaches p1 _ hb1), fun h3 => by cases h3⟩
      rw [if_neg h41]
      by_cases h34 : b = 34
      · have hlt := current_lt p1 b hb1 hb (by rw [h34]; decide)
        obtain ⟨r, h2, hr2, hprog⟩ := parseStringLiteral_total p1 hlt
        rw [if_pos h34]
        exact ⟨r, h2, Reaches_trans hr1 hr2, fun _ => by omega⟩
      rw [if_neg h34]
      by_cases h96 : b = 96
      · have hlt := current_lt p1 b hb1 hb (by rw [h96]; decide)
        obtain ⟨m1, hm1⟩ := matches_total p1 [96, 10]
        obtain ⟨m2, hm2⟩ := matches_total p1 [96, 13, 10]
        obtain ⟨r, h2, hr2, hprog⟩ := parseMultiLineStringLiteral_total p1 hlt
        obtain ⟨r3, h3, hr3, hprog3⟩ := parseRawStringLiteral_total p1 hlt
        rw [if_pos h96, hm1]
        simp only [Option.some_bind]
        cases m1 with
        | true =>
          simp only [if_true, Option.some_bind]
          exact ⟨r, h2, Reaches_trans hr1 hr2, fun _ => by omega⟩
        | false =>
          simp only [Bool.false_eq_true, if_false, hm2, Option.some_bind]
          cases m2 with
          | true =>
            simp only [if_true]
            exact ⟨r, h2, Reaches_trans hr1 hr2, fun _ => by omega⟩
          | false =>
            simp only [Bool.false_eq_true, if_false]
            exact ⟨r3, h3, Reaches_trans hr1 hr3, fun _ => by omega⟩
      rw [if_neg h96]
      by_cases h59 : b = 59
      · obtain ⟨q, hc, hr2, hprog⟩ := skipComment_total p1 hb1
        have hq := hprog b hb (by rw [h59]; decide) (by rw [h59]; decide)
        have e2 := Reaches_length hr2
        have b2 := Reaches_bound hr2
        obtain ⟨r, h2, hr3, hprog3⟩ := ihS q b2 (by omega)
        rw [if_pos h59, hc]
        simp only [Option.some_bind]
        refine ⟨r, h2, Reaches_trans hr1 (Reaches_trans hr2 hr3), fun _ => ?_⟩
        have := hr3.2.1
        omega
      rw [if_neg h59]
      by_cases he : b = eof
      · rw [if_pos he]
        exact ⟨_, rfl, hr1, fun h3 => by cases h3⟩
      rw [if_neg he]
      obtain ⟨r, h2, hr2, hprog⟩ := parseScalar_total p1 hb1
      have hq := hprog b hb he (isScalar_of_not_delim b hsp h40 h41 h34 h96 h59)
      rw [h2]
      exact ⟨_, rfl, Reaches_trans hr1 hr2, fun _ => by simp only; omega⟩
    · intro p h hf
      obtain ⟨q, c, ha, hr, _, hq⟩ := advance_total p (Nat.le_of_lt h)
      have hq1 := hq h
      have e1 := Reaches_length hr
      obtain ⟨r, h2, hr2⟩ := ihLL q [] (Reaches_bound hr) (by omega)
      rw [parseList, ha]
      refine ⟨r, h2, Reaches_trans hr hr2, ?_⟩
      have := hr2.2.1
      omega
    · intro p out h hf
      obtain ⟨p1, hs, hr1, b, hb, hsp⟩ := skipToNonSpace_total p h
      have hb1 := Reaches_bound hr1
      have hp1 := hr1.2.1
      have e1 := Reaches_length hr1
      rw [parseListLoop, hs]
      simp only [Option.some_bind, hb]
      by_cases he : b = eof
      · rw [if_pos he]
        exact ⟨_, rfl, Reaches_trans hr1 (error_Reaches p1 _ hb1)⟩
      rw [if_neg he]
      by_cases h41 : b = 41
      · obtain ⟨q, c, ha, hr, _, _⟩ := advance_total p1 hb1
        rw [if_pos h41, ha]
        exact ⟨_, rfl, Reaches_trans hr1 hr⟩
      rw [if_neg h41]
      obtain ⟨r, h2, hr2, hprog⟩ := ihS p1 hb1 (by omega)
      rw [h2]
      simp only [Option.some_bind]
      cases hok : r.2.2 with
      | false =>
        simp only [Bool.not_false, if_true]
        exact ⟨_, rfl, Reaches_trans hr1 hr2⟩
      | true =>
        have hq := hprog hok
        have e2 := Reaches_length hr2
        have b2 := Reaches_bound hr2
        obtain ⟨r3, h3, hr3⟩ := ihLL r.1 (out ++ [r.2.1]) b2 (by omega)
        simp only [Bool.not_true, Bool.false_eq_true, if_false]
        exact ⟨r3, h3, Reaches_trans hr1 (Reaches_trans hr2 hr3)⟩

theorem parseLoop_total :
    ∀ (fuel : Nat) (p : parser) (out : List Node), p.ptr ≤ p.data.length →
      3 * (p.data.length - p.ptr) + 3 ≤ fuel →
      ∃ r, parseLoop fuel p out = some r ∧ p.Reaches r.1 := by
  intro fuel
  induction fuel with
  | zero => intro p _ _ hf; omega
  | succ f ih =>
    intro p out h hf
    obtain ⟨r, h2, hr2, hprog⟩ := (parseNodes_total f).1 p h (by omega)
    rw [parseLoop, h2]
    simp only [Option.some_bind]
    cases hok : r.2.2 with
    | false =>
      simp only [Bool.not_false, if_true]
      exact ⟨_, rfl, hr2⟩
    | true =>
      have hq := hprog hok
      have e2 := Reaches_length hr2
      have b2 := Reaches_bound hr2
      obtain ⟨r3, h3, hr3⟩ := ih r.1 (out ++ [r.2.1]) b2 (by omega)
      simp only [Bool.not_true, Bool.false_eq_true, if_false]
      exact ⟨r3, h3, Reaches_trans hr2 hr3⟩

theorem parse_total (fuel : Nat) (data : List UInt8) (hf : parseFuel data ≤ fuel) :
    ∃ q tree, parser.parse fuel { data := data, ptr := 0, err := none } = some (q, tree)
      ∧ q.data = data ∧ q.ptr ≤ data.length := by
  obtain ⟨r, h, hr⟩ := parseLoop_total fuel { data := data, ptr := 0, err := none } []
    (Nat.zero_le _) (by unfold parseFuel at hf; simpa using hf)
  by_cases he : r.1.err = none
  · exact ⟨r.1, r.2, by simp [parser.parse, h, he], hr.1, hr.2.2⟩
  · exact ⟨r.1, [], by simp [parser.parse, h, he], hr.1, hr.2.2⟩

/-! ## The result does not depend on the fuel -/

theorem parseNodes_fuel_succ : ∀ (fuel : Nat),
    (∀ (p : parser) r, parseSingleNode fuel p = some r → parseSingleNode (fuel + 1) p = some r)
    ∧ (∀ (p : parser) r, parseList fuel p = some r → parseList (fuel + 1) p = some r)
    ∧ (∀ (p : parser) (out : List Node) r, parseListLoop fuel p out = some r →
        parseListLoop (fuel + 1) p out = some r) := by
  intro fuel
  induction fuel with
  | zero =>
    refine ⟨fun p r h => ?_, fun p r h => ?_, fun p out r h => ?_⟩
    · rw [parseSingleNode] at h; cases h
    · rw [parseList] at h; cases h
    · rw [parseListLoop] at h; cases h
  | succ f ih =>
    obtain ⟨ihS, ihL, ihLL⟩ := ih
    refine ⟨fun p r h => ?_, fun p r h => ?_, fun p out r h => ?_⟩
    · rw [parseSingleNode] at h ⊢
      cases hs : p.skipToNonSpace with
      | none => rw [hs] at h; cases h
      | some p1 =>
        rw [hs] at h
        simp only [Option.some_bind] at h ⊢
        cases hc : p1.current with
        | none => rw [hc] at h; cases h
        | some b =>
          rw [hc] at h
          simp only [Option.some_bind] at h ⊢
          by_cases h40 : b = 40
          · rw [if_pos h40] at h ⊢
            exact ihL p1 r h
          rw [if_neg h40] at h ⊢
          by_cases h41 : b = 41
          · rw [if_pos h41] at h ⊢
            exact h
          rw [if_neg h41] at h ⊢
          by_cases h34 : b = 34
          · rw [if_pos h34] at h ⊢
            exact h
          rw [if_neg h34] at h ⊢
          by_cases h96 : b = 96
          · rw [if_pos h96] at h ⊢
            exact h
          rw [if_neg h96] at h ⊢
          by_cases h59 : b = 59
          · rw [if_pos h59] at h ⊢
            cases hk : p1.skipComment with
            | none => rw [hk] at h; cases h
            | some q =>
              rw [hk] at h
              simp only [Option.some_bind] at h ⊢
              exact ihS q r h
          rw [if_neg h59] at h ⊢
          exact h
    · rw [parseList] at h ⊢
      cases ha : p.advance with
      | none => rw [ha] at h; cases h
      | some q =>
        rw [ha] at h
        simp only [Option.some_bind] at h ⊢
        exact ihLL q.1 [] r h
    · rw [parseListLoop] at h ⊢
      cases hs : p.skipToNonSpace with
      | none => rw [hs] at h; cases h
      | some p1 =>
        rw [hs] at h
        simp only [Option.some_bind] at h ⊢
        cases hc : p1.current with
        | none => rw [hc] at h; cases h
        | some b =>
          rw [hc] at h
          simp only [Option.some_bind] at h ⊢
          by_cases he : b = eof
          · rw [if_pos he] at h ⊢
            exact h
          rw [if_neg he] at h ⊢
          by_cases h41 : b = 41
          · rw [if_pos h41] at h ⊢
            exact h
          rw [if_neg h41] at h ⊢
          cases hn : parseSingleNode f p1 with
          | none => rw [hn] at h; cases h
          | some r1 =>
            rw [hn] at h
            rw [ihS p1 r1 hn]
            simp only [Option.some_bind] at h ⊢
            cases hok : r1.2.2 with
            | false =>
              rw [hok] at h
              exact h
            | true =>
              rw [hok] at h
              simp only [Bool.not_true, Bool.false_eq_true, if_false] at h ⊢
              exact ihLL r1.1 _ r h

theorem parseLoop_fuel_succ :
    ∀ (fuel : Nat) (p : parser) (out : List Node) r, parseLoop fuel p out = some r →
      parseLoop (fuel + 1) p out = some r := by
  intro fuel
  induction fuel with
  | zero => intro p out r h; rw [parseLoop] at h; cases h
  | succ f ih =>
    intro p out r h
    rw [parseLoop] at h ⊢
    cases hn : parseSingleNode f p with
    | none => rw [hn] at h; cases h
    | some r1 =>
      rw [hn] at h
      rw [(parseNodes_fuel_succ f).1 p r1 hn]
      simp only [Option.some_bind] at h ⊢
      cases hok : r1.2.2 with
      | false =>
        rw [hok] at h
        exact h
      | true =>
        rw [hok] at h
        simp only [Bool.not_true, Bool.false_eq_true, if_false] at h ⊢
        exact ih r1.1 _ r h

theorem parseLoop_fuel_le (p : parser) (out : List Node) (r : parser × List Node) :
    ∀ (k fuel : Nat), parseLoop fuel p out = some r → parseLoop (fuel + k) p out = some r := by
  intro k
  induction k with
  | zero => intro fuel h; exact h
  | succ k ih =>
    intro fuel h
    exact parseLoop_fuel_succ (fuel + k) p out r (ih fuel h)

theorem parse_fuel_stable (fuel : Nat) (data : List UInt8) (hf : parseFuel data ≤ fuel) :
    parser.parse fuel { data := data, ptr := 0, err := none }
      = parser.parse (parseFuel data) { data := data, ptr := 0, err := none } := by
  obtain ⟨r, h, _⟩ := parseLoop_total (parseFuel data) { data := data, ptr := 0, err := none } []
    (Nat.zero_le _) (by simp [parseFuel])
  have h2 := parseLoop_fuel_le _ [] r (fuel - parseFuel data) (parseFuel data) h
  have e : parseFuel data + (fuel - parseFuel data) = fuel := by omega
  rw [e] at h2
  simp only [parser.parse, h, h2]

/-! # Main results -/

/-- C1, what the code does: an unclosed list whose last line is a comment is
accepted.  For every comment text `c` without a line feed, the text `(`, `;`, `c`
(an opening parenthesis that is never closed) gives the empty tree and no error:
after the comment `parseSingleNode` meets the end of the input and reports "no
node" without recording an error, and `parseList` passes that on. -/
theorem C1_unclosed_list_after_comment_no_error (c : List UInt8) (hc : ∀ b ∈ c, b ≠ 10) :
    Parse ([40, 59] ++ c) = some ([], none) := by
  obtain ⟨g, hg⟩ : ∃ g, parseFuel ([40, 59] ++ c) = g + 2 + 1 + 2 + 1 :=
    ⟨parseFuel ([40, 59] ++ c) - 6, by simp [parseFuel]⟩
  have h2 := parseListLoop_step [] (by simp) (59 :: c)
    (by simp [hd, int, isSpace]) (by simp [hd, int, eof]) (by simp [hd, int])
    [40] none (g + 2) []
  rw [List.append_nil, parseSingleNode_comment_eof c hc [40] none g] at h2
  simp only [List.nil_append, Option.some_bind, Bool.not_false, if_true] at h2
  have h : parseLoop (parseFuel ([40, 59] ++ c)) (mkp [] ([40, 59] ++ c) none) []
      = some (mkp ([40] ++ 59 :: c) [] none, []) := by
    rw [hg, parseLoop]
    have h3 : mkp [] ([40, 59] ++ c) none = mkp [] (40 :: 59 :: c) none := rfl
    rw [h3, parseSingleNode_open]
    simp only [List.nil_append]
    rw [h2]
    simp
  rw [Parse_eq _ _ _ h]
  simp [mkp_err]

/-- C1 at `(;`: the comment is empty, and no byte of the input is a `)`. -/
theorem C1_unclosed_list_after_comment_no_error_witness :
    Parse ([40, 59] ++ []) = some ([], none) ∧ (41 : UInt8) ∉ ([59] : List UInt8) :=
  ⟨C1_unclosed_list_after_comment_no_error [] (by simp), by decide⟩

/-- C2, what the code does: a comment just before the closing parenthesis makes
the parse fail.  For every list `ts` of bare tokens and every comment text `c`
without a line feed, the text `(`, the tokens joined by single spaces, a space,
`;`, `c`, a line feed and `)` gives the error "unmatched closing parenthesis ')'"
and no tree, although the parenthesis closes the open list (without the comment,
`(a )` parses to one list node with the scalar `a`). -/
theorem C2_comment_before_closing_parenthesis_fails (ts : List (List UInt8))
    (c : List UInt8) (hts : ∀ t ∈ ts, IsToken t) (hc : ∀ b ∈ c, b ≠ 10) :
    Parse ([40] ++ List.intercalate [32] ts ++ [32, 59] ++ c ++ [10, 41])
      = some ([], some "unmatched closing parenthesis ')'") := by
  have hshape : [40] ++ List.intercalate [32] ts ++ [32, 59] ++ c ++ [10, 41]
      = 40 :: ((List.intercalate [32] ts ++ [32]) ++ 59 :: (c ++ [10, 41])) := by simp
  rw [hshape]
  cases hts0 : ts with
  | nil =>
    have h := Parse_list_comment_close [32] (by decide) [] (by simp) (by simp) c hc
    simpa [List.intercalate, joinTokens] using h
  | cons t r =>
    have h := Parse_list_comment_close [] (by simp) ((t :: r).map (fun t => (t, [32])))
      (by
        intro p hp
        obtain ⟨x, hx, rfl⟩ := List.mem_map.mp hp
        exact hts x (by rw [hts0]; exact hx))
      (by
        intro p hp
        obtain ⟨x, hx, rfl⟩ := List.mem_map.mp hp
        exact ⟨by simp, by simp [spaceBytes]⟩)
      c hc
    rw [intercalate_space (t :: r) (by simp)]
    simpa using h

/-- C2 at `(a ;c` line feed `)`: one token, the comment `c`. -/
theorem C2_comment_before_closing_parenthesis_fails_witness :
    Parse ([40] ++ List.intercalate [32] [[97]] ++ [32, 59] ++ [99] ++ [10, 41])
        = some ([], some "unmatched closing parenthesis ')'")
      ∧ Parse [40, 97, 32, 41] = some ([Node.ofList [Node.scalar [97]]], none) :=
  ⟨C2_comment_before_closing_parenthesis_fails [[97]] [99]
      (by simp [IsToken, spaceBytes, delimBytes]) (by decide), rfl⟩

/-- C3: `Parse` never returns a partial tree.  Whenever `Parse` returns an error,
the tree it returns with it is nil (empty). -/
theorem C3_no_partial_tree (data : List UInt8) (tree : List Node) (msg : String)
    (h : Parse data = some (tree, some msg)) : tree = [] := by
  unfold Parse parser.parse at h
  cases hl : parseLoop (parseFuel data) { data := data, ptr := 0, err := none } [] with
  | none => rw [hl] at h; simp at h
  | some r =>
    rw [hl] at h
    by_cases he : r.1.err = none
    · simp [he] at h
    · simp [he] at h
      exact h.1

/-- C3 at `a )`: the scalar `a` was accumulated before the unmatched parenthesis. -/
theorem C3_no_partial_tree_witness :
    Parse [97, 32, 41] = some ([], some "unmatched closing parenthesis ')'")
      ∧ ([] : List Node) = [] :=
  ⟨rfl, C3_no_partial_tree [97, 32, 41] [] "unmatched closing parenthesis ')'" rfl⟩

/-- C4: quoted-string decoding equals the reference unescape.  For every sequence
of well-formed items (plain bytes, the escapes for double quote, backslash, CR,
LF and tab, and hex escapes with two hex digits of either case), the text double
quote, source of the items, double quote parses to exactly one scalar node whose
value is the sequence of decoded bytes, with no error. -/
theorem C4_quoted_string_decoding (items : List Item) (hok : ∀ it ∈ items, it.ok) :
    Parse ([34] ++ srcOf items ++ [34]) = some ([Node.scalar (decOf items)], none) := by
  have hlen := srcOf_length items
  obtain ⟨g, hg⟩ : ∃ g, (srcOf items ++ [34]).length + 2 = (g + 1) + items.length :=
    ⟨(srcOf items).length + 2 - items.length, by simp; omega⟩
  have h1 := parseSingleNode_string [] (srcOf items ++ [34]) none
    (parseFuel ([34] ++ srcOf items ++ [34]) - 2)
  have hh : hd [34] = 34 := by decide
  rw [hg, stringLoop_items none [34] items hok, hh, stringLoop_close] at h1
  have hf : parseFuel ([34] ++ srcOf items ++ [34])
      = (parseFuel ([34] ++ srcOf items ++ [34]) - 4) + 2 + 1 + 1 := by
    simp [parseFuel]; omega
  have hf2 : parseFuel ([34] ++ srcOf items ++ [34]) - 2 + 1
      = (parseFuel ([34] ++ srcOf items ++ [34]) - 4) + 2 + 1 := by
    simp [parseFuel]; omega
  have h : parseLoop (parseFuel ([34] ++ srcOf items ++ [34]))
      (mkp [] ([34] ++ srcOf items ++ [34]) none) []
      = some (mkp ([34] ++ srcOf items ++ [34]) [] none, [Node.scalar (decOf items)]) := by
    rw [hf2] at h1
    rw [hf, parseLoop]
    have h2 : mkp [] ([34] ++ srcOf items ++ [34]) none
        = mkp [] (34 :: (srcOf items ++ [34])) none := by simp
    rw [h2, h1]
    simp [parseLoop_eof]
  rw [Parse_eq _ _ _ h]
  simp [mkp_err]

/-- C4 at the body `a\"\\\r\n\t\xfF`: a plain byte, the five escapes and a hex escape. -/
theorem C4_quoted_string_decoding_witness :
    Parse ([34] ++ srcOf [.plain 97, .quote, .backslash, .cr, .lf, .tab, .hex 102 70] ++ [34])
      = some ([Node.scalar (decOf [.plain 97, .quote, .backslash, .cr, .lf, .tab, .hex 102 70])],
          none) :=
  C4_quoted_string_decoding [.plain 97, .quote, .backslash, .cr, .lf, .tab, .hex 102 70]
    (by
      intro it hit
      simp at hit
      rcases hit with h | h | h | h | h | h | h <;> subst h <;> simp [Item.ok]; decide)

/-- C5: invalid or truncated escapes are rejected.  After an opening double quote
and plain bytes `p`: (1) a backslash followed by a byte that is none of double
quote, backslash, `r`, `n`, `t`, `x` gives the error "invalid escape sequence",
whatever follows; (2) backslash `x` followed by `s` gives an error whenever the
first two bytes of `s` are not both hex digits, also when `s` has fewer than two
bytes; (3) a backslash at the end of the input gives the error for a truncated
escape.  In every case no tree is returned. -/
theorem C5_invalid_escapes_rejected (p s : List UInt8)
    (hp : ∀ b ∈ p, b ≠ 34 ∧ b ≠ 92 ∧ b ≠ 10) :
    (∀ c : UInt8, c ∉ [34, 92, 114, 110, 116, 120] →
        Parse ([34] ++ p ++ [92, c] ++ s) = some ([], some "invalid escape sequence"))
    ∧ ((¬ ∃ h1 h2 s2, s = h1 :: h2 :: s2
          ∧ (hexDigitVal h1).isSome = true ∧ (hexDigitVal h2).isSome = true) →
        ∃ msg, Parse ([34] ++ p ++ [92, 120] ++ s) = some ([], some msg))
    ∧ Parse ([34] ++ p ++ [92])
        = some ([], some "unexpected eof when parsing a string escape sequence") := by
  refine ⟨?_, ?_, ?_⟩
  · intro c hc
    have h := parseEscapeSequence_invalid c hc ([34] ++ p) s none
    have h2 := Parse_string_fails p hp (c :: s) _ h
    simpa using h2
  · intro hs
    obtain ⟨msg, h⟩ := parseEscapeSequence_bad_hex s hs ([34] ++ p) none
    have h2 := Parse_string_fails p hp (120 :: s) msg h
    exact ⟨msg, by simpa using h2⟩
  · have h := parseEscapeSequence_truncated ([34] ++ p) none
    have h2 := Parse_string_fails p hp [] _ h
    simpa using h2

/-- C5 at `"a\N"`: the escape letter `N` (78) is not a recognised one. -/
theorem C5_invalid_escapes_rejected_witness :
    Parse ([34] ++ [97] ++ [92, 78] ++ [34]) = some ([], some "invalid escape sequence") :=
  (C5_invalid_escapes_rejected [97] [34] (by decide)).1 78 (by decide)

/-- C6, what the code does: content lines are joined with a line feed, but empty
lines at the start are dropped.  For every list of lines without line feed and
carriage return, the text backtick, line feed, the lines each written as `| `,
the line, line feed, and a closing backtick parses to exactly one scalar node
whose value is the join, with line feeds, of the lines from the first non-empty
one on.  The separator is written only when the buffer is not empty. -/
theorem C6_multiline_join_drops_leading_empty_lines (lines : List (List UInt8))
    (hl : ∀ l ∈ lines, ∀ b ∈ l, b ≠ 10 ∧ b ≠ 13) :
    Parse ([96, 10] ++ rawLines lines ++ [96])
      = some ([Node.scalar (List.intercalate [10] (lines.dropWhile (fun l => l.isEmpty)))],
          none) := by
  have hlen : lines.length ≤ (rawLines lines).length := by
    clear hl
    induction lines with
    | nil => simp
    | cons l r ih => simp [rawLines] at ih ⊢; omega
  obtain ⟨g, hg⟩ : ∃ g, (rawLines lines ++ [96]).length + 3 = (g + 1) + lines.length :=
    ⟨(rawLines lines).length + 3 - lines.length, by simp; omega⟩
  have h1 := parseSingleNode_multiLine (rawLines lines ++ [96]) [] none
    (parseFuel ([96, 10] ++ rawLines lines ++ [96]) - 2)
  rw [hg, multiLineLoop_lines none [96] lines hl, multiLineLoop_close,
    foldl_appendLine_nil] at h1
  have hf : parseFuel ([96, 10] ++ rawLines lines ++ [96])
      = (parseFuel ([96, 10] ++ rawLines lines ++ [96]) - 4) + 2 + 1 + 1 := by
    simp [parseFuel]; omega
  have hf2 : parseFuel ([96, 10] ++ rawLines lines ++ [96]) - 2 + 1
      = (parseFuel ([96, 10] ++ rawLines lines ++ [96]) - 4) + 2 + 1 := by
    simp [parseFuel]; omega
  have h : parseLoop (parseFuel ([96, 10] ++ rawLines lines ++ [96]))
      (mkp [] ([96, 10] ++ rawLines lines ++ [96]) none) []
      = some (mkp ([96, 10] ++ rawLines lines ++ [96]) [] none,
          [Node.scalar (List.intercalate [10] (lines.dropWhile (fun l => l.isEmpty)))]) := by
    rw [hf2] at h1
    rw [hf, parseLoop]
    have h2 : mkp [] ([96, 10] ++ rawLines lines ++ [96]) none
        = mkp [] (96 :: 10 :: (rawLines lines ++ [96])) none := by simp
    rw [h2, h1]
    simp [parseLoop_eof]
  rw [Parse_eq _ _ _ h]
  simp [mkp_err]

/-- C6 at the two content lines "" and "x": the result is the scalar `x`, not
the join of the two lines, which is a line feed followed by `x`. -/
theorem C6_multiline_join_drops_leading_empty_lines_witness :
    Parse ([96, 10] ++ rawLines [[], [120]] ++ [96]) = some ([Node.scalar [120]], none)
      ∧ List.intercalate [10] [[], [120]] = ([10, 120] : List UInt8) :=
  ⟨C6_multiline_join_drops_leading_empty_lines [[], [120]] (by decide), by decide⟩

/-- C7: a raw string is taken literally.  For every byte string `s` without a
backtick (96) and without a line feed (10), the text backtick, `s`, backtick
parses to exactly one scalar node whose value is `s`, with no error. -/
theorem C7_raw_string_literal (s : List UInt8) (hs : ∀ b ∈ s, b ≠ 96 ∧ b ≠ 10) :
    Parse ([96] ++ s ++ [96]) = some ([Node.scalar s], none) := by
  have h1 := parseSingleNode_raw s hs [] [] none (parseFuel ([96] ++ s ++ [96]) - 2)
  have hf : parseFuel ([96] ++ s ++ [96]) = (parseFuel ([96] ++ s ++ [96]) - 2) + 1 + 1 := by
    simp [parseFuel]
  have h : parseLoop (parseFuel ([96] ++ s ++ [96])) (mkp [] ([96] ++ s ++ [96]) none) []
      = some (mkp ([96] ++ s ++ [96]) [] none, [Node.scalar s]) := by
    rw [hf, parseLoop]
    have h2 : mkp [] ([96] ++ s ++ [96]) none = mkp [] (96 :: (s ++ 96 :: [])) none := by simp
    rw [h2, h1]
    obtain ⟨f, hff⟩ : ∃ f, parseFuel ([96] ++ s ++ [96]) - 2 + 1 = f + 2 :=
      ⟨parseFuel ([96] ++ s ++ [96]) - 3, by simp [parseFuel]⟩
    rw [hff]
    simp [parseLoop_eof]
  rw [Parse_eq _ _ _ h]
  simp [mkp_err]

/-- C7 at the text of backtick, backslash, `n`, a double quote, `(`, `;`, CR, backtick. -/
theorem C7_raw_string_literal_witness :
    Parse ([96] ++ [92, 110, 34, 40, 59, 13] ++ [96])
      = some ([Node.scalar [92, 110, 34, 40, 59, 13]], none) :=
  C7_raw_string_literal [92, 110, 34, 40, 59, 13] (by decide)

/-- C8: bare tokens separated by whitespace parse to exactly those scalars, in
order; leading and trailing whitespace is ignored, and with no token the tree is
empty and there is no error.  The input is the leading run `lead` followed by
every token with the whitespace run after it; only the last run may be empty. -/
theorem C8_bare_tokens_and_whitespace (lead : List UInt8)
    (ps : List (List UInt8 × List UInt8))
    (hlead : ∀ b ∈ lead, b ∈ spaceBytes)
    (htok : ∀ p ∈ ps, IsToken p.1)
    (hws : ∀ p ∈ ps, ∀ b ∈ p.2, b ∈ spaceBytes)
    (hsep : ∀ p ∈ ps.dropLast, p.2 ≠ []) :
    Parse (lead ++ joinTokens ps) = some (ps.map (fun p => Node.scalar p.1), none) := by
  have hlen := joinTokens_length ps (fun p hp => (htok p hp).1)
  have h := parseLoop_tokens none ps htok hws hsep lead hlead [] []
    (parseFuel (lead ++ joinTokens ps)) (by simp [parseFuel]; omega)
  rw [Parse_eq _ _ _ h]
  simp [mkp_err]

/-- C8 at `" hello\t\nworld"`: two tokens, a leading space, a tab and a line feed between. -/
theorem C8_bare_tokens_and_whitespace_witness :
    Parse ([32] ++ joinTokens [([104, 101, 108, 108, 111], [9, 10]), ([119, 111, 114, 108, 100], [])])
      = some ([([104, 101, 108, 108, 111], [9, 10]), ([119, 111, 114, 108, 100], [])].map
          (fun p => Node.scalar p.1), none) :=
  C8_bare_tokens_and_whitespace [32]
    [([104, 101, 108, 108, 111], [9, 10]), ([119, 111, 114, 108, 100], [])]
    (by decide) (by simp [IsToken, spaceBytes, delimBytes]) (by simp [spaceBytes])
    (by simp)

/-- C9: parenthesis balance.  The text of `n` opening parentheses followed by `m`
closing ones parses without error if and only if `n = m`; for `n = m = 0` the tree
is empty, and for `n = m = k + 1` it is the single node of `k + 1` nested list
nodes whose innermost node is a list with zero children. -/
theorem C9_parenthesis_balance (n m : Nat) :
    ∃ tree err, Parse (List.replicate n 40 ++ List.replicate m 41) = some (tree, err)
      ∧ (err = none ↔ n = m)
      ∧ (n = m → tree = match n with
          | 0 => []
          | k + 1 => [nestedList k]) := by
  have hlen : parseFuel (List.replicate n 40 ++ List.replicate m 41) = 3 * (n + m) + 3 := by
    simp [parseFuel]
  rcases Nat.lt_trichotomy n m with h | h | h
  · have h1 := parseLoop_unmatched n m h (parseFuel (List.replicate n 40 ++ List.replicate m 41))
      (by rw [hlen]; omega)
    refine ⟨[], some "unmatched closing parenthesis ')'", ?_, ?_, ?_⟩
    · rw [Parse_eq _ _ _ h1]; simp [mkp_err]
    · simp; omega
    · intro h2; omega
  · subst h
    cases n with
    | zero =>
      refine ⟨[], none, ?_, ?_, ?_⟩
      · have h1 := parseLoop_eof [] none 1 []
        have h2 : parseFuel (List.replicate 0 40 ++ List.replicate 0 41) = 1 + 2 := by
          simp [parseFuel]
        simp only [List.replicate, List.append_nil] at h2 ⊢
        rw [Parse_eq [] _ _ (by rw [h2]; exact h1)]
        simp [mkp_err]
      · simp
      · simp
    | succ k =>
      have h1 := parseLoop_balanced k
        (parseFuel (List.replicate (k + 1) 40 ++ List.replicate (k + 1) 41)) (by rw [hlen]; omega)
      refine ⟨[nestedList k], none, ?_, ?_, ?_⟩
      · rw [Parse_eq _ _ _ h1]; simp [mkp_err]
      · simp
      · simp
  · have h1 := parseLoop_unclosed n m h (parseFuel (List.replicate n 40 ++ List.replicate m 41))
      (by rw [hlen]; omega)
    refine ⟨[], some "unexpected eof when parsing a list", ?_, ?_, ?_⟩
    · rw [Parse_eq _ _ _ h1]; simp [mkp_err]
    · simp; omega
    · intro h2; omega

/-- C10: `Unmarshal` is parse-then-bind and a parse error wins.  If `Parse`
returns an error, `Unmarshal` returns that error, without a panic and with the
destination as it was, whatever the destination is (also when it is not a
pointer); if `Parse` returns the tree `tree` and no error and the destination is
a non-nil pointer, `Unmarshal` returns what `unmarshalValue` returns for `tree`
and the pointed-to value, and leaves that value as `unmarshalValue` leaves it. -/
theorem C10_unmarshal_is_parse_then_bind (lib : FloatLib) (data : List UInt8)
    (tree : List Node) :
    (∀ (msg : String) (out : Dest), Parse data = some (tree, some msg) →
        Unmarshal lib data out = some (Outcome.returned (some msg) out))
    ∧ (∀ (t : Ty) (v : Val), Parse data = some (tree, none) →
        Unmarshal lib data (Dest.pointer t v)
          = some (Outcome.returned (unmarshalValue lib tree t v).2
              (Dest.pointer t (unmarshalValue lib tree t v).1))) := by
  constructor
  · intro msg out h
    simp [Unmarshal, h]
  · intro t v h
    simp [Unmarshal, h]

/-- C10 at the input `(` with a struct that is not passed by pointer, and at the
input `5` with a pointer to a 16-bit integer. -/
theorem C10_unmarshal_is_parse_then_bind_witness :
    Unmarshal ⟨fun _ => none, fun x => x⟩ [40]
        (Dest.nonPointer (Ty.struct [(⟨[120], [], false, "sx"⟩, Ty.uint 8)])
          (Val.struct [Val.uint 0]))
      = some (Outcome.returned (some "unexpected eof when parsing a list")
          (Dest.nonPointer (Ty.struct [(⟨[120], [], false, "sx"⟩, Ty.uint 8)])
            (Val.struct [Val.uint 0])))
    ∧ Unmarshal ⟨fun _ => none, fun x => x⟩ [53] (Dest.pointer (Ty.int 16) (Val.int 0))
      = some (Outcome.returned
          (unmarshalValue ⟨fun _ => none, fun x => x⟩ [Node.scalar [53]] (Ty.int 16) (Val.int 0)).2
          (Dest.pointer (Ty.int 16)
            (unmarshalValue ⟨fun _ => none, fun x => x⟩ [Node.scalar [53]] (Ty.int 16)
              (Val.int 0)).1)) :=
  ⟨(C10_unmarshal_is_parse_then_bind ⟨fun _ => none, fun x => x⟩ [40] []).1
      "unexpected eof when parsing a list" _ rfl,
    (C10_unmarshal_is_parse_then_bind ⟨fun _ => none, fun x => x⟩ [53] [Node.scalar [53]]).2
      (Ty.int 16) (Val.int 0) rfl⟩

/-- C11 as stated fails: at the input `(`, which has a syntax error, `Unmarshal`
with a struct that is not passed by pointer returns the parse error; it does not
panic. -/
theorem C11_invalid_destination_counterexample :
    Unmarshal ⟨fun _ => none, fun x => x⟩ [40]
        (Dest.nonPointer (Ty.struct [(⟨[120], [], false, "sx"⟩, Ty.uint 8)])
          (Val.struct [Val.uint 0]))
      = some (Outcome.returned (some "unexpected eof when parsing a list")
          (Dest.nonPointer (Ty.struct [(⟨[120], [], false, "sx"⟩, Ty.uint 8)])
            (Val.struct [Val.uint 0]))) :=
  rfl

/-- C11, amended: an invalid destination aborts when the data parses.  For every
input that `Parse` accepts without error, `Unmarshal` with a destination that is
not a pointer, or is a nil pointer, panics and leaves the destination as it was;
for an input with a syntax error it returns the parse error instead. -/
theorem C11_invalid_destination_panics_after_parse (lib : FloatLib) (data : List UInt8)
    (out : Dest) (hout : out.isNonNilPointer = false) :
    (∀ tree, Parse data = some (tree, none) →
        Unmarshal lib data out
          = some (Outcome.panicked "sx.Unmarshal expects a non-nil pointer as 'out' argument" out))
    ∧ (∀ tree msg, Parse data = some (tree, some msg) →
        Unmarshal lib data out = some (Outcome.returned (some msg) out)) := by
  constructor
  · intro tree h
    cases out with
    | pointer t v => simp [Dest.isNonNilPointer] at hout
    | nonPointer t v => simp [Unmarshal, h]
    | nilPointer t => simp [Unmarshal, h]
  · intro tree msg h
    simp [Unmarshal, h]

/-- C11 at the input `()`, which parses, and a nil pointer to a 16-bit integer. -/
theorem C11_invalid_destination_panics_after_parse_witness :
    Unmarshal ⟨fun _ => none, fun x => x⟩ [40, 41] (Dest.nilPointer (Ty.int 16))
      = some (Outcome.panicked "sx.Unmarshal expects a non-nil pointer as 'out' argument"
          (Dest.nilPointer (Ty.int 16))) :=
  (C11_invalid_destination_panics_after_parse ⟨fun _ => none, fun x => x⟩ [40, 41]
      (Dest.nilPointer (Ty.int 16)) rfl).1 [Node.ofList []] rfl

/-- C12: primitive destinations need exactly one scalar node.  For every
destination of a primitive kind (signed integer, unsigned integer, float,
boolean, string) and every tree that is not exactly one scalar node, binding
returns the error "scalar node expected" and the destination keeps its value. -/
theorem C12_primitive_needs_one_scalar (lib : FloatLib) (t : Ty) (tree : List Node)
    (v : Val) (ht : t.isPrimitive = true) (hs : ∀ s, tree ≠ [Node.mk none s]) :
    unmarshalValue lib tree t v = (v, some "scalar node expected") := by
  have h := isTreeScalar_false tree hs
  cases t with
  | int b => rw [unmarshalValue_int]; simp [bindInt, h]
  | uint b => rw [unmarshalValue_uint]; simp [bindUint, h]
  | float b => rw [unmarshalValue_float]; simp [bindFloat, h]
  | bool => rw [unmarshalValue_bool]; simp [bindBool, h]
  | string => rw [unmarshalValue_string]; simp [bindString, h]
  | array _ _ => simp [Ty.isPrimitive] at ht
  | slice _ => simp [Ty.isPrimitive] at ht
  | map _ _ => simp [Ty.isPrimitive] at ht
  | struct _ => simp [Ty.isPrimitive] at ht
  | ptr _ => simp [Ty.isPrimitive] at ht
  | named _ _ => simp [Ty.isPrimitive] at ht
  | other => simp [Ty.isPrimitive] at ht

/-- C12 at a boolean holding `true` and the tree of the single empty list `()`. -/
theorem C12_primitive_needs_one_scalar_witness :
    unmarshalValue ⟨fun _ => none, fun x => x⟩ [Node.ofList []] Ty.bool (Val.bool true)
      = (Val.bool true, some "scalar node expected") :=
  C12_primitive_needs_one_scalar ⟨fun _ => none, fun x => x⟩ Ty.bool [Node.ofList []]
    (Val.bool true) rfl (by intro s h; simp [Node.ofList] at h)

/-- C13, what the code does: signed integer binding never wraps, and the error
of a value outside 64 bits is the parse-failure error.  For every width `w` in
8, 16, 32, 64 and every integer `n`, binding the one-scalar tree that holds the
canonical base-10 text of `n` into a `w`-bit signed destination sets it to `n`
when `-2^(w-1) <= n <= 2^(w-1)-1`; otherwise it fails and leaves the destination
unchanged, with the integer-overflow error when `n` fits in 64 bits and with the
error "node is not an integer" when it does not.  So the text
`9223372036854775808` of `2^63`, bound into a 16-bit destination holding 7,
gives "node is not an integer". -/
theorem C13_signed_integer_never_wraps (lib : FloatLib) (w : Nat)
    (hw : w = 8 ∨ w = 16 ∨ w = 32 ∨ w = 64) (n : Int) (v : Val) :
    unmarshalValue lib [Node.scalar (decimal n)] (Ty.int w) v
      = (if -(2 ^ (w - 1) : Int) ≤ n ∧ n ≤ 2 ^ (w - 1) - 1 then (Val.int n, none)
        else if -(2 ^ 63 : Int) ≤ n ∧ n ≤ 2 ^ 63 - 1 then (v, some "integer overflow")
        else (v, some "node is not an integer"))
    ∧ unmarshalValue lib
        [Node.scalar [57, 50, 50, 51, 51, 55, 50, 48, 51, 54, 56, 53, 52, 55, 55, 53, 56, 48, 56]]
        (Ty.int 16) (Val.int 7) = (Val.int 7, some "node is not an integer") := by
  refine ⟨?_, rfl⟩
  rw [unmarshalValue_int]
  exact bindInt_decimal w hw n v

/-- C13 at width 16 and a destination holding 7: the integer 1498723891729387129
of the test suite gives the integer-overflow error, the integer `2^63` gives
"node is not an integer"; the destination keeps its 7 in both. -/
theorem C13_signed_integer_never_wraps_witness :
    unmarshalValue ⟨fun _ => none, fun x => x⟩ [Node.scalar (decimal 1498723891729387129)]
        (Ty.int 16) (Val.int 7) = (Val.int 7, some "integer overflow")
    ∧ unmarshalValue ⟨fun _ => none, fun x => x⟩ [Node.scalar (decimal (2 ^ 63))]
        (Ty.int 16) (Val.int 7) = (Val.int 7, some "node is not an integer") := by
  constructor
  · have h := (C13_signed_integer_never_wraps ⟨fun _ => none, fun x => x⟩ 16 (by decide)
      1498723891729387129 (Val.int 7)).1
    rw [if_neg (by omega), if_pos (by omega)] at h
    exact h
  · have h := (C13_signed_integer_never_wraps ⟨fun _ => none, fun x => x⟩ 16 (by decide)
      (2 ^ 63) (Val.int 7)).1
    rw [if_neg (by omega), if_neg (by omega)] at h
    exact h

/-- C14, what the code does: an element whose key is not a field name is ignored,
unless the key is the empty text.  For a struct none of whose fields carries a
tag and an element `(k v ...)` whose key `k` is not empty and differs from every
field name, binding returns no error and leaves every field unchanged.  The empty
key is matched by the empty tag of the first field that is not anonymous: for the
struct with the one 16-bit integer field `Int` holding 0, `Unmarshal` of the
text `("" 7)` sets the field to 7, and the tree `("" x)` gives the error "node is
not an integer". -/
theorem C14_unknown_key_ignored_unless_empty (lib : FloatLib)
    (fs : List (StructField × Ty)) (vs : List Val) (k : List UInt8) (second : Node)
    (more : List Node) (val : List UInt8)
    (htag : ∀ f ∈ fs, f.1.Tag = []) (hname : ∀ f ∈ fs, f.1.Name ≠ k) (hk : k ≠ []) :
    unmarshalValue lib [Node.mk (some (Node.scalar k :: second :: more)) val]
        (Ty.struct fs) (Val.struct vs) = (Val.struct vs, none)
    ∧ Unmarshal lib [40, 34, 34, 32, 55, 41]
        (Dest.pointer (Ty.struct [(⟨[73, 110, 116], [], false, ""⟩, Ty.int 16)])
          (Val.struct [Val.int 0]))
      = some (Outcome.returned none
          (Dest.pointer (Ty.struct [(⟨[73, 110, 116], [], false, ""⟩, Ty.int 16)])
            (Val.struct [Val.int 7])))
    ∧ unmarshalValue lib [Node.ofList [Node.scalar [], Node.scalar [120]]]
        (Ty.struct [(⟨[73, 110, 116], [], false, ""⟩, Ty.int 16)]) (Val.struct [Val.int 0])
      = (Val.struct [Val.int 0], some "node is not an integer") := by
  refine ⟨?_, ?_, rfl⟩
  rotate_left
  · have hp : Parse [40, 34, 34, 32, 55, 41]
        = some ([Node.ofList [Node.scalar [], Node.scalar [55]]], none) := rfl
    have hb : unmarshalValue lib [Node.ofList [Node.scalar [], Node.scalar [55]]]
        (Ty.struct [(⟨[73, 110, 116], [], false, ""⟩, Ty.int 16)]) (Val.struct [Val.int 0])
          = (Val.struct [Val.int 7], none) := rfl
    simp only [Unmarshal, hp, Option.map_some', hb]
  apply unmarshalValue_struct_unmatched
  intro f hf hm
  rcases hm with hm | hm
  · rw [htag f hf] at hm
    exact absurd hm.symm hk
  · exact absurd hm (hname f hf)

/-- C14 at the struct with the field `Int` and the key `Max`, which is not a
field name: ignored; the two evaluations at the empty key come with it. -/
theorem C14_unknown_key_ignored_unless_empty_witness :
    unmarshalValue ⟨fun _ => none, fun x => x⟩
        [Node.mk (some (Node.scalar [77, 97, 120] :: Node.scalar [55] :: [])) []]
        (Ty.struct [(⟨[73, 110, 116], [], false, ""⟩, Ty.int 16)]) (Val.struct [Val.int 0])
      = (Val.struct [Val.int 0], none)
    ∧ Unmarshal ⟨fun _ => none, fun x => x⟩ [40, 34, 34, 32, 55, 41]
        (Dest.pointer (Ty.struct [(⟨[73, 110, 116], [], false, ""⟩, Ty.int 16)])
          (Val.struct [Val.int 0]))
      = some (Outcome.returned none
          (Dest.pointer (Ty.struct [(⟨[73, 110, 116], [], false, ""⟩, Ty.int 16)])
            (Val.struct [Val.int 7])))
    ∧ unmarshalValue ⟨fun _ => none, fun x => x⟩ [Node.ofList [Node.scalar [], Node.scalar [120]]]
        (Ty.struct [(⟨[73, 110, 116], [], false, ""⟩, Ty.int 16)]) (Val.struct [Val.int 0])
      = (Val.struct [Val.int 0], some "node is not an integer") :=
  C14_unknown_key_ignored_unless_empty ⟨fun _ => none, fun x => x⟩
    [(⟨[73, 110, 116], [], false, ""⟩, Ty.int 16)] [Val.int 0] [77, 97, 120]
    (Node.scalar [55]) [] [] (by decide) (by decide) (by decide)

/-- C15, at a map from strings to structs with the integer fields `A` and `B`
and the tree `(x (A 1)) (y (B 2))`: binding succeeds, and the entry under `y`
holds `A = 1, B = 2`, while binding `(B 2)` into a zero struct gives
`A = 0, B = 2`.  The field `A` set by the element of `x` appears in the entry of
`y`: the value is allocated once before the loop over the elements and is reused
by every iteration. -/
theorem C15_map_value_reused_across_entries (lib : FloatLib) :
    unmarshalValue lib
        [Node.ofList [Node.scalar [120], Node.ofList [Node.scalar [65], Node.scalar [49]]],
          Node.ofList [Node.scalar [121], Node.ofList [Node.scalar [66], Node.scalar [50]]]]
        (Ty.map Ty.string (Ty.struct [(⟨[65], [], false, ""⟩, Ty.int 64),
          (⟨[66], [], false, ""⟩, Ty.int 64)])) (Val.map none)
      = (Val.map (some [(Val.string [120], Val.struct [Val.int 1, Val.int 0]),
          (Val.string [121], Val.struct [Val.int 1, Val.int 2])]), none)
    ∧ unmarshalValue lib [Node.ofList [Node.scalar [66], Node.scalar [50]]]
        (Ty.struct [(⟨[65], [], false, ""⟩, Ty.int 64), (⟨[66], [], false, ""⟩, Ty.int 64)])
        (zero (Ty.struct [(⟨[65], [], false, ""⟩, Ty.int 64),
          (⟨[66], [], false, ""⟩, Ty.int 64)]))
      = (Val.struct [Val.int 0, Val.int 2], none) :=
  ⟨rfl, rfl⟩

/-- C16: list/unlisted equivalence for sequences.  For every array or slice
destination and every node sequence `L` that is not itself exactly one list
node, binding the one-node tree whose node is the list of `L` and binding the
tree `L` give the same error (or none) and the same final destination value. -/
theorem C16_list_unlisted_equivalence (lib : FloatLib) (t : Ty) (L : List Node)
    (val : List UInt8) (v : Val) (ht : t.isSequence = true)
    (hL : ∀ l s, L ≠ [Node.mk (some l) s]) :
    unmarshalValue lib [Node.mk (some L) val] t v = unmarshalValue lib L t v := by
  have h1 := seqTree_list L val
  have h2 := seqTree_self L hL
  cases t with
  | array n e =>
    rw [unmarshalValue_array, unmarshalValue_array]
    simp only [bindArray, h1, h2]
  | slice e =>
    rw [unmarshalValue_slice, unmarshalValue_slice]
    simp only [bindSlice, h1, h2]
  | int _ => simp [Ty.isSequence] at ht
  | uint _ => simp [Ty.isSequence] at ht
  | float _ => simp [Ty.isSequence] at ht
  | bool => simp [Ty.isSequence] at ht
  | string => simp [Ty.isSequence] at ht
  | map _ _ => simp [Ty.isSequence] at ht
  | struct _ => simp [Ty.isSequence] at ht
  | ptr _ => simp [Ty.isSequence] at ht
  | named _ _ => simp [Ty.isSequence] at ht
  | other => simp [Ty.isSequence] at ht

/-- C16 at a slice of strings and the nodes `abc def`: the trees `(abc def)` and
`abc def` give the same slice. -/
theorem C16_list_unlisted_equivalence_witness :
    unmarshalValue ⟨fun _ => none, fun x => x⟩
        [Node.mk (some [Node.scalar [97, 98, 99], Node.scalar [100, 101, 102]]) []]
        (Ty.slice Ty.string) (Val.slice none)
      = unmarshalValue ⟨fun _ => none, fun x => x⟩
        [Node.scalar [97, 98, 99], Node.scalar [100, 101, 102]]
        (Ty.slice Ty.string) (Val.slice none)
    ∧ unmarshalValue ⟨fun _ => none, fun x => x⟩
        [Node.scalar [97, 98, 99], Node.scalar [100, 101, 102]]
        (Ty.slice Ty.string) (Val.slice none)
      = (Val.slice (some [Val.string [97, 98, 99], Val.string [100, 101, 102]]), none) :=
  ⟨C16_list_unlisted_equivalence ⟨fun _ => none, fun x => x⟩ (Ty.slice Ty.string)
      [Node.scalar [97, 98, 99], Node.scalar [100, 101, 102]] [] (Val.slice none) rfl
      (by intro l s h; simp at h),
    rfl⟩

/-- C17: fixed-size sequences truncate and zero-fill.  Let the destination be an
array of capacity `N` with any previous content `prev`, and let the tree, after
its one-level list descent, be the scalars of `items` followed by the nodes
`extra`, where either there are no further nodes and at most `N` scalars (the
tree has `k <= N` nodes), or the scalars are exactly `N` (the nodes `extra`, at
the positions from `N` on, are arbitrary).  If the elements are signed integers
of `w` bits and every scalar holds a base-10 integer of that range, or the
elements are unsigned integers of `w` bits and every scalar holds a base-10
natural number below `2^w`, then binding succeeds, the first slots hold the
integers of the nodes in order, and all remaining slots hold 0. -/
theorem C17_array_truncates_and_zero_fills (lib : FloatLib) (N w : Nat) (prev : List Val)
    (tree extra : List Node) (hprev : prev.length = N) :
    (∀ items : List (List UInt8 × Int),
      seqTree tree = items.map (fun p => Node.scalar p.1) ++ extra →
      (∀ p ∈ items, ParseInt p.1 = some p.2 ∧ -(2 ^ (w - 1) : Int) ≤ p.2 ∧ p.2 ≤ 2 ^ (w - 1) - 1) →
      ((extra = [] ∧ items.length ≤ N) ∨ items.length = N) →
      unmarshalValue lib tree (Ty.array N (Ty.int w)) (Val.array prev)
        = (Val.array (items.map (fun p => Val.int p.2)
            ++ List.replicate (N - items.length) (Val.int 0)), none))
    ∧ (∀ items : List (List UInt8 × Nat),
      seqTree tree = items.map (fun p => Node.scalar p.1) ++ extra →
      (∀ p ∈ items, ParseUint p.1 = some p.2 ∧ p.2 < 2 ^ w) →
      ((extra = [] ∧ items.length ≤ N) ∨ items.length = N) →
      unmarshalValue lib tree (Ty.array N (Ty.uint w)) (Val.array prev)
        = (Val.array (items.map (fun p => Val.uint p.2)
            ++ List.replicate (N - items.length) (Val.uint 0)), none)) := by
  constructor
  · intro items htree hitems hk
    rw [unmarshalValue_array]
    exact bindArray_scalars (fun tr x => unmarshalValue lib tr (Ty.int w) x) (zero (Ty.int w))
      (fun p => p.1) (fun p => Val.int p.2) N prev tree items extra hprev htree
      (fun p hp x => by
        show unmarshalValue lib [Node.scalar p.1] (Ty.int w) x = (Val.int p.2, none)
        rw [unmarshalValue_int]
        exact bindInt_scalar w p.1 p.2 x (hitems p hp).1 (hitems p hp).2.1 (hitems p hp).2.2)
      hk
  · intro items htree hitems hk
    rw [unmarshalValue_array]
    exact bindArray_scalars (fun tr x => unmarshalValue lib tr (Ty.uint w) x) (zero (Ty.uint w))
      (fun p => p.1) (fun p => Val.uint p.2) N prev tree items extra hprev htree
      (fun p hp x => by
        show unmarshalValue lib [Node.scalar p.1] (Ty.uint w) x = (Val.uint p.2, none)
        rw [unmarshalValue_uint]
        exact bindUint_scalar w p.1 p.2 x (hitems p hp).1 (hitems p hp).2)
      hk

/-- C17 at an array of four 64-bit integers holding 9 9 9 9: the tree `1 2`
gives 1 2 0 0, and the tree `(1 2 3 4 x ())`, where the nodes from position 4 on
are not integers, gives 1 2 3 4. -/
theorem C17_array_truncates_and_zero_fills_witness :
    unmarshalValue ⟨fun _ => none, fun x => x⟩ [Node.scalar [49], Node.scalar [50]]
        (Ty.array 4 (Ty.int 64)) (Val.array [Val.int 9, Val.int 9, Val.int 9, Val.int 9])
      = (Val.array [Val.int 1, Val.int 2, Val.int 0, Val.int 0], none)
    ∧ unmarshalValue ⟨fun _ => none, fun x => x⟩
        [Node.ofList [Node.scalar [49], Node.scalar [50], Node.scalar [51], Node.scalar [52],
          Node.scalar [120], Node.ofList []]]
        (Ty.array 4 (Ty.int 64)) (Val.array [Val.int 9, Val.int 9, Val.int 9, Val.int 9])
      = (Val.array [Val.int 1, Val.int 2, Val.int 3, Val.int 4], none) :=
  ⟨(C17_array_truncates_and_zero_fills ⟨fun _ => none, fun x => x⟩ 4 64
      [Val.int 9, Val.int 9, Val.int 9, Val.int 9] [Node.scalar [49], Node.scalar [50]] []
      rfl).1 [([49], 1), ([50], 2)] rfl (by decide) (Or.inl ⟨rfl, by decide⟩),
    (C17_array_truncates_and_zero_fills ⟨fun _ => none, fun x => x⟩ 4 64
      [Val.int 9, Val.int 9, Val.int 9, Val.int 9]
      [Node.ofList [Node.scalar [49], Node.scalar [50], Node.scalar [51], Node.scalar [52],
          Node.scalar [120], Node.ofList []]]
      [Node.scalar [120], Node.ofList []] rfl).1
      [([49], 1), ([50], 2), ([51], 3), ([52], 4)] rfl (by decide) (Or.inr rfl)⟩

/-- C18: slices and maps are rebuilt from scratch.  For every slice or map
destination type, every tree and every two initial values `d1` and `d2`, binding
gives the same error (or none) and the same final value; and when binding into a
slice succeeds, the slice has exactly as many elements as the tree has nodes
after the one-level list descent. -/
theorem C18_slices_and_maps_rebuilt (lib : FloatLib) (t : Ty) (tree : List Node)
    (d1 d2 : Val) (ht : (∃ e, t = Ty.slice e) ∨ (∃ k e, t = Ty.map k e)) :
    unmarshalValue lib tree t d1 = unmarshalValue lib tree t d2
      ∧ ((∃ e, t = Ty.slice e) → (unmarshalValue lib tree t d1).2 = none →
          ∃ es, (unmarshalValue lib tree t d1).1 = Val.slice (some es)
            ∧ es.length = (seqTree tree).length) := by
  rcases ht with ⟨e, rfl⟩ | ⟨k, e, rfl⟩
  · refine ⟨by rw [unmarshalValue_slice, unmarshalValue_slice]; rfl, ?_⟩
    intro _ _
    rw [unmarshalValue_slice]
    refine ⟨_, rfl, ?_⟩
    rw [bindElems_length _ _ _ (by simp)]
    simp
  · refine ⟨by rw [unmarshalValue_map, unmarshalValue_map]; rfl, ?_⟩
    rintro ⟨e2, h⟩
    cases h

/-- C18 at a slice of booleans, the tree `(true false)`, bound into a nil slice
and into a slice that already holds three elements. -/
theorem C18_slices_and_maps_rebuilt_witness :
    unmarshalValue ⟨fun _ => none, fun x => x⟩
        [Node.ofList [Node.scalar [116, 114, 117, 101], Node.scalar [102, 97, 108, 115, 101]]]
        (Ty.slice Ty.bool) (Val.slice none)
      = unmarshalValue ⟨fun _ => none, fun x => x⟩
        [Node.ofList [Node.scalar [116, 114, 117, 101], Node.scalar [102, 97, 108, 115, 101]]]
        (Ty.slice Ty.bool) (Val.slice (some [Val.bool true, Val.bool true, Val.bool true]))
    ∧ unmarshalValue ⟨fun _ => none, fun x => x⟩
        [Node.ofList [Node.scalar [116, 114, 117, 101], Node.scalar [102, 97, 108, 115, 101]]]
        (Ty.slice Ty.bool) (Val.slice none)
      = (Val.slice (some [Val.bool true, Val.bool false]), none) :=
  ⟨(C18_slices_and_maps_rebuilt ⟨fun _ => none, fun x => x⟩ (Ty.slice Ty.bool)
      [Node.ofList [Node.scalar [116, 114, 117, 101], Node.scalar [102, 97, 108, 115, 101]]]
      (Val.slice none) (Val.slice (some [Val.bool true, Val.bool true, Val.bool true]))
      (Or.inl ⟨Ty.bool, rfl⟩)).1,
    rfl⟩

/-- C19: malformed map and struct elements are errors.  For every map
destination, and for every struct destination whose type has no promoted method
`UnmarshalSX` (`promotesUnmarshalSX fs = false`: a struct with the method is
decoded by the method, not by the struct rule), and every tree: if the element
sequence `indirectMap tree` contains a bare scalar or a list with fewer than two
nodes, binding returns an error; for a struct destination it also returns an
error if the first node of some element is not a scalar. -/
theorem C19_malformed_elements_are_errors (lib : FloatLib) (tree : List Node) (v : Val) :
    (∀ k e, (∃ n ∈ indirectMap tree, malformedElem n = true) →
        (unmarshalValue lib tree (Ty.map k e) v).2 ≠ none)
    ∧ (∀ fs, promotesUnmarshalSX fs = false →
        (∃ n ∈ indirectMap tree, malformedElem n = true ∨ nonScalarKey n = true) →
        (unmarshalValue lib tree (Ty.struct fs) v).2 ≠ none) := by
  constructor
  · intro k e h
    rw [unmarshalValue_map]
    exact bindMapLoop_malformed _ _ _ _ _ _ h
  · intro fs _ h
    rw [unmarshalValue_struct_any]
    exact bindStructLoop_malformed _ _ _ h

/-- C19 at a map from strings to booleans and the tree `(edit true) (view)`, whose
second element has one node only; and at the struct that embeds the struct with
the one field `Map`, and the tree `(Map (a true)) b` with the bare scalar `b`. -/
theorem C19_malformed_elements_are_errors_witness :
    (unmarshalValue ⟨fun _ => none, fun x => x⟩
        [Node.ofList [Node.scalar [101, 100, 105, 116], Node.scalar [116, 114, 117, 101]],
          Node.ofList [Node.scalar [118, 105, 101, 119]]]
        (Ty.map Ty.string Ty.bool) (Val.map none)).2 ≠ none
    ∧ (unmarshalValue ⟨fun _ => none, fun x => x⟩
        [Node.ofList [Node.scalar [77, 97, 112],
            Node.ofList [Node.scalar [97], Node.scalar [116, 114, 117, 101]]],
          Node.scalar [98]]
        (Ty.struct [(⟨[83, 56], [], true, ""⟩,
          Ty.struct [(⟨[77, 97, 112], [], false, ""⟩, Ty.map Ty.string Ty.bool)])])
        (Val.struct [Val.struct [Val.map none]])).2 ≠ none :=
  ⟨(C19_malformed_elements_are_errors ⟨fun _ => none, fun x => x⟩
      [Node.ofList [Node.scalar [101, 100, 105, 116], Node.scalar [116, 114, 117, 101]],
        Node.ofList [Node.scalar [118, 105, 101, 119]]] (Val.map none)).1 Ty.string Ty.bool
      ⟨Node.ofList [Node.scalar [118, 105, 101, 119]], by decide, by decide⟩,
    (C19_malformed_elements_are_errors ⟨fun _ => none, fun x => x⟩
      [Node.ofList [Node.scalar [77, 97, 112],
          Node.ofList [Node.scalar [97], Node.scalar [116, 114, 117, 101]]],
        Node.scalar [98]]
      (Val.struct [Val.struct [Val.map none]])).2
      [(⟨[83, 56], [], true, ""⟩,
        Ty.struct [(⟨[77, 97, 112], [], false, ""⟩, Ty.map Ty.string Ty.bool)])] rfl
      ⟨Node.scalar [98], by decide, Or.inl (by decide)⟩⟩

/-- C20 as stated fails: in the struct with the field `X` of tag `-` holding 5
and the field `Y` of tag `X` holding 0, the key of the element `(X hello)` equals
the declared name of the skip-tagged field `X`; the element is bound into `Y`,
whose tag it is, and gives the error "node is not an integer".  The struct has
no embedded field. -/
theorem C20_skipped_fields_counterexample :
    unmarshalValue ⟨fun _ => none, fun x => x⟩
        [Node.ofList [Node.scalar [88], Node.scalar [104, 101, 108, 108, 111]]]
        (Ty.struct [(⟨[88], [45], false, ""⟩, Ty.uint 8), (⟨[89], [88], false, ""⟩, Ty.int 8)])
        (Val.struct [Val.uint 5, Val.int 0])
      = (Val.struct [Val.uint 5, Val.int 0], some "node is not an integer")
    ∧ promotesUnmarshalSX
        [(⟨[88], [45], false, ""⟩, Ty.uint 8), (⟨[89], [88], false, ""⟩, Ty.int 8)] = false :=
  ⟨rfl, rfl⟩

/-- C20, amended: skip-tagged and embedded fields are never written.  For every
struct destination whose type has no promoted method `UnmarshalSX`
(`promotesUnmarshalSX fs = false`) and every tree, after binding, with or without
an error, every field whose tag is `-` and every anonymous field holds the value
it had before.  And an element `(k v ...)` whose key `k` addresses skipped fields
only (every field whose tag or name equals `k`, the text `-` included, is
skip-tagged or anonymous) causes no error and changes nothing. -/
theorem C20_skipped_fields_never_written (lib : FloatLib) (fs : List (StructField × Ty))
    (vs : List Val) (hfs : promotesUnmarshalSX fs = false) :
    (∀ tree : List Node, ∃ vs2,
        (unmarshalValue lib tree (Ty.struct fs) (Val.struct vs)).1 = Val.struct vs2
          ∧ vs2.length = vs.length
          ∧ ∀ (i : Nat) (f : StructField × Ty), fs[i]? = some f → f.1.skipped = true →
              vs2[i]? = vs[i]?)
    ∧ (∀ (k : List UInt8) (second : Node) (more : List Node) (val : List UInt8),
        (∀ f ∈ fs, (f.1.Tag = k ∨ f.1.Name = k) → f.1.skipped = true) →
        unmarshalValue lib [Node.mk (some (Node.scalar k :: second :: more)) val]
          (Ty.struct fs) (Val.struct vs) = (Val.struct vs, none)) := by
  have _ := hfs
  constructor
  · intro tree
    rw [unmarshalValue_struct]
    have h := bindStructLoop_frame fs (fun name rest xs => bindField lib fs name rest xs)
      (fun name rest xs r hr => bindField_frame lib fs name rest xs r hr)
      (indirectMap tree) vs
    exact ⟨_, rfl, h.1, h.2⟩
  · intro k second more val h
    exact unmarshalValue_struct_unmatched lib fs vs k second more val h

/-- C20 at the struct with the embedded struct `S8` (one field `Map`) and the
field `X` of tag `-` holding 5: the trees `(S8 hello)` and `(X hello)` give no
error and change nothing. -/
theorem C20_skipped_fields_never_written_witness :
    unmarshalValue ⟨fun _ => none, fun x => x⟩
        [Node.mk (some (Node.scalar [83, 56] :: Node.scalar [104, 101, 108, 108, 111] :: [])) []]
        (Ty.struct [(⟨[83, 56], [], true, ""⟩,
            Ty.struct [(⟨[77, 97, 112], [], false, ""⟩, Ty.map Ty.string Ty.bool)]),
          (⟨[88], [45], false, ""⟩, Ty.uint 8)])
        (Val.struct [Val.struct [Val.map none], Val.uint 5])
      = (Val.struct [Val.struct [Val.map none], Val.uint 5], none)
    ∧ unmarshalValue ⟨fun _ => none, fun x => x⟩
        [Node.mk (some (Node.scalar [88] :: Node.scalar [104, 101, 108, 108, 111] :: [])) []]
        (Ty.struct [(⟨[83, 56], [], true, ""⟩,
            Ty.struct [(⟨[77, 97, 112], [], false, ""⟩, Ty.map Ty.string Ty.bool)]),
          (⟨[88], [45], false, ""⟩, Ty.uint 8)])
        (Val.struct [Val.struct [Val.map none], Val.uint 5])
      = (Val.struct [Val.struct [Val.map none], Val.uint 5], none) :=
  ⟨(C20_skipped_fields_never_written ⟨fun _ => none, fun x => x⟩
      [(⟨[83, 56], [], true, ""⟩,
          Ty.struct [(⟨[77, 97, 112], [], false, ""⟩, Ty.map Ty.string Ty.bool)]),
        (⟨[88], [45], false, ""⟩, Ty.uint 8)]
      [Val.struct [Val.map none], Val.uint 5] rfl).2 [83, 56]
      (Node.scalar [104, 101, 108, 108, 111]) [] [] (by decide),
    (C20_skipped_fields_never_written ⟨fun _ => none, fun x => x⟩
      [(⟨[83, 56], [], true, ""⟩,
          Ty.struct [(⟨[77, 97, 112], [], false, ""⟩, Ty.map Ty.string Ty.bool)]),
        (⟨[88], [45], false, ""⟩, Ty.uint 8)]
      [Val.struct [Val.map none], Val.uint 5] rfl).2 [88]
      (Node.scalar [104, 101, 108, 108, 111]) [] [] (by decide)⟩

/-- C21: a failed bind is not rolled back.  For the struct with the 64-bit
integer fields `Min` and `Max`, both 0, the tree `(Min 5) (Max abc)` gives the
error "node is not an integer" and leaves `Min = 5, Max = 0`: the destination
differs from its value before the call, and the field written before the
failing element keeps its new value. -/
theorem C21_failed_bind_not_rolled_back (lib : FloatLib) :
    unmarshalValue lib
        [Node.ofList [Node.scalar [77, 105, 110], Node.scalar [53]],
          Node.ofList [Node.scalar [77, 97, 120], Node.scalar [97, 98, 99]]]
        (Ty.struct [(⟨[77, 105, 110], [], false, ""⟩, Ty.int 64),
          (⟨[77, 97, 120], [], false, ""⟩, Ty.int 64)])
        (Val.struct [Val.int 0, Val.int 0])
      = (Val.struct [Val.int 5, Val.int 0], some "node is not an integer")
    ∧ Val.struct [Val.int 5, Val.int 0] ≠ Val.struct [Val.int 0, Val.int 0] :=
  ⟨rfl, by decide⟩

/-- C22: exactly one enclosing list is transparent for structs.  For every struct
destination whose type has no promoted method `UnmarshalSX`
(`promotesUnmarshalSX fs = false`: a struct with the method is decoded by the
method, which is handed the tree as it is) and every tree `T` each of whose
elements is a list whose first child is a scalar (`T` may be empty), binding the
one-node tree whose node is the list of `T` gives the same error (or none) and
the same final destination as binding `T`; and binding the doubly wrapped tree
returns an error. -/
theorem C22_one_enclosing_list_transparent (lib : FloatLib) (fs : List (StructField × Ty))
    (v : Val) (T : List Node) (val1 val2 : List UInt8)
    (hfs : promotesUnmarshalSX fs = false) (hT : ∀ n ∈ T, keyedElem n = true) :
    unmarshalValue lib [Node.mk (some T) val1] (Ty.struct fs) v
        = unmarshalValue lib T (Ty.struct fs) v
    ∧ (unmarshalValue lib [Node.mk (some [Node.mk (some T) val2]) val1] (Ty.struct fs) v).2
        ≠ none := by
  have _ := hfs
  constructor
  · rw [unmarshalValue_struct_any, unmarshalValue_struct_any, indirectMap_keyed T hT,
      indirectMap_wrapped T val1 (fun n hn => keyedElem_isSome n (hT n hn))]
  · rw [unmarshalValue_struct_any,
      indirectMap_wrapped [Node.mk (some T) val2] val1 (by intro n hn; simp at hn; rw [hn]; rfl)]
    exact bindStructLoop_malformed _ _ _
      ⟨Node.mk (some T) val2, by simp, wrapped_keyed_malformed T val2 hT⟩

/-- C22 at the struct with the 64-bit integer field `Int` holding 0 and the tree
`(Int 5)`: wrapped once it binds as unwrapped, and sets the field to 5. -/
theorem C22_one_enclosing_list_transparent_witness :
    (unmarshalValue ⟨fun _ => none, fun x => x⟩
        [Node.mk (some [Node.ofList [Node.scalar [73, 110, 116], Node.scalar [53]]]) []]
        (Ty.struct [(⟨[73, 110, 116], [], false, ""⟩, Ty.int 64)]) (Val.struct [Val.int 0])
      = unmarshalValue ⟨fun _ => none, fun x => x⟩
        [Node.ofList [Node.scalar [73, 110, 116], Node.scalar [53]]]
        (Ty.struct [(⟨[73, 110, 116], [], false, ""⟩, Ty.int 64)]) (Val.struct [Val.int 0])
      ∧ (unmarshalValue ⟨fun _ => none, fun x => x⟩
        [Node.mk (some [Node.mk (some [Node.ofList [Node.scalar [73, 110, 116],
          Node.scalar [53]]]) []]) []]
        (Ty.struct [(⟨[73, 110, 116], [], false, ""⟩, Ty.int 64)]) (Val.struct [Val.int 0])).2
        ≠ none)
    ∧ unmarshalValue ⟨fun _ => none, fun x => x⟩
        [Node.ofList [Node.scalar [73, 110, 116], Node.scalar [53]]]
        (Ty.struct [(⟨[73, 110, 116], [], false, ""⟩, Ty.int 64)]) (Val.struct [Val.int 0])
      = (Val.struct [Val.int 5], none) :=
  ⟨C22_one_enclosing_list_transparent ⟨fun _ => none, fun x => x⟩
      [(⟨[73, 110, 116], [], false, ""⟩, Ty.int 64)] (Val.struct [Val.int 0])
      [Node.ofList [Node.scalar [73, 110, 116], Node.scalar [53]]] [] [] rfl (by decide),
    rfl⟩

/-- C23: in a multi-line raw string the line terminators and the spacers are
insignificant.  For every list of content lines without line feed and carriage
return, the text written with carriage return and line feed after the opening
backtick and after every line, with any run of spaces, tabs, carriage returns
and line feeds in front of every line and in front of the closing backtick,
parses to the same result as the text written with plain line feeds and no
spacers: exactly one scalar node, the join of the lines from the first non-empty
one on. -/
theorem C23_line_terminators_and_spacers_insignificant
    (lines : List (List UInt8 × List UInt8)) (ws : List UInt8)
    (hs : ∀ p ∈ lines, ∀ b ∈ p.1, b ∈ spaceBytes)
    (hl : ∀ p ∈ lines, ∀ b ∈ p.2, b ≠ 10 ∧ b ≠ 13) (hws : ∀ b ∈ ws, b ∈ spaceBytes) :
    Parse ([96, 13, 10] ++ crlfLines lines ++ ws ++ [96])
        = Parse ([96, 10] ++ rawLines (lines.map (fun p => p.2)) ++ [96])
    ∧ Parse ([96, 10] ++ rawLines (lines.map (fun p => p.2)) ++ [96])
        = some ([Node.scalar (List.intercalate [10]
            ((lines.map (fun p => p.2)).dropWhile (fun l => l.isEmpty)))], none) := by
  have h1 := Parse_crlfLines lines ws hs hl hws
  have h2 := Parse_rawLines (lines.map (fun p => p.2))
    (by intro l hm
        obtain ⟨p, hp, rfl⟩ := List.mem_map.mp hm
        exact hl p hp)
  exact ⟨h1.trans h2.symm, h2⟩

/-- C23 at the lines `a` and `b`, with a tab and an empty line in front of the
second and two spaces in front of the closing backtick: the scalar of `a`, line
feed, `b`, as for the text with plain line feeds. -/
theorem C23_line_terminators_and_spacers_insignificant_witness :
    Parse ([96, 13, 10] ++ crlfLines [([], [97]), ([9, 13, 10], [98])] ++ [32, 32] ++ [96])
        = Parse ([96, 10] ++ rawLines ([([], [97]), ([9, 13, 10], [98])].map (fun p => p.2))
            ++ [96])
    ∧ Parse ([96, 10] ++ rawLines ([([], [97]), ([9, 13, 10], [98])].map (fun p => p.2)) ++ [96])
        = some ([Node.scalar (List.intercalate [10]
            (([([], [97]), ([9, 13, 10], [98])].map (fun p => p.2)).dropWhile
              (fun l => l.isEmpty)))], none) :=
  C23_line_terminators_and_spacers_insignificant [([], [97]), ([9, 13, 10], [98])] [32, 32]
    (by decide) (by decide) (by decide)

/-- C24: `Parse` is total.  For every byte string the parser returns: no index
is out of range and no loop runs out of fuel, so `Parse` gives a tree and an
error value; the final state has the same buffer and a read pointer that is not
past its end; the tree is empty when an error is recorded; and every larger
amount of fuel gives the same result, so that the result is that of the Go
loops, which have no bound. -/
theorem C24_parse_is_total (data : List UInt8) :
    ∃ (q : parser) (tree : List Node),
      parser.parse (parseFuel data) { data := data, ptr := 0, err := none } = some (q, tree)
      ∧ Parse data = some (tree, q.err)
      ∧ q.data = data ∧ q.ptr ≤ data.length
      ∧ (q.err = none ∨ tree = [])
      ∧ ∀ k : Nat, parser.parse (parseFuel data + k) { data := data, ptr := 0, err := none }
          = some (q, tree) := by
  obtain ⟨r, h, hr⟩ := parseLoop_total (parseFuel data) { data := data, ptr := 0, err := none } []
    (Nat.zero_le _) (by simp [parseFuel])
  have hp : parser.parse (parseFuel data) { data := data, ptr := 0, err := none }
      = some (r.1, if r.1.err = none then r.2 else []) := by
    by_cases he : r.1.err = none <;> simp [parser.parse, h, he]
  refine ⟨r.1, if r.1.err = none then r.2 else [], hp, ?_, hr.1, hr.2.2, ?_, ?_⟩
  · simp [Parse, hp]
  · by_cases he : r.1.err = none
    · exact Or.inl he
    · exact Or.inr (by simp [he])
  · intro k
    rw [parse_fuel_stable (parseFuel data + k) data (Nat.le_add_right _ _), hp]

/-- C24 at the truncated input of an opening parenthesis, a double quote and a
backslash: `Parse` returns the error of the escape sequence and no tree. -/
theorem C24_parse_is_total_witness :
    (∃ (q : parser) (tree : List Node),
      parser.parse (parseFuel [40, 34, 92]) { data := [40, 34, 92], ptr := 0, err := none }
        = some (q, tree)
      ∧ Parse [40, 34, 92] = some (tree, q.err)
      ∧ q.data = [40, 34, 92] ∧ q.ptr ≤ [40, 34, 92].length
      ∧ (q.err = none ∨ tree = [])
      ∧ ∀ k : Nat, parser.parse (parseFuel [40, 34, 92] + k)
          { data := [40, 34, 92], ptr := 0, err := none } = some (q, tree))
    ∧ Parse [40, 34, 92]
      = some ([], some "unexpected eof when parsing a string escape sequence") :=
  ⟨C24_parse_is_total [40, 34, 92], rfl⟩

end sx
